import Mathlib

/-! ITOMP trajectory container and seeding: a shallow embedding.

Source files embedded here:
* `src/itomp_ca_planner/src/trajectory/itomp_cio_trajectory.cpp`
* `src/itomp_ca_planner/src/planner/itomp_planner_node.cpp`
* `src/itomp_ca_planner/src/optimization/improvement_manager.cpp`
* `src/move_kuka/src/move_kuka.cpp` (the construction of the trajectory constraints)

Conventions of the embedding.
* C++ `double` is modelled by `ℚ` (exact arithmetic); C++ `int` by `ℤ` (no wrap-around:
  every index handled here is far below `2^31`).
* An `Eigen::MatrixXd` is its two dimensions together with a total coefficient function;
  a write is a pointwise update of that function. An access outside the dimensions, which is
  undefined in C++, reads or writes the function at that index all the same.
* `for` loops over an index range are folds over `List.range`; a loop that may not end (the
  stride loop of `init()`, the IK retry loop) takes fuel and yields `none` when it runs out.
* A `ROS_ASSERT` does not change the state; its condition is a predicate of its own.
* Constants, types and library functions declared outside the embedded files
  (`DIFF_RULE_LENGTH`, the process-wide parameters, `atan2`, the `ecl` fits, the kinematics
  capability, the run of the optimizers) are parameters.
* An access `v[i]` outside a `std::vector` of the planner node yields `none`.
* `boost::lexical_cast<std::string>` of an `int` is `toString` on `ℤ`, the decimal string.
-/

namespace itomp_ca_planner

/-! ## Scalars -/

/-- The literal `1E-7` used by `safeToInt` and by the planar-displacement test. -/
def EPS7 : ℚ := 1 / 10000000

/-- The C++ conversion `(int) x` of a `double`: truncation toward zero, which on a fraction
`n/d` is `Int.tdiv n d`. -/
def truncToInt (x : ℚ) : ℤ :=
  Int.tdiv x.num (x.den : ℤ)

/-- `inline int safeToInt(double a) { return (int) (a + 1E-7); }` -/
def safeToInt (a : ℚ) : ℤ :=
  truncToInt (a + EPS7)

/-! ## Loops -/

/-- `for (int i = lo; i < hi; i++) body(i)` as a state transformer. -/
def forLoop {σ : Type} (lo hi : ℤ) (body : ℤ → σ → σ) (s : σ) : σ :=
  (List.range (hi - lo).toNat).foldl (fun st (k : ℕ) => body (lo + (k : ℤ)) st) s

/-- `for (int i = hi; i >= 0; --i) body(i)` as a state transformer. -/
def forDown {σ : Type} (hi : ℤ) (body : ℤ → σ → σ) (s : σ) : σ :=
  (List.range (hi + 1).toNat).foldl (fun st (k : ℕ) => body (hi - (k : ℤ)) st) s

/-! ## Matrices and vectors -/

/-- An `Eigen::MatrixXd`: its dimensions and its coefficients. Only the coefficients with
`0 ≤ r < rows` and `0 ≤ c < cols` are storage of the matrix; the function is total so that an
index computation can be followed wherever it leads. -/
structure MatrixXd where
  rows : ℤ
  cols : ℤ
  coeff : ℤ → ℤ → ℚ

/-- A default-constructed (0 × 0) matrix. -/
def MatrixXd.empty : MatrixXd := ⟨0, 0, fun _ _ => 0⟩

/-- `Eigen::MatrixXd(rows, cols)`: fresh storage whose contents `junk` are unspecified. -/
def MatrixXd.alloc (rows cols : ℤ) (junk : ℤ → ℤ → ℚ) : MatrixXd := ⟨rows, cols, junk⟩

/-- The write `m(i, j) = v`. -/
def MatrixXd.set (m : MatrixXd) (i j : ℤ) (v : ℚ) : MatrixXd :=
  { m with coeff := fun r c => if r = i ∧ c = j then v else m.coeff r c }

/-- `dst.block(r0, c, n, 1) = src.block(r1, c1, n, 1)`: a column segment of `n` entries. -/
def MatrixXd.copyColumnBlock (dst : MatrixXd) (r0 c n : ℤ) (src : MatrixXd) (r1 c1 : ℤ) :
    MatrixXd :=
  forLoop 0 n (fun k m => m.set (r0 + k) c (src.coeff (r1 + k) c1)) dst

/-- The storage of a matrix: the index pairs inside its dimensions. -/
def MatrixXd.inRange (m : MatrixXd) (r c : ℤ) : Prop :=
  0 ≤ r ∧ r < m.rows ∧ 0 ≤ c ∧ c < m.cols

instance (m : MatrixXd) (r c : ℤ) : Decidable (m.inRange r c) := by
  unfold MatrixXd.inRange; infer_instance

/-! ## Robot model and planning group

The headers `itomp_robot_model.h` and `itomp_planning_group.h` are not among the sources; the
types below carry exactly the members the embedded code reads. -/

/-- A joint of a planning group: `kdl_joint_index_` is its full-body column, `joint_name_`
its name. -/
structure ItompRobotJoint where
  kdl_joint_index_ : ℤ
  joint_name_ : String
  deriving DecidableEq, Inhabited

/-- Modelled from the spec: the class `ItompPlanningGroup`, whose header is missing; "an
ordered set of joint descriptors, each mapping a group-local index to a full-body joint
index". `num_contacts_` is the value returned by `getNumContacts()`. -/
structure ItompPlanningGroup where
  group_joints_ : List ItompRobotJoint
  num_contacts_ : ℤ
  deriving DecidableEq, Inhabited

/-- The member `num_joints_` of a planning group: the number of its joint descriptors. -/
def ItompPlanningGroup.num_joints_ (g : ItompPlanningGroup) : ℤ :=
  (g.group_joints_.length : ℤ)

/-- The descriptor `group_joints_[j]`. -/
def ItompPlanningGroup.joint (g : ItompPlanningGroup) (j : ℤ) : ItompRobotJoint :=
  g.group_joints_.getD j.toNat default

/-- The members of `ItompRobotModel` read by the embedded code: `getNumKDLJoints()` and
`urdfNameToKdlNumber(name)` (negative when the name is unknown). -/
structure ItompRobotModel where
  numKDLJoints : ℤ
  urdfNameToKdlNumber : String → ℤ

/-! ## The trajectory store -/

/-- The class `ItompCIOTrajectory`. The members `free_trajectory_` and `free_vel_trajectory_`
are allocated by `init()` and never read or written by any other embedded function (every use
is commented out in the source); they are left out. -/
structure ItompCIOTrajectory where
  robot_model_ : ItompRobotModel
  planning_group_ : Option ItompPlanningGroup
  num_points_ : ℤ
  num_joints_ : ℤ
  discretization_ : ℚ
  duration_ : ℚ
  num_contacts_ : ℤ
  start_index_ : ℤ
  end_index_ : ℤ
  contact_phase_duration_ : ℚ
  num_contact_phases_ : ℤ
  phase_stride_ : ℤ
  trajectory_ : MatrixXd
  contact_trajectory_ : MatrixXd
  contact_start_points_ : List ℤ
  full_trajectory_index_ : List ℤ
  vel_start_ : ℤ → ℚ
  acc_start_ : ℤ → ℚ

/-- The unspecified contents of the two matrices that `init()` allocates. -/
structure Uninit where
  traj : ℤ → ℤ → ℚ
  contact : ℤ → ℤ → ℚ

/-- `double operator()(int traj_point, int joint)`: the position entry. -/
def ItompCIOTrajectory.get (t : ItompCIOTrajectory) (i j : ℤ) : ℚ :=
  t.trajectory_.coeff i j

/-- The loop of `init()`:
`for (int i = start_index_; i < end_index_ + 1; i += phase_stride_) push_back(i);`
run for at most `fuel` evaluations of the loop test; `none` when the fuel runs out. -/
def initLoop : ℕ → ℤ → ℤ → ℤ → List ℤ → Option (List ℤ)
  | 0, _, _, _, _ => none
  | fuel + 1, i, end_index, stride, pts =>
      if i < end_index + 1 then initLoop fuel (i + stride) end_index stride (pts ++ [i])
      else some pts

/-- `void ItompCIOTrajectory::init()`: allocates the matrices and collects the phase
boundaries. The `ROS_ASSERT` that closes it is `initAssertion` below. -/
def ItompCIOTrajectory.init (fuel : ℕ) (junk : Uninit) (self : ItompCIOTrajectory) :
    Option ItompCIOTrajectory :=
  match initLoop fuel self.start_index_ self.end_index_ self.phase_stride_ [0] with
  | none => none
  | some pts =>
      some { self with
        trajectory_ := MatrixXd.alloc self.num_points_ self.num_joints_ junk.traj
        contact_trajectory_ :=
          MatrixXd.alloc (self.num_contact_phases_ + 1) self.num_contacts_ junk.contact
        contact_start_points_ := pts ++ [self.end_index_ + 1] }

/-- The condition of `ROS_ASSERT(contact_start_points_.size() == num_contact_phases_)`. -/
def ItompCIOTrajectory.initAssertion (t : ItompCIOTrajectory) : Prop :=
  (t.contact_start_points_.length : ℤ) = t.num_contact_phases_

instance (t : ItompCIOTrajectory) : Decidable t.initAssertion := by
  unfold ItompCIOTrajectory.initAssertion; infer_instance

/-- The full constructor
`ItompCIOTrajectory(robot_model, duration, discretization, num_contacts, contact_phase_duration)`.
The vectors `vel_start_`, `acc_start_` and `full_trajectory_index_` are default-constructed
(empty). -/
def ItompCIOTrajectory.ctor (fuel : ℕ) (junk : Uninit) (robot_model : ItompRobotModel)
    (duration discretization num_contacts contact_phase_duration : ℚ) :
    Option ItompCIOTrajectory :=
  let num_points := safeToInt (duration / discretization) + 1
  ItompCIOTrajectory.init fuel junk
    { robot_model_ := robot_model
      planning_group_ := none
      num_points_ := num_points
      num_joints_ := robot_model.numKDLJoints
      discretization_ := discretization
      duration_ := duration
      num_contacts_ := truncToInt num_contacts
      start_index_ := 1
      end_index_ := num_points - 2
      contact_phase_duration_ := contact_phase_duration
      num_contact_phases_ := safeToInt (duration / contact_phase_duration) + 2
      phase_stride_ := safeToInt (contact_phase_duration / discretization)
      trajectory_ := MatrixXd.empty
      contact_trajectory_ := MatrixXd.empty
      contact_start_points_ := []
      full_trajectory_index_ := []
      vel_start_ := fun _ => 0
      acc_start_ := fun _ => 0 }

/-- The condition of `ROS_ASSERT(duration == duration_)` in the body of the full constructor:
the argument `duration` against the member of the constructed trajectory. It is the only check
the constructor makes on the duration. -/
def ItompCIOTrajectory.ctorAssertion (t : ItompCIOTrajectory) (duration : ℚ) : Prop :=
  duration = t.duration_

instance (t : ItompCIOTrajectory) (duration : ℚ) : Decidable (t.ctorAssertion duration) := by
  unfold ItompCIOTrajectory.ctorAssertion; infer_instance

/-- The clamping of a source row in the group constructor and in `copyFromFullTrajectory`:
`if (p < 0) p = 0; if (p >= n) p = n - 1;`. -/
def clampPoint (p n : ℤ) : ℤ :=
  let p1 := if p < 0 then 0 else p
  if p1 ≥ n then n - 1 else p1

/-- `void ItompCIOTrajectory::copyFromFullTrajectory(full_trajectory)`. The constant
`DIFF_RULE_LENGTH` comes from a header that is not among the sources and is a parameter.
`none` stands for the dereference of a null `planning_group_`. -/
def ItompCIOTrajectory.copyFromFullTrajectory (DIFF_RULE_LENGTH : ℤ)
    (self full_trajectory : ItompCIOTrajectory) : Option ItompCIOTrajectory :=
  match self.planning_group_ with
  | none => none
  | some pg =>
    let start_extra := (DIFF_RULE_LENGTH - 1) - full_trajectory.start_index_
    -- now copy the trajectories over
    let m1 := forLoop 0 self.num_points_ (fun i m =>
      let source_traj_point := clampPoint (i - start_extra) full_trajectory.num_points_
      forLoop 0 self.num_joints_ (fun j m =>
        let source_joint := (pg.joint j).kdl_joint_index_
        m.set i j (full_trajectory.get source_traj_point source_joint)) m) self.trajectory_
    -- set pre start points using vel, acc
    let m2 := forLoop 0 self.num_joints_ (fun j m =>
      let source_joint := (pg.joint j).kdl_joint_index_
      let pos := full_trajectory.get 0 source_joint
      let vel := full_trajectory.vel_start_ source_joint
      let acc := full_trajectory.acc_start_ source_joint
      -- only for root pos
      if source_joint < 6 then
        (forDown (start_extra - 1) (fun i (st : ℚ × ℚ × MatrixXd) =>
          let new_vel := st.1 - acc * self.discretization_
          let new_pos := st.2.1 - st.1 * self.discretization_
          (new_vel, new_pos, st.2.2.set i j new_pos)) (vel, pos, m)).2.2
      else m) m1
    some { self with trajectory_ := m2 }

/-- The group constructor
`ItompCIOTrajectory(source_traj, planning_group, diff_rule_length)`: the restricted view. -/
def ItompCIOTrajectory.ctorGroup (fuel : ℕ) (junk : Uninit) (DIFF_RULE_LENGTH : ℤ)
    (source_traj : ItompCIOTrajectory) (planning_group : ItompPlanningGroup)
    (diff_rule_length : ℤ) : Option ItompCIOTrajectory :=
  let start_extra := (diff_rule_length - 1) - source_traj.start_index_
  let end_extra := (diff_rule_length - 1)
    - ((source_traj.num_points_ - 1) - source_traj.end_index_)
  let num_points := source_traj.num_points_ + start_extra + end_extra
  let self0 : ItompCIOTrajectory :=
    { robot_model_ := source_traj.robot_model_
      planning_group_ := some planning_group
      phase_stride_ := source_traj.phase_stride_
      discretization_ := source_traj.discretization_
      num_contacts_ := source_traj.num_contacts_
      contact_phase_duration_ := source_traj.contact_phase_duration_
      num_contact_phases_ := source_traj.num_contact_phases_
      num_joints_ := planning_group.num_joints_
      num_points_ := num_points
      start_index_ := diff_rule_length - 1
      end_index_ := (num_points - 1) - (diff_rule_length - 1)
      duration_ := source_traj.duration_
      trajectory_ := MatrixXd.empty
      contact_trajectory_ := MatrixXd.empty
      contact_start_points_ := []
      full_trajectory_index_ := []
      vel_start_ := fun _ => 0
      acc_start_ := fun _ => 0 }
  -- allocate the memory
  match ItompCIOTrajectory.init fuel junk self0 with
  | none => none
  | some self1 =>
    -- now copy the trajectories over
    match ItompCIOTrajectory.copyFromFullTrajectory DIFF_RULE_LENGTH self1 source_traj with
    | none => none
    | some self2 =>
      some { self2 with
        contact_trajectory_ := source_traj.contact_trajectory_
        full_trajectory_index_ :=
          (List.range num_points.toNat).map
            (fun (i : ℕ) => clampPoint ((i : ℤ) - start_extra) source_traj.num_points_) }

/-- The position entries `full_trajectory(row, column)` that `copyFromFullTrajectory` reads,
in the order of the reads: one in each pass of the inner copy loop, then the one of row 0
taken for each group joint before its pre-start loop. The list depends only on the members
`planning_group_`, `num_points_` and `num_joints_` of the view, which the group constructor
does not change after `init()`, so for a view `V` returned by the group constructor it is the
list of the reads made while `V` was built. -/
def ItompCIOTrajectory.copyFromFullTrajectoryReads (DIFF_RULE_LENGTH : ℤ)
    (self full_trajectory : ItompCIOTrajectory) : List (ℤ × ℤ) :=
  match self.planning_group_ with
  | none => []
  | some pg =>
    let start_extra := (DIFF_RULE_LENGTH - 1) - full_trajectory.start_index_
    let r1 := forLoop 0 self.num_points_ (fun i (rs : List (ℤ × ℤ)) =>
      let source_traj_point := clampPoint (i - start_extra) full_trajectory.num_points_
      forLoop 0 self.num_joints_ (fun j (rs : List (ℤ × ℤ)) =>
        let source_joint := (pg.joint j).kdl_joint_index_
        rs ++ [(source_traj_point, source_joint)]) rs) []
    forLoop 0 self.num_joints_ (fun j (rs : List (ℤ × ℤ)) =>
      let source_joint := (pg.joint j).kdl_joint_index_
      rs ++ [(0, source_joint)]) r1

/-- The first loop of `updateFromGroupTrajectory` (lines 216-224): one column block per group
joint, from the view's rows starting at its `start_index_` to the rows of `self` starting at
its own `start_index_`. -/
def ItompCIOTrajectory.mergePositions (self group_trajectory : ItompCIOTrajectory)
    (pg : ItompPlanningGroup) : MatrixXd :=
  let num_vars_free := self.end_index_ - self.start_index_ + 1
  forLoop 0 pg.num_joints_ (fun i m =>
    let target_joint := (pg.joint i).kdl_joint_index_
    m.copyColumnBlock self.start_index_ target_joint num_vars_free
      group_trajectory.trajectory_ group_trajectory.start_index_ i) self.trajectory_

/-- The second loop of `updateFromGroupTrajectory` (lines 226-238): one column block per
contact of the group. -/
def ItompCIOTrajectory.mergeContacts (self group_trajectory : ItompCIOTrajectory)
    (pg : ItompPlanningGroup) : MatrixXd :=
  let contact_end_index := self.num_contact_phases_ - 2
  let contact_start_index := 1
  let num_contact_vars_free := contact_end_index - contact_start_index + 1
  forLoop 0 pg.num_contacts_ (fun i cm =>
    let target_contact := i
    cm.copyColumnBlock contact_start_index target_contact num_contact_vars_free
      group_trajectory.contact_trajectory_ contact_start_index i) self.contact_trajectory_

/-- `void ItompCIOTrajectory::updateFromGroupTrajectory(group_trajectory)`: the merge of a
restricted view back into the full-body trajectory. `none` stands for the dereference of a
null `group_trajectory.planning_group_`. -/
def ItompCIOTrajectory.updateFromGroupTrajectory
    (self group_trajectory : ItompCIOTrajectory) : Option ItompCIOTrajectory :=
  match group_trajectory.planning_group_ with
  | none => none
  | some pg =>
    some { self with
      trajectory_ := self.mergePositions group_trajectory pg
      contact_trajectory_ := self.mergeContacts group_trajectory pg }

/-! ## The quintic of `fillInMinJerk` -/

/-- The six coefficients `coeff[i][0..5]` of `fillInMinJerk` (lines 409-414), as a function of
the start value `x0`, the already scaled start velocity `v0` and acceleration `a0`, and the end
value `x1`. -/
def minJerkCoeff (x0 v0 a0 x1 : ℚ) : List ℚ :=
  [ x0,
    v0,
    (1 / 2) * a0,
    (-(3 / 2) * a0 - 6 * v0 - 10 * x0 + 10 * x1),
    ((3 / 2) * a0 + 8 * v0 + 15 * x0 - 15 * x1),
    (-(1 / 2) * a0 - 3 * v0 - 6 * x0 + 6 * x1) ]

/-- The powers `t[0..5]` of the normalised time: `t[0] = 1`, `t[1] = t1`,
`t[k] = t[k-1] * t[1]`. -/
def timePowers (t1 : ℚ) : List ℚ :=
  let t2 := t1 * t1
  let t3 := t2 * t1
  let t4 := t3 * t1
  let t5 := t4 * t1
  [1, t1, t2, t3, t4, t5]

/-- The accumulation `x = 0.0; for k in 0..5: x += t[k] * coeff[k]`. -/
def evalPoly (t c : List ℚ) : ℚ :=
  (List.range 6).foldl (fun acc k => acc + t.getD k 0 * c.getD k 0) 0

/-! ## Free-end min-jerk seeding -/

/-- `const int ROT_JOINT_INDEX = 5;` -/
def ROT_JOINT_INDEX : ℤ := 5

/-- The values of the process-wide parameters and of the C library that `fillInMinJerk` reads:
`PlanningParameters::getHasRoot6d()`, the function `atan2`, the constant `M_PI`, and the
unspecified contents `coeffJunk` of the local array `coeff[num_joints_][6]`. -/
structure SeedEnv where
  hasRoot6d : Bool
  atan2 : ℚ → ℚ → ℚ
  M_PI : ℚ
  coeffJunk : ℤ → List ℚ

/-- The first loop of `fillInMinJerk` (lines 380-415): for each joint of the set either flag the
rotation joint and skip it, or compute the six coefficients. The state is
`(hasRotation, coeff)`. -/
def ItompCIOTrajectory.minJerkCoeffLoop (env : SeedEnv) (self : ItompCIOTrajectory)
    (groupJointsKDLIndices : List ℤ) (joint_vel_array joint_acc_array : ℤ → ℚ) :
    Bool × (ℤ → List ℚ) :=
  let start_index := self.start_index_ - 1
  let end_index := self.end_index_ + 1
  let duration := ((end_index - start_index : ℤ) : ℚ) * self.discretization_
  groupJointsKDLIndices.foldl (fun (st : Bool × (ℤ → List ℚ)) i =>
    -- rotation is handled in a special manner
    if i = ROT_JOINT_INDEX ∧ env.hasRoot6d = true
        ∧ (|self.get start_index 0 - self.get end_index 0| > EPS7
          ∨ |self.get start_index 1 - self.get end_index 1| > EPS7) then
      (true, st.2)
    else
      let x0 := self.get start_index i
      let x1 := self.get end_index i
      let v0 := if i < 6 then joint_vel_array i else 0
      let a0 := if i < 6 then joint_acc_array i else 0
      let v0 := v0 * duration
      let a0 := a0 * duration * duration
      (st.1, fun j => if j = i then minJerkCoeff x0 v0 a0 x1 else st.2 j))
    (false, env.coeffJunk)

/-- The fill loop of `fillInMinJerk` (lines 417-438): every row strictly between the two
boundary rows, every joint of the set. -/
def ItompCIOTrajectory.minJerkFillLoop (self : ItompCIOTrajectory)
    (groupJointsKDLIndices : List ℤ) (coeff : ℤ → List ℚ) (m : MatrixXd) : MatrixXd :=
  let start_index := self.start_index_ - 1
  let end_index := self.end_index_ + 1
  let numPoints := end_index - start_index
  forLoop (start_index + 1) end_index (fun i m =>
    let t := timePowers (((i - start_index : ℤ) : ℚ) / (numPoints : ℚ))
    groupJointsKDLIndices.foldl (fun m j => m.set i j (evalPoly t (coeff j))) m) m

/-- The rotation block of `fillInMinJerk` (lines 440-516): four quintic segments of the column
`ROT_JOINT_INDEX` through start yaw, direction of travel (twice) and goal yaw (twice).
The vector `contact_start_points_` has at least two elements after `init()`; an index outside
it is read as 0, and `size() - 3` below 0 is taken as 0. -/
def ItompCIOTrajectory.minJerkRotation (env : SeedEnv) (self : ItompCIOTrajectory)
    (joint_vel_array joint_acc_array : ℤ → ℚ) (m : MatrixXd) : MatrixXd :=
  let start_index := self.start_index_ - 1
  let end_index := self.end_index_ + 1
  let diff_x := m.coeff end_index 0 - m.coeff start_index 0
  let diff_y := m.coeff end_index 1 - m.coeff start_index 1
  let dir_angle := env.atan2 diff_y diff_x - env.M_PI * (1 / 2)
  let csp := self.contact_start_points_
  let interp_indices : List ℤ :=
    [ start_index, csp.getD 2 0 - 1, csp.getD (csp.length - 3) 0 - 1,
      csp.getD (csp.length - 2) 0 - 1, end_index - 1 ]
  let interp_values : List ℚ :=
    [ m.coeff start_index ROT_JOINT_INDEX, dir_angle, dir_angle,
      m.coeff end_index ROT_JOINT_INDEX, m.coeff end_index ROT_JOINT_INDEX ]
  forLoop 0 4 (fun idx m =>
    let interp_start_index := interp_indices.getD idx.toNat 0
    let interp_end_index := interp_indices.getD (idx.toNat + 1) 0
    let duration := ((interp_end_index - interp_start_index : ℤ) : ℚ) * self.discretization_
    let x0 := interp_values.getD idx.toNat 0
    let x1 := interp_values.getD (idx.toNat + 1) 0
    let v0 := if idx = 0 then joint_vel_array ROT_JOINT_INDEX else 0
    let a0 := if idx = 0 then joint_acc_array ROT_JOINT_INDEX else 0
    let v0 := v0 * duration
    let a0 := a0 * duration * duration
    let coeff := minJerkCoeff x0 v0 a0 x1
    let numPoints := interp_end_index - interp_start_index
    forLoop (interp_start_index + 1) (interp_end_index + 1) (fun i m =>
      let t := timePowers (((i - interp_start_index : ℤ) : ℚ) / (numPoints : ℚ))
      m.set i ROT_JOINT_INDEX (evalPoly t coeff)) m) m

/-- `void ItompCIOTrajectory::fillInMinJerk(groupJointsKDLIndices, joint_vel_array,
joint_acc_array)`: free-end min-jerk seeding. The `std::set<int>` is the list of its elements
in iteration (ascending) order. -/
def ItompCIOTrajectory.fillInMinJerk (env : SeedEnv) (self : ItompCIOTrajectory)
    (groupJointsKDLIndices : List ℤ) (joint_vel_array joint_acc_array : ℤ → ℚ) :
    ItompCIOTrajectory :=
  let st := self.minJerkCoeffLoop env groupJointsKDLIndices joint_vel_array joint_acc_array
  let hasRotation := st.1
  -- now fill in the joint positions at each time step
  let m1 := self.minJerkFillLoop groupJointsKDLIndices st.2 self.trajectory_
  -- rotation reaches the goal in the first contact phase
  let m2 := if hasRotation then self.minJerkRotation env joint_vel_array joint_acc_array m1
            else m1
  { self with
    vel_start_ := joint_vel_array
    acc_start_ := joint_acc_array
    trajectory_ := m2 }

/-- The test of lines 388-393 that sends a joint of the set to the rotation block. -/
def isRotationCase (env : SeedEnv) (self : ItompCIOTrajectory) (i : ℤ) : Prop :=
  i = ROT_JOINT_INDEX ∧ env.hasRoot6d = true
    ∧ (|self.get (self.start_index_ - 1) 0 - self.get (self.end_index_ + 1) 0| > EPS7
      ∨ |self.get (self.start_index_ - 1) 1 - self.get (self.end_index_ + 1) 1| > EPS7)

/-! ## Constraint messages

The `moveit_msgs` and `geometry_msgs` message types, with the fields the embedded code reads. -/

/-- `moveit_msgs::JointConstraint`. -/
structure JointConstraint where
  joint_name : String
  position : ℚ
  deriving DecidableEq, Inhabited

/-- `geometry_msgs::Vector3`. -/
structure Vector3 where
  x : ℚ
  y : ℚ
  z : ℚ
  deriving DecidableEq, Inhabited

/-- `geometry_msgs::Quaternion`. -/
structure QuaternionMsg where
  x : ℚ
  y : ℚ
  z : ℚ
  w : ℚ
  deriving DecidableEq, Inhabited

/-- `moveit_msgs::PositionConstraint`. -/
structure PositionConstraint where
  target_point_offset : Vector3
  deriving DecidableEq, Inhabited

/-- `moveit_msgs::OrientationConstraint`. -/
structure OrientationConstraint where
  orientation : QuaternionMsg
  deriving DecidableEq, Inhabited

/-- `moveit_msgs::Constraints`. -/
structure Constraints where
  name : String
  joint_constraints : List JointConstraint
  position_constraints : List PositionConstraint
  orientation_constraints : List OrientationConstraint
  deriving DecidableEq, Inhabited

/-- `moveit_msgs::TrajectoryConstraints`. -/
structure TrajectoryConstraints where
  constraints : List Constraints
  deriving DecidableEq, Inhabited

/-- `trajectory_constraints.constraints[i].joint_constraints[k].position`; an index outside
either vector reads the default message. -/
def TrajectoryConstraints.position (tc : TrajectoryConstraints) (i k : ℤ) : ℚ :=
  (((tc.constraints.getD i.toNat default).joint_constraints).getD k.toNat default).position

/-! ## Waypoint-constrained seeding -/

/-- The functions of the C library and of the `ecl` geometry library that waypoint seeding
calls: `sqrt`, `ecl::QuinticPolynomial::Interpolation(x_i, y_i, y'_i, y''_i, x_f, y_f, y'_f,
y''_f)` and `ecl::CubicSpline::Natural(x_set, y_set)`, the last two returning the function
they fit. -/
structure EclEnv where
  sqrt : ℚ → ℚ
  quinticInterpolation : ℚ → ℚ → ℚ → ℚ → ℚ → ℚ → ℚ → ℚ → ℚ → ℚ
  cubicNatural : List ℚ → List ℚ → ℚ → ℚ

/-- The two search loops of lines 534-553: the value of `traj_constraint_begin` (the first
constraint named by the candidate index, 0 when there is none) and of `traj_constraint_end`
(one past the first constraint named "end" at or after the position where the first loop
stopped, the number of constraints when there is none). -/
def constraintBlock (tc : TrajectoryConstraints) (trajectory_index : ℤ) : ℤ × ℤ :=
  let names := tc.constraints.map (fun c => c.name)
  let trajectory_index_string := toString trajectory_index
  let i1 := names.findIdx (fun n => n == trajectory_index_string)
  let traj_constraint_begin : ℤ := if i1 < names.length then (i1 : ℤ) else 0
  let i2 := i1 + (names.drop i1).findIdx (fun n => n == "end")
  let traj_constraint_end : ℤ := if i2 < names.length then (i2 : ℤ) + 1 else (names.length : ℤ)
  (traj_constraint_begin, traj_constraint_end)

/-- The entries of `acc_dist` (lines 558-571): `acc_dist[0] = 0` and
`acc_dist[i] = acc_dist[i-1] + sqrt(sum_k (x1 - x0)^2)` with
`x0 = constraints[i-1].joint_constraints[k].position`,
`x1 = constraints[i].joint_constraints[k].position`, `k` ranging over the joint constraints
of `constraints[traj_constraint_begin]`. -/
def accDist (ecl : EclEnv) (tc : TrajectoryConstraints) (traj_constraint_begin : ℤ) : ℕ → ℚ
  | 0 => 0
  | i + 1 =>
    let width : ℤ :=
      ((tc.constraints.getD traj_constraint_begin.toNat default).joint_constraints.length : ℤ)
    let d := forLoop 0 width (fun k d =>
      let x0 := tc.position (((i + 1 : ℕ) : ℤ) - 1) k
      let x1 := tc.position ((i + 1 : ℕ) : ℤ) k
      d + (x1 - x0) * (x1 - x0)) 0
    accDist ecl tc traj_constraint_begin i + ecl.sqrt d

/-- The lookup of lines 582-597: whether the first constraint of the block names the joint, and
the index of the last joint constraint that does. -/
def findJointConstraint (tc : TrajectoryConstraints) (traj_constraint_begin : ℤ)
    (joint_name : String) : Bool × ℤ :=
  let jcs := (tc.constraints.getD traj_constraint_begin.toNat default).joint_constraints
  forLoop 0 (jcs.length : ℤ) (fun k (st : Bool × ℤ) =>
    if (jcs.getD k.toNat default).joint_name = joint_name then (true, k) else st) (false, -1)

/-- The body of the joint loop of waypoint seeding (lines 580-650) for the column `j` and the
running counter `group_joint_index`. -/
def ItompCIOTrajectory.seedWaypointJoint (ecl : EclEnv) (self : ItompCIOTrajectory)
    (planning_group : ItompPlanningGroup) (tc : TrajectoryConstraints)
    (traj_constraint_begin traj_constraint_end : ℤ) (j group_joint_index : ℤ)
    (m : MatrixXd) : MatrixXd :=
  let num_constraint_points := traj_constraint_end - traj_constraint_begin
  let found := findJointConstraint tc traj_constraint_begin
    (planning_group.joint group_joint_index).joint_name_
  let has_constraints := found.1
  let constraint_index := found.2
  if ¬ has_constraints then
    let x0 := m.coeff 0 j
    let x1 := m.coeff self.num_points_ j
    let poly := ecl.quinticInterpolation 0 x0 0 0 self.duration_ x1 0 0
    forLoop 1 (self.num_points_ - 1) (fun i m =>
      m.set i j (poly ((i : ℚ) * self.discretization_))) m
  else
    let acc_dist_end := accDist ecl tc traj_constraint_begin (num_constraint_points - 1).toNat
    let array_x := (List.range num_constraint_points.toNat).map
      (fun (k : ℕ) => accDist ecl tc traj_constraint_begin k)
    let array_y := (List.range num_constraint_points.toNat).map
      (fun (k : ℕ) => tc.position ((k : ℤ) + traj_constraint_begin) constraint_index)
    let cubic := ecl.cubicNatural array_x array_y
    forLoop 0 (self.num_points_ - 1) (fun i m =>
      let x := (i : ℚ) / ((self.num_points_ - 1 : ℤ) : ℚ) * acc_dist_end
      m.set i j (cubic x)) m

/-- `void ItompCIOTrajectory::fillInMinJerk(trajectory_index, groupJointsKDLIndices,
planning_group, trajectory_constraints, joint_vel_array, joint_acc_array)`: waypoint-constrained
seeding. -/
def ItompCIOTrajectory.fillInMinJerkConstraints (ecl : EclEnv) (self : ItompCIOTrajectory)
    (trajectory_index : ℤ) (groupJointsKDLIndices : List ℤ)
    (planning_group : ItompPlanningGroup) (trajectory_constraints : TrajectoryConstraints)
    (joint_vel_array joint_acc_array : ℤ → ℚ) : ItompCIOTrajectory :=
  let block := constraintBlock trajectory_constraints trajectory_index
  let st := groupJointsKDLIndices.foldl (fun (st : ℤ × MatrixXd) j =>
    (st.1 + 1,
      self.seedWaypointJoint ecl planning_group trajectory_constraints block.1 block.2 j st.1
        st.2)) (0, self.trajectory_)
  { self with
    vel_start_ := joint_vel_array
    acc_start_ := joint_acc_array
    trajectory_ := st.2 }

/-! ## Cartesian path seeding -/

/-- The end-effector target `end_effector_state`: an `Eigen::Affine3d` whose linear part is the
rotation of the quaternion and whose translation is the sampled position. -/
structure Pose where
  orientation : QuaternionMsg
  translation : Vector3

/-- The kinematics capability, over an abstract `robot_state::RobotState`: the state with
given variable positions, `setFromIK` (the new state and whether a solution was found),
`getVariablePositions()[k]` and `getVariableCount()`. -/
structure Kinematics (σ : Type) where
  setVariablePositions : List ℚ → σ
  setFromIK : σ → String → Pose → σ × Bool
  getVariablePositions : σ → ℤ → ℚ
  getVariableCount : σ → ℤ

/-- The loop `while (found_ik == false) found_ik = kinematic_state->setFromIK(...)` of lines
773-804, run for at most `fuel` calls; `none` when the fuel runs out. -/
def ikRetry {σ : Type} (kin : Kinematics σ) (group_name : String) (pose : Pose) :
    ℕ → σ → Option σ
  | 0, _ => none
  | fuel + 1, ks =>
    let r := kin.setFromIK ks group_name pose
    if r.2 = true then some r.1 else ikRetry kin group_name pose fuel r.1

/-- The coefficients of the three Cartesian quintics (lines 700-732). -/
def cartesianCoeff (start_position goal_position : Vector3) (duration : ℚ) (axis : ℤ) :
    List ℚ :=
  let x0 := if axis = 0 then start_position.x else if axis = 1 then start_position.y
    else start_position.z
  let x1 := if axis = 0 then goal_position.x else if axis = 1 then goal_position.y
    else goal_position.z
  let v0 : ℚ := 0
  let a0 : ℚ := 0
  let v0 := v0 * duration
  let a0 := a0 * duration * duration
  minJerkCoeff x0 v0 a0 x1

/-- The target `end_effector_state` of the row `i` (lines 738-768): the sampled position of the
three Cartesian quintics and the fixed orientation. An index outside `position_constraints` or
`orientation_constraints` reads the default message. -/
def ItompCIOTrajectory.cartesianTarget (self : ItompCIOTrajectory)
    (path_constraints : Constraints) (i : ℤ) : Pose :=
  let start_position := (path_constraints.position_constraints.getD 0 default).target_point_offset
  let goal_position := (path_constraints.position_constraints.getD 1 default).target_point_offset
  let orientation := (path_constraints.orientation_constraints.getD 0 default).orientation
  let start_index := self.start_index_ - 1
  let end_index := self.end_index_ + 1
  let duration := ((end_index - start_index : ℤ) : ℚ) * self.discretization_
  let numPoints := end_index - start_index
  let t := timePowers (((i - start_index : ℤ) : ℚ) / (numPoints : ℚ))
  let pos := fun (j : ℤ) => evalPoly t (cartesianCoeff start_position goal_position duration j)
  ⟨orientation, ⟨pos 0, pos 1, pos 2⟩⟩

/-- The body of the sampling loop of Cartesian seeding (lines 736-805) for the row `i`: the
retry loop of the IK capability, then the write of the solution, skipped for the start row.
The state is the kinematic state and the position matrix, `none` once a retry loop has run out
of fuel. -/
def ItompCIOTrajectory.cartesianStep {σ : Type} (kin : Kinematics σ) (fuel : ℕ)
    (self : ItompCIOTrajectory) (path_constraints : Constraints) (group_name : String)
    (i : ℤ) (st : Option (σ × MatrixXd)) : Option (σ × MatrixXd) :=
  match st with
  | none => none
  | some (ks, m) =>
    match ikRetry kin group_name (self.cartesianTarget path_constraints i) fuel ks with
    | none => none
    | some ks2 =>
      some (ks2, forLoop 0 (kin.getVariableCount ks2) (fun k m =>
        if i ≠ self.start_index_ - 1 then m.set i k (kin.getVariablePositions ks2 k) else m) m)

/-- `void ItompCIOTrajectory::fillInMinJerkCartesianTrajectory(groupJointsKDLIndices,
joint_vel_array, joint_acc_array, path_constraints, group_name)`: Cartesian path seeding.
Each retry loop gets `fuel` calls of the IK capability. -/
def ItompCIOTrajectory.fillInMinJerkCartesianTrajectory {σ : Type} (kin : Kinematics σ)
    (fuel : ℕ) (self : ItompCIOTrajectory) (_groupJointsKDLIndices : List ℤ)
    (joint_vel_array joint_acc_array : ℤ → ℚ) (path_constraints : Constraints)
    (group_name : String) : Option ItompCIOTrajectory :=
  let start_index := self.start_index_ - 1
  let end_index := self.end_index_ + 1
  -- set state to the start config
  let positions := (List.range self.num_joints_.toNat).map
    (fun (k : ℕ) => self.get start_index (k : ℤ))
  let kinematic_state := kin.setVariablePositions positions
  -- now evaluate 3d pos for each pos
  let r := forLoop start_index (end_index + 1)
    (self.cartesianStep kin fuel path_constraints group_name)
    (some (kinematic_state, self.trajectory_))
  match r with
  | none => none
  | some (_, m) =>
    some { self with
      vel_start_ := joint_vel_array
      acc_start_ := joint_acc_array
      trajectory_ := m }

/-- Closed form of the position matrix that the sampling loop of Cartesian seeding leaves
after the rows `lo .. lo + n - 1`, given the configurations `seq` accepted at these rows: each
of the rows but the start row holds the joint values of its configuration (shown equal to the
result of the loop in `cartesianLoop_of_chain`). -/
def cartesianRows {σ : Type} (kin : Kinematics σ) (self : ItompCIOTrajectory) (lo : ℤ) (n : ℕ)
    (seq : ℤ → σ) (m0 : MatrixXd) : MatrixXd :=
  { m0 with coeff := fun r c =>
      if lo ≤ r ∧ r < lo + n ∧ r ≠ self.start_index_ - 1 ∧ 0 ≤ c
          ∧ c < kin.getVariableCount (seq r) then
        kin.getVariablePositions (seq r) c
      else m0.coeff r c }

/-! ## The planner node: choice of the seeding procedure -/

/-- `std::set<int>::insert` on the ascending list of the elements of the set. -/
def setInsert (x : ℤ) : List ℤ → List ℤ
  | [] => [x]
  | y :: t => if x < y then x :: y :: t else if x = y then y :: t else y :: setInsert x t

/-- `sensor_msgs::JointState`, with the fields the embedded code reads. -/
structure JointState where
  name : List String
  position : List ℚ
  deriving DecidableEq, Inhabited

/-- The values of `PlanningParameters::getInstance()` read by `fillGroupJointTrajectory`:
`getNumTrajectories()`, `getNumContacts()`, `getPhaseDuration()`. -/
structure PlanningParameters where
  numTrajectories : ℤ
  numContacts : ℤ
  phaseDuration : ℚ

/-- Everything outside the planner node that `fillGroupJointTrajectory` consults: the
process-wide parameters, the library functions, the kinematics capability, the constraint list
returned by `Precomputation::extractInitialTrajectories`, the planning group that
`robot_model_.getPlanningGroup` returns for a name, the contents of fresh storage and the fuel
of the loops that may not end. -/
structure PlannerEnv (σ : Type) where
  params : PlanningParameters
  seed : SeedEnv
  ecl : EclEnv
  kin : Kinematics σ
  precomputation : TrajectoryConstraints
  getPlanningGroup : String → ItompPlanningGroup
  junk : Uninit
  fuel : ℕ

/-- The members of `ItompPlannerNode` that `fillGroupJointTrajectory` reads or writes; the two
one-row matrices `start_point_velocities_` and `start_point_accelerations_` are their row 0. -/
structure ItompPlannerNode where
  robot_model_ : ItompRobotModel
  trajectory_ : ItompCIOTrajectory
  trajectories_ : List ItompCIOTrajectory
  start_point_velocities_ : ℤ → ℚ
  start_point_accelerations_ : ℤ → ℚ

/-- The seeding member function called for a candidate. -/
inductive SeedingProcedure where
  | waypoint
  | freeEnd
  | cartesian
  deriving DecidableEq, Repr

/-- The first loop of `fillGroupJointTrajectory` (lines 430-441): the goal row of the template
trajectory receives the goal position of every group joint known to the robot model. -/
def ItompPlannerNode.setGoalPoint (self : ItompPlannerNode) (group : ItompPlanningGroup)
    (jointGoalState : JointState) : ItompCIOTrajectory :=
  let goal_index := self.trajectory_.num_points_ - 1
  { self.trajectory_ with
    trajectory_ := forLoop 0 group.num_joints_ (fun i m =>
      let name := (group.joint i).joint_name_
      let kdl_number := self.robot_model_.urdfNameToKdlNumber name
      if kdl_number ≥ 0 then
        m.set goal_index kdl_number (jointGoalState.position.getD kdl_number.toNat 0)
      else m) self.trajectory_.trajectory_ }

/-- The second loop of `fillGroupJointTrajectory` (lines 443-447): the set of the full-body
indices of the group joints. -/
def groupJointsKDLIndices (group : ItompPlanningGroup) : List ℤ :=
  forLoop 0 group.num_joints_ (fun i s => setInsert (group.joint i).kdl_joint_index_ s) []

/-- The body of the candidate loop of `fillGroupJointTrajectory` (lines 452-481) for the
candidate `i`, with `template` the trajectory `*trajectory_`: a fresh trajectory is
constructed, the template is assigned over it, and one of the three seeding member functions
is called on it. The result carries the procedure that was called. -/
def ItompPlannerNode.seedCandidate {σ : Type} (env : PlannerEnv σ) (self : ItompPlannerNode)
    (template : ItompCIOTrajectory) (groupName : String) (path_constraints : Constraints)
    (i : ℤ) : Option (SeedingProcedure × ItompCIOTrajectory) :=
  let group := env.getPlanningGroup groupName
  let kdlIndices := groupJointsKDLIndices group
  match ItompCIOTrajectory.ctor env.fuel env.junk self.robot_model_ template.duration_
      template.discretization_ (env.params.numContacts : ℚ) env.params.phaseDuration with
  | none => none
  | some _ =>
    let candidate := template
    if env.precomputation.constraints.length ≠ 0 then
      some (SeedingProcedure.waypoint,
        candidate.fillInMinJerkConstraints env.ecl i kdlIndices group env.precomputation
          self.start_point_velocities_ self.start_point_accelerations_)
    else if path_constraints.position_constraints.length = 0 then
      some (SeedingProcedure.freeEnd,
        candidate.fillInMinJerk env.seed kdlIndices
          self.start_point_velocities_ self.start_point_accelerations_)
    else
      match candidate.fillInMinJerkCartesianTrajectory env.kin env.fuel kdlIndices
          self.start_point_velocities_ self.start_point_accelerations_ path_constraints
          groupName with
      | none => none
      | some r => some (SeedingProcedure.cartesian, r)

/-- `void ItompPlannerNode::fillGroupJointTrajectory(groupName, jointGoalState,
path_constraints, trajectory_constraints)`. The request's `trajectory_constraints` are not
read: the constraint list is the one of the precomputation. -/
def ItompPlannerNode.fillGroupJointTrajectory {σ : Type} (env : PlannerEnv σ)
    (self : ItompPlannerNode) (groupName : String) (jointGoalState : JointState)
    (path_constraints : Constraints) (_trajectory_constraints : TrajectoryConstraints) :
    Option ItompPlannerNode :=
  let num_trajectories := env.params.numTrajectories
  let group := env.getPlanningGroup groupName
  let template := self.setGoalPoint group jointGoalState
  let r := forLoop 0 num_trajectories (fun i (st : Option (List ItompCIOTrajectory)) =>
    match st with
    | none => none
    | some ts =>
      match self.seedCandidate env template groupName path_constraints i with
      | none => none
      | some c => some (ts ++ [c.2])) (some [])
  match r with
  | none => none
  | some ts => some { self with trajectory_ := template, trajectories_ := ts }

/-- The spec's condition "waypoint trajectory constraints exist for this candidate": the
constraint list holds a constraint set named by the candidate index. -/
def waypointsExistFor (tc : TrajectoryConstraints) (i : ℤ) : Prop :=
  ∃ c ∈ tc.constraints, c.name = toString i

instance (tc : TrajectoryConstraints) (i : ℤ) : Decidable (waypointsExistFor tc i) := by
  unfold waypointsExistFor; infer_instance

/-! ## The improvement manager -/

/-- The member of `ImprovementManager` that `updatePlanningParameters` reads and writes. -/
structure ImprovementManager where
  last_planning_parameter_index_ : ℤ
  deriving DecidableEq, Repr

/-- `ImprovementManager::ImprovementManager() : last_planning_parameter_index_(-1)`. -/
def ImprovementManager.ctor : ImprovementManager := ⟨-1⟩

/-- `bool ImprovementManager::updatePlanningParameters()`, with `updateIndex` the value of
`PlanningParameters::getInstance()->getUpdateIndex()` during the call. The result is the
returned flag and the manager after the call. -/
def ImprovementManager.updatePlanningParameters (self : ImprovementManager) (updateIndex : ℤ) :
    Bool × ImprovementManager :=
  if self.last_planning_parameter_index_ = updateIndex then (false, self)
  else (true, { self with last_planning_parameter_index_ := updateIndex })

/-! ## The best-cost coordinator

The class `BestCostManager` of the planner node's member `best_cost_manager_` is not among the
sources: only the calls `reset()` and `getBestCostTrajectoryIndex()` are. -/

/-- Modelled from the spec: the state of the Best-Cost Coordinator, "`bestIndex` (candidate
ordinal, −1 = unset), `bestCost` (floating point, +∞ initially)". -/
structure BestCostManager where
  bestIndex : ℤ
  bestCost : WithTop ℚ

/-- Modelled from the spec: "`reset()`: clears bestIndex/bestCost", to the initial state. -/
def BestCostManager.reset (_self : BestCostManager) : BestCostManager := ⟨-1, ⊤⟩

/-- Modelled from the spec: "`reportCost(candidateIndex, cost)`: mutually-exclusive
compare-and-swap against bestCost; updates bestIndex if strictly lower". -/
def BestCostManager.reportCost (self : BestCostManager) (candidateIndex : ℤ) (cost : ℚ) :
    BestCostManager :=
  if (cost : WithTop ℚ) < self.bestCost then ⟨candidateIndex, (cost : WithTop ℚ)⟩ else self

/-- Modelled from the spec: "`bestIndex() -> int`: read accessor; returns −1 if never
reported"; the planner node calls it `getBestCostTrajectoryIndex()`. -/
def BestCostManager.getBestCostTrajectoryIndex (self : BestCostManager) : ℤ := self.bestIndex

/-- A finite sequence of `reportCost` calls, one after the other in the order in which they
take the lock; each report is the pair (candidate index, cost). -/
def BestCostManager.reportAll (self : BestCostManager) (reports : List (ℤ × ℚ)) :
    BestCostManager :=
  reports.foldl (fun m r => m.reportCost r.1 r.2) self

/-! ## The planner node: a planning call

The classes `ItompOptimizer` and `PlanningInfo`, the request and response messages and the
functions `jointConstraintsToJointState` and `ItompRobotModel::jointStateToArray` are not among
the sources: the types below carry the members the embedded code reads or writes, and the
functions are parameters. An access `v[i]` outside a `std::vector` is `none`. -/

/-- `v[i]` on a `std::vector`; `none` outside the vector. -/
def vectorAt {α : Type} (v : List α) (i : ℤ) : Option α :=
  if 0 ≤ i then v[i.toNat]? else none

/-- `v.resize(n, value)` on a `std::vector`. -/
def vectorResize {α : Type} (v : List α) (n : ℤ) (value : α) : List α :=
  v.take n.toNat ++ List.replicate (n.toNat - v.length) value

/-- The row assignment `m.row(i) = f` of an `Eigen::MatrixXd`. -/
def MatrixXd.setRow (m : MatrixXd) (i : ℤ) (f : ℤ → ℚ) : MatrixXd :=
  { m with coeff := fun r c => if r = i ∧ 0 ≤ c ∧ c < m.cols then f c else m.coeff r c }

/-- An `ItompOptimizer` after `optimize()` has returned: the values of its accessors
`getLastIteration()`, `getBestCost()` and `isSucceed()`. -/
structure ItompOptimizer where
  getLastIteration : ℤ
  getBestCost : ℚ
  isSucceed : Bool
  deriving DecidableEq

/-- The record `PlanningInfo`, with the fields `writePlanningInfo` writes. -/
structure PlanningInfo where
  time : ℚ
  iterations : ℤ
  cost : ℚ
  success : ℤ
  deriving DecidableEq

/-- The constant `moveit_msgs::MoveItErrorCodes::SUCCESS`. -/
def SUCCESS : ℤ := 1

/-- The fields of `planning_interface::MotionPlanRequest` that the planner node reads;
`start_state` is `req.start_state.joint_state`. -/
structure MotionPlanRequest where
  group_name : String
  start_state : JointState
  goal_constraints : List Constraints
  path_constraints : Constraints
  trajectory_constraints : TrajectoryConstraints

/-- The fields of `planning_interface::MotionPlanResponse` that `fillInResult` writes: the
group name and the way points (the positions of all variables) of `res.trajectory_`, and
`res.error_code_.val`. -/
structure MotionPlanResponse where
  group_name : String
  trajectory_ : List (List ℚ)
  error_code_ : ℤ
  deriving DecidableEq

/-- What the optimizers of one group leave behind once every optimization thread has been
joined: the optimizer of each candidate, the candidate trajectories (each optimizer works on
its own through a pointer), the coordinator they reported to, and the elapsed wall time. -/
structure OptimizationRun where
  optimizers : ℤ → ItompOptimizer
  trajectories : List ItompCIOTrajectory
  best_cost_manager : BestCostManager
  elapsed : ℚ

/-- Everything outside the planner node that a planning call consults: the environment of the
seeding, further process-wide parameters (`getTrajectoryDuration()`,
`getTrajectoryDiscretization()`, `getNumTrials()`, the contact variable values), the library
functions, `complete_initial_robot_state_->getVariableCount()`, the run of the optimizers on
the seeded candidates with the coordinator in its reset state, and a default-constructed
`PlanningInfo`. -/
structure PlanningRunEnv (σ : Type) where
  planner : PlannerEnv σ
  trajectoryDuration : ℚ
  trajectoryDiscretization : ℚ
  numTrials : ℤ
  contactVariableInitialValues : ℤ → ℚ
  contactVariableGoalValues : ℤ → ℚ
  jointConstraintsToJointState : List Constraints → List JointState
  jointStateToArray : JointState → (ℤ → ℚ) → (ℤ → ℚ) × (ℤ → ℚ) × (ℤ → ℚ)
  getVariableCount : ℤ
  runOptimizers : String → List ItompCIOTrajectory → BestCostManager → OptimizationRun
  defaultInfo : PlanningInfo

/-- The members of `ItompPlannerNode` that a planning call reads or writes: those of the
seeding and the bookkeeping of the trials. -/
structure ItompPlannerNodeState extends ItompPlannerNode where
  planning_count_ : ℤ
  planning_info_ : List (List PlanningInfo)
  optimizers_ : List ItompOptimizer
  best_cost_manager_ : BestCostManager
  last_planning_time_ : ℚ

/-- `bool ItompPlannerNode::preprocessRequest(req)`: false when the first goal joint state does
not have as many names as positions, true otherwise; `none` when there is no goal joint state
to look at. -/
def preprocessRequest {σ : Type} (env : PlanningRunEnv σ) (req : MotionPlanRequest) :
    Option Bool :=
  let goal_joint_states := env.jointConstraintsToJointState req.goal_constraints
  match vectorAt goal_joint_states 0 with
  | none => none
  | some g0 => if g0.name.length ≠ g0.position.length then some false else some true

/-- `void ItompPlannerNode::getPlanningGroups(plannningGroups, groupName)`. -/
def getPlanningGroups (groupName : String) : List String :=
  if groupName = "decomposed_body" then ["lower_body", "torso", "left_arm", "right_arm"]
  else [groupName]

/-- `void ItompPlannerNode::resetPlanningInfo(trials, component)`. -/
def resetPlanningInfo (defaultInfo : PlanningInfo) (trials component : ℤ) :
    List (List PlanningInfo) :=
  vectorResize [] trials (vectorResize [] component defaultInfo)

/-- `void ItompPlannerNode::initTrajectory(joint_state)`: the template trajectory is rebuilt
when the configured duration has changed, its first row and the start velocities and
accelerations come from `jointStateToArray`, every other row is a copy of the first, and the
contact rows receive the configured initial and goal values. -/
def ItompPlannerNodeState.initTrajectory {σ : Type} (env : PlanningRunEnv σ)
    (self : ItompPlannerNodeState) (joint_state : JointState) : Option ItompPlannerNodeState :=
  let trajectory_duration := env.trajectoryDuration
  let rebuilt : Option ItompCIOTrajectory :=
    if self.trajectory_.duration_ ≠ trajectory_duration then
      ItompCIOTrajectory.ctor env.planner.fuel env.planner.junk self.robot_model_
        trajectory_duration env.trajectoryDiscretization
        (env.planner.params.numContacts : ℚ) env.planner.params.phaseDuration
    else some self.trajectory_
  match rebuilt with
  | none => none
  | some t =>
    -- set the trajectory to initial state value
    let arrays := env.jointStateToArray joint_state (fun j => t.trajectory_.coeff 0 j)
    let m0 := t.trajectory_.setRow 0 arrays.1
    let m1 := forLoop 1 t.num_points_ (fun i m => m.setRow i (fun j => m.coeff 0 j)) m0
    -- set the contact trajectory initial values
    let c0 := forLoop 0 t.num_contacts_ (fun i c =>
      (c.set 0 i (env.contactVariableInitialValues i)).set t.num_contact_phases_ i
        (env.contactVariableGoalValues i)) t.contact_trajectory_
    let c1 := forLoop 1 t.num_contact_phases_
      (fun i c => c.setRow i (fun j => c.coeff 0 j)) c0
    some { self with
      trajectory_ := { t with trajectory_ := m1, contact_trajectory_ := c1 }
      start_point_velocities_ := arrays.2.1
      start_point_accelerations_ := arrays.2.2 }

/-- `void ItompPlannerNode::getGoalState(req, goalState)`: the goal position of every joint of
the first goal joint state that the robot model knows, at the joint's full-body index. A write
past the end of the two resized vectors leaves them as they are. -/
def ItompPlannerNodeState.getGoalState {σ : Type} (env : PlanningRunEnv σ)
    (self : ItompPlannerNodeState) (req : MotionPlanRequest) : Option JointState :=
  let goal_joint_states := env.jointConstraintsToJointState req.goal_constraints
  match vectorAt goal_joint_states 0 with
  | none => none
  | some g0 =>
    let goalState : JointState :=
      ⟨vectorResize [] req.start_state.name.length "",
        vectorResize [] req.start_state.position.length 0⟩
    some (forLoop 0 g0.name.length (fun i (gs : JointState) =>
      let name := g0.name.getD i.toNat ""
      let kdl_number := self.robot_model_.urdfNameToKdlNumber name
      if kdl_number ≥ 0 then
        ⟨gs.name.set kdl_number.toNat name,
          gs.position.set kdl_number.toNat (g0.position.getD i.toNat 0)⟩
      else gs) goalState)

/-- `void ItompPlannerNode::trajectoryOptimization(groupName, jointGoalState, path_constraints,
trajectory_constraints, planning_scene)`: the candidates are seeded, the coordinator is reset,
one optimizer per candidate is created and run on a thread of its own, and all threads are
joined. -/
def ItompPlannerNodeState.trajectoryOptimization {σ : Type} (env : PlanningRunEnv σ)
    (self : ItompPlannerNodeState) (groupName : String) (jointGoalState : JointState)
    (path_constraints : Constraints) (trajectory_constraints : TrajectoryConstraints) :
    Option ItompPlannerNodeState :=
  match self.toItompPlannerNode.fillGroupJointTrajectory env.planner groupName jointGoalState
      path_constraints trajectory_constraints with
  | none => none
  | some node =>
    let num_trajectories := env.planner.params.numTrajectories
    let run := env.runOptimizers groupName node.trajectories_ self.best_cost_manager_.reset
    some { self with
      toItompPlannerNode := { node with trajectories_ := run.trajectories }
      best_cost_manager_ := run.best_cost_manager
      optimizers_ := (List.range num_trajectories.toNat).map
        (fun (i : ℕ) => run.optimizers (i : ℤ))
      last_planning_time_ := run.elapsed }

/-- `void ItompPlannerNode::writePlanningInfo(trials, component)`; `none` when
`planning_info_[0]`, `planning_info_[trials][component]` or
`optimizers_[best_trajectory_index]` is not an element of its vector. -/
def ItompPlannerNodeState.writePlanningInfo {σ : Type} (env : PlanningRunEnv σ)
    (self : ItompPlannerNodeState) (trials component : ℤ) : Option ItompPlannerNodeState :=
  let best_trajectory_index := self.best_cost_manager_.getBestCostTrajectoryIndex
  let resized : Option (List (List PlanningInfo)) :=
    if (self.planning_info_.length : ℤ) ≤ trials then
      match vectorAt self.planning_info_ 0 with
      | none => none
      | some row0 =>
        some (vectorResize self.planning_info_ (trials + 1)
          (vectorResize [] row0.length env.defaultInfo))
    else some self.planning_info_
  match resized with
  | none => none
  | some planning_info =>
    match vectorAt planning_info trials with
    | none => none
    | some row =>
      match vectorAt row component, vectorAt self.optimizers_ best_trajectory_index with
      | some info, some optimizer =>
        some { self with
          planning_info_ := planning_info.set trials.toNat (row.set component.toNat
            { info with
              time := self.last_planning_time_
              iterations := optimizer.getLastIteration + 1
              cost := optimizer.getBestCost
              success := if optimizer.isSucceed then 1 else 0 }) }
      | _, _ => none

/-- `void ItompPlannerNode::fillInResult(planningGroups, res)`: the response receives one way
point per row of the best candidate trajectory and the error code `SUCCESS`; `none` when
`planningGroups[0]` or `trajectories_[best_trajectory_index]` is not an element of its
vector. -/
def ItompPlannerNodeState.fillInResult {σ : Type} (env : PlanningRunEnv σ)
    (self : ItompPlannerNodeState) (planningGroups : List String) (res : MotionPlanResponse) :
    Option MotionPlanResponse :=
  let best_trajectory_index := self.best_cost_manager_.getBestCostTrajectoryIndex
  let num_all_joints := env.getVariableCount
  match vectorAt planningGroups 0, vectorAt self.trajectories_ best_trajectory_index with
  | some group0, some best =>
    some { res with
      group_name := group0
      trajectory_ := (List.range best.num_points_.toNat).map (fun (i : ℕ) =>
        (List.range num_all_joints.toNat).map (fun (j : ℕ) => best.get (i : ℤ) (j : ℤ)))
      error_code_ := SUCCESS }
  | _, _ => none

/-- `bool ItompPlannerNode::planKinematicPath(planning_scene, req, res)`: the returned flag,
the response and the node after the call. The roadmap precomputation enters through the
constraint list of the seeding environment; `printPlanningInfoSummary()` only prints. -/
def ItompPlannerNodeState.planKinematicPath {σ : Type} (env : PlanningRunEnv σ)
    (self : ItompPlannerNodeState) (req : MotionPlanRequest) (res : MotionPlanResponse) :
    Option (Bool × MotionPlanResponse × ItompPlannerNodeState) :=
  match preprocessRequest env req with
  | none => none
  | some false => some (false, res, self)
  | some true =>
    -- generate planning group list
    let planningGroups := getPlanningGroups req.group_name
    let num_trials := env.numTrials
    let r := forLoop self.planning_count_ (self.planning_count_ + num_trials)
      (fun c (st : Option ItompPlannerNodeState) =>
        match st with
        | none => none
        | some s1 =>
          -- initialize trajectory with start state
          match s1.initTrajectory env req.start_state with
          | none => none
          | some s2 =>
            match s2.getGoalState env req with
            | none => none
            | some jointGoalState =>
              -- for each planning group
              forLoop 0 planningGroups.length (fun i (st : Option ItompPlannerNodeState) =>
                match st with
                | none => none
                | some s3 =>
                  -- optimize
                  match s3.trajectoryOptimization env (planningGroups.getD i.toNat "")
                      jointGoalState req.path_constraints req.trajectory_constraints with
                  | none => none
                  | some s4 => s4.writePlanningInfo env c i) (some s2)) (some self)
    match r with
    | none => none
    | some s5 =>
      -- return trajectory
      match s5.fillInResult env planningGroups res with
      | none => none
      | some res2 =>
        some (true, res2, { s5 with planning_count_ := s5.planning_count_ + num_trials })

/-! ## The trajectory constraints built by the driver

`MoveKuka::run` of `move_kuka.cpp` (lines 300-365) builds the constraint list of the request it
hands to the planner: for each candidate `c = 0 .. M - 1` it appends the waypoints of a joint
trajectory found by the sampling-based planner. That planner is not part of the repository: the
joint trajectory of the successful plan of candidate `c` is the parameter `response c`, a list
of points, each the list of its joint positions (the driver repeats a failed plan with the same
`c`). -/

/-- An update of the element `v[i]` of a `std::vector` in place; nothing is written outside
the vector. -/
def vectorModify {α : Type} (v : List α) (i : ℤ) (f : α → α) : List α :=
  match vectorAt v i with
  | some x => v.set i.toNat (f x)
  | none => v

/-- The body of the waypoint loop of `MoveKuka::run` (lines 343-361) for the waypoint `j` of
candidate `c`: the first waypoint of the trajectory is named by the decimal string of `c`, then
the last one is named "end", and the joint constraints of the waypoint are the positions of
point `j`, one per variable name. A name or position missing from the driver's vectors reads
as the empty name or 0. -/
def driverWaypoint (variable_names : List String) (points : List (List ℚ))
    (c traj_constraint_begin : ℤ) (j : ℤ) (constraints : List Constraints) :
    List Constraints :=
  let num_joints := (points.headD []).length
  let num_points : ℤ := (points.length : ℤ)
  let trajectory_index_string := toString c
  let point := j + traj_constraint_begin
  let constraints :=
    if j = 0 then
      vectorModify constraints point (fun x => { x with name := trajectory_index_string })
    else constraints
  let constraints :=
    if j = num_points - 1 then
      vectorModify constraints point (fun x => { x with name := "end" })
    else constraints
  vectorModify constraints point (fun x =>
    { x with joint_constraints := (List.range num_joints).map (fun k =>
        ⟨variable_names.getD k "", (points.getD j.toNat []).getD k 0⟩) })

/-- The body of the candidate loop of `MoveKuka::run` (lines 334-364) once the plan of
candidate `c` has succeeded, on the state `(constraints, traj_constraint_begin)`: the list is
resized by the number of points of the trajectory, the new entries are filled in, and
`traj_constraint_begin` moves past them. -/
def driverCandidate (variable_names : List String) (response : ℤ → List (List ℚ)) (c : ℤ)
    (st : List Constraints × ℤ) : List Constraints × ℤ :=
  let points := response c
  let num_points : ℤ := (points.length : ℤ)
  let constraints := vectorResize st.1 (st.2 + num_points) default
  let constraints :=
    forLoop 0 num_points (driverWaypoint variable_names points c st.2) constraints
  (constraints, st.2 + num_points)

/-- The trajectory constraints of the request `req2` of `MoveKuka::run`: the list is cleared,
`traj_constraint_begin` starts at 0 and the candidates `0 .. M - 1` are appended in turn. -/
def driverConstraints (variable_names : List String) (M : ℤ)
    (response : ℤ → List (List ℚ)) : TrajectoryConstraints :=
  ⟨(forLoop 0 M (driverCandidate variable_names response) ([], 0)).1⟩

/-- The waypoint `j` of the block of candidate `c` in closed form. -/
def driverEntry (variable_names : List String) (points : List (List ℚ)) (c : ℤ) (j : ℕ) :
    Constraints :=
  ⟨if (j : ℤ) = (points.length : ℤ) - 1 then "end" else if j = 0 then toString c else "",
    (List.range (points.headD []).length).map (fun k =>
      ⟨variable_names.getD k "", (points.getD j []).getD k 0⟩), [], []⟩

/-- The block of candidate `c` in closed form: one entry per point of its trajectory. -/
def driverBlock (variable_names : List String) (points : List (List ℚ)) (c : ℤ) :
    List Constraints :=
  (List.range points.length).map (driverEntry variable_names points c)

/-- The blocks of the candidates `0 .. m - 1` in closed form, one after the other. -/
def driverBlocks (variable_names : List String) (response : ℤ → List (List ℚ)) :
    ℕ → List Constraints
  | 0 => []
  | m + 1 => driverBlocks variable_names response m
      ++ driverBlock variable_names (response (m : ℤ)) (m : ℤ)

/-- The number of waypoints of the candidates `0 .. c - 1`: the index at which the block of
candidate `c` starts. -/
def driverOffset (response : ℤ → List (List ℚ)) : ℕ → ℕ
  | 0 => 0
  | c + 1 => driverOffset response c + (response (c : ℤ)).length

/-! ## Example data -/

/-- A robot model with eight full-body joints and no named joint. -/
def exampleRobot : ItompRobotModel := ⟨8, fun _ => -1⟩

/-- Fresh storage that happens to hold zeros. -/
def exampleJunk : Uninit := ⟨fun _ _ => 0, fun _ _ => 0⟩

/-- A full-body trajectory with the geometry the full constructor computes for duration 0.6,
discretization 0.1 and contact phase duration 0.3 (7 steps, interior rows 1..5, stride 3,
phase boundaries 0, 1, 4, 6); the position entry of row `r` and column `c` is `10 r + c`. -/
def exampleFull : ItompCIOTrajectory :=
  { robot_model_ := exampleRobot
    planning_group_ := none
    num_points_ := 7
    num_joints_ := 8
    discretization_ := 1 / 10
    duration_ := 3 / 5
    num_contacts_ := 1
    start_index_ := 1
    end_index_ := 5
    contact_phase_duration_ := 3 / 10
    num_contact_phases_ := 4
    phase_stride_ := 3
    trajectory_ := ⟨7, 8, fun r c => 10 * (r : ℚ) + (c : ℚ)⟩
    contact_trajectory_ := ⟨5, 1, fun r c => (r : ℚ) + 100 * (c : ℚ)⟩
    contact_start_points_ := [0, 1, 4, 6]
    full_trajectory_index_ := []
    vel_start_ := fun _ => 1
    acc_start_ := fun _ => 2 }

/-- A planning group of two joints, a root joint (column 0) and an arm joint (column 6), with
one contact. -/
def exampleGroup : ItompPlanningGroup :=
  ⟨[⟨0, "base_x"⟩, ⟨6, "arm_1"⟩], 1⟩

/-- A planning group whose only joint has the full-body index 8, which is not a column of
`exampleFull` (its columns are 0..7). -/
def exampleGhostGroup : ItompPlanningGroup :=
  ⟨[⟨8, "ghost"⟩], 0⟩

/-- The joints of `exampleGroup` listed in the other order: the arm joint (column 6) first,
then the root joint (column 0). -/
def exampleSwappedGroup : ItompPlanningGroup :=
  ⟨[⟨6, "arm_1"⟩, ⟨0, "base_x"⟩], 1⟩

/-- A restricted view of `exampleFull` for `exampleGroup` with two padding rows on each side
(9 rows, interior rows 2..6): the entry of row `r` and group column `c` is `r + c / 2`. -/
def exampleView : ItompCIOTrajectory :=
  { exampleFull with
    planning_group_ := some exampleGroup
    num_points_ := 9
    num_joints_ := 2
    start_index_ := 2
    end_index_ := 6
    trajectory_ := ⟨9, 2, fun r c => (r : ℚ) + (c : ℚ) / 2⟩ }

/-- The scenario of the spec: an arm of 6 joints, duration 2.0, discretization 0.1 (21 steps,
interior rows 1..19, contact phase duration 0.5), start row all zero, goal row all one. -/
def exampleArm : ItompCIOTrajectory :=
  { robot_model_ := ⟨6, fun _ => -1⟩
    planning_group_ := none
    num_points_ := 21
    num_joints_ := 6
    discretization_ := 1 / 10
    duration_ := 2
    num_contacts_ := 0
    start_index_ := 1
    end_index_ := 19
    contact_phase_duration_ := 1 / 2
    num_contact_phases_ := 6
    phase_stride_ := 5
    trajectory_ := ⟨21, 6, fun r _ => if r = 20 then 1 else 0⟩
    contact_trajectory_ := ⟨7, 0, fun _ _ => 0⟩
    contact_start_points_ := [0, 1, 6, 11, 16, 20]
    full_trajectory_index_ := []
    vel_start_ := fun _ => 0
    acc_start_ := fun _ => 0 }

/-- The value of the constant `M_PI`, the `double` nearest to pi. -/
def M_PI_double : ℚ := 884279719003555 / 281474976710656

/-- A seeding environment with has-root-6d disabled. The function `atan2` is only pinned where
the examples call it, on the positive x axis, where its value is exactly 0. -/
def examplePlainEnv : SeedEnv := ⟨false, fun _ _ => 0, M_PI_double, fun _ => []⟩

/-- The same environment with has-root-6d enabled. -/
def exampleYawEnv : SeedEnv := ⟨true, fun _ _ => 0, M_PI_double, fun _ => []⟩

/-- A full-body trajectory with the geometry the full constructor computes for duration 0.4,
discretization 0.1 and contact phase duration 0.2 (5 steps, interior rows 1..3, stride 2, phase
boundaries 0, 1, 3, 4). The start row is all zero; the goal row moves the root by 1 along x and
keeps every other joint, the yaw (column 5) included, at 0. -/
def exampleYaw : ItompCIOTrajectory :=
  { robot_model_ := exampleRobot
    planning_group_ := none
    num_points_ := 5
    num_joints_ := 8
    discretization_ := 1 / 10
    duration_ := 2 / 5
    num_contacts_ := 1
    start_index_ := 1
    end_index_ := 3
    contact_phase_duration_ := 1 / 5
    num_contact_phases_ := 4
    phase_stride_ := 2
    trajectory_ := ⟨5, 8, fun r c => if r = 4 ∧ c = 0 then 1 else 0⟩
    contact_trajectory_ := ⟨5, 1, fun _ _ => 0⟩
    contact_start_points_ := [0, 1, 3, 4]
    full_trajectory_index_ := []
    vel_start_ := fun _ => 0
    acc_start_ := fun _ => 0 }

/-- A waypoint constraint list with one block, the block of candidate 0: two waypoints that
constrain the joint `arm_1` to 7 and then to 9. -/
def exampleWaypoints : TrajectoryConstraints :=
  ⟨[⟨"0", [⟨"arm_1", 7⟩], [], []⟩, ⟨"end", [⟨"arm_1", 9⟩], [], []⟩]⟩

/-- A waypoint constraint list with the blocks of two candidates, two waypoints each, for the
joint `arm_1`: candidate 0 moves from 0 to 1, candidate 1 from 0 to 3. -/
def exampleTwoBlocks : TrajectoryConstraints :=
  ⟨[⟨"0", [⟨"arm_1", 0⟩], [], []⟩, ⟨"end", [⟨"arm_1", 1⟩], [], []⟩,
    ⟨"1", [⟨"arm_1", 0⟩], [], []⟩, ⟨"end", [⟨"arm_1", 3⟩], [], []⟩]⟩

/-- Stand-ins for the library functions, used only to show that what is assumed of them can
hold: the "spline" returns the first ordinate, so it passes through its first knot. -/
def exampleEcl : EclEnv :=
  ⟨fun x => x, fun _ y0 _ _ _ _ _ _ _ => y0, fun _ ys _ => ys.headD 0⟩

/-- The stand-ins of `exampleEcl` with a square root that is exact on the squares of the
natural numbers. -/
def exampleSqrtEcl : EclEnv :=
  { exampleEcl with sqrt := fun x => (Nat.sqrt x.num.toNat : ℚ) }

/-- A kinematics capability whose IK call succeeds at once, always with the configuration in
which each of the 8 variables is 9. -/
def exampleKin : Kinematics Unit :=
  ⟨fun _ => (), fun ks _ _ => (ks, true), fun _ _ => 9, fun _ => 8⟩

/-- A kinematics capability whose state counts the IK calls made so far and whose IK call
finds a solution on every second call; the joint values of a state are all equal to its
count. -/
def exampleCountingKin : Kinematics ℤ :=
  ⟨fun _ => 0, fun ks _ _ => (ks + 1, decide (ks % 2 = 1)), fun ks _ => (ks : ℚ), fun _ => 8⟩

/-- A kinematics capability whose IK call never finds a solution. -/
def exampleStuckKin : Kinematics Unit :=
  { exampleKin with setFromIK := fun ks _ _ => (ks, false) }

/-- Path constraints of a Cartesian path from the origin to (1, 0, 0) with the identity
orientation. -/
def examplePath : Constraints :=
  ⟨"", [], [⟨⟨0, 0, 0⟩⟩, ⟨⟨1, 0, 0⟩⟩], [⟨⟨0, 0, 0, 1⟩⟩]⟩

/-- Path constraints without any position constraint. -/
def exampleNoPath : Constraints := ⟨"", [], [], []⟩

/-- A planner environment with a population of 2, the parameters of `exampleYaw` and the
precomputed constraint list `exampleWaypoints`. -/
def examplePlannerEnv : PlannerEnv Unit :=
  { params := ⟨2, 1, 1 / 5⟩
    seed := examplePlainEnv
    ecl := exampleEcl
    kin := exampleKin
    precomputation := exampleWaypoints
    getPlanningGroup := fun _ => exampleGroup
    junk := exampleJunk
    fuel := 10 }

/-- The planner environment `examplePlannerEnv` without any precomputed waypoint. -/
def exampleFreeEnv : PlannerEnv Unit :=
  { examplePlannerEnv with precomputation := ⟨[]⟩ }

/-- A planner node whose template trajectory is `exampleYaw`, at rest at the start. -/
def exampleNode : ItompPlannerNode :=
  ⟨exampleRobot, exampleYaw, [], fun _ => 0, fun _ => 0⟩

/-- An optimizer that stopped in its first iteration (`getLastIteration() = 0`) with best cost
5 and without success. -/
def exampleFailedOptimizer : ItompOptimizer := ⟨0, 5, false⟩

/-- The environment of a planning call with one trial on top of `examplePlannerEnv` (a
population of 2): the configured duration is the one of the template trajectory, the goal is
one joint state without joints, and both optimizers end as `exampleFailedOptimizer`, candidate
0 being the best the coordinator has seen (with cost 5). -/
def exampleRunEnv : PlanningRunEnv Unit :=
  { planner := examplePlannerEnv
    trajectoryDuration := 2 / 5
    trajectoryDiscretization := 1 / 10
    numTrials := 1
    contactVariableInitialValues := fun _ => 0
    contactVariableGoalValues := fun _ => 0
    jointConstraintsToJointState := fun _ => [⟨[], []⟩]
    jointStateToArray := fun _ row => (row, fun _ => 0, fun _ => 0)
    getVariableCount := 8
    runOptimizers := fun _ ts _ => ⟨fun _ => exampleFailedOptimizer, ts, ⟨0, 5⟩, 1⟩
    defaultInfo := ⟨0, 0, 0, 0⟩ }

/-- The planner node after `init()`: no planning yet, `planning_info_` as left by
`resetPlanningInfo(1, 1)`. -/
def exampleNodeState : ItompPlannerNodeState :=
  { toItompPlannerNode := exampleNode
    planning_count_ := 0
    planning_info_ := resetPlanningInfo ⟨0, 0, 0, 0⟩ 1 1
    optimizers_ := []
    best_cost_manager_ := ⟨-1, ⊤⟩
    last_planning_time_ := 0 }

/-- A request for the group "arm" without path constraints, and the response object handed to
the call. -/
def exampleRequest : MotionPlanRequest := ⟨"arm", ⟨[], []⟩, [], exampleNoPath, ⟨[]⟩⟩

def exampleResponse : MotionPlanResponse := ⟨"", [], 0⟩

/-- The same request for the group name "decomposed_body". -/
def exampleBodyRequest : MotionPlanRequest :=
  ⟨"decomposed_body", ⟨[], []⟩, [], exampleNoPath, ⟨[]⟩⟩

/-- The planner node after the optimizers of a population of 4 have been joined: each of them
converged in its first iteration (`getLastIteration() = 0`), with the costs 5, 3, 3 and 7; the
coordinator holds candidate 1 with cost 3; the optimization took 2 seconds. -/
def exampleRaceState : ItompPlannerNodeState :=
  { exampleNodeState with
    optimizers_ := [⟨0, 5, true⟩, ⟨0, 3, true⟩, ⟨0, 3, true⟩, ⟨0, 7, true⟩]
    best_cost_manager_ := ⟨1, 3⟩
    last_planning_time_ := 2 }

/-- Joint trajectories of two candidates for a robot with the one variable "arm_1": two points
for candidate 0, three for every other candidate. -/
def exampleDriverResponse : ℤ → List (List ℚ) :=
  fun c => if c = 0 then [[0], [1]] else [[0], [2], [3]]

/-- The four reports of the population of four candidates: candidate 0 with cost 5, candidates
1 and 2 with cost 3, candidate 3 with cost 7, in the order of the candidates. -/
def exampleCostReports : List (ℤ × ℚ) := [(0, 5), (1, 3), (2, 3), (3, 7)]

/-! # Theorems -/

/-! ## Loop lemmas -/

theorem foldl_range_induction {σ : Type} (P : ℕ → σ → Prop) (f : σ → ℕ → σ) (s : σ) (n : ℕ)
    (h0 : P 0 s) (hstep : ∀ k st, k < n → P k st → P (k + 1) (f st k)) :
    P n ((List.range n).foldl f s) := by
  induction n with
  | zero => simpa using h0
  | succ m ih =>
    rw [List.range_succ, List.foldl_append]
    simp only [List.foldl_cons, List.foldl_nil]
    exact hstep m _ (Nat.lt_succ_self m)
      (ih (fun k st hk hP => hstep k st (Nat.lt_succ_of_lt hk) hP))

/-- Indexed invariant of an ascending loop: true on entry for `lo`, carried from `i` to
`i + 1` by the body, hence true for `hi` on exit. -/
theorem forLoop_induction {σ : Type} (P : ℤ → σ → Prop) (lo hi : ℤ) (body : ℤ → σ → σ)
    (s : σ) (hle : lo ≤ hi) (h0 : P lo s)
    (hstep : ∀ i st, lo ≤ i → i < hi → P i st → P (i + 1) (body i st)) :
    P hi (forLoop lo hi body s) := by
  unfold forLoop
  have key := foldl_range_induction (fun k st => P (lo + (k : ℤ)) st)
    (fun st k => body (lo + (k : ℤ)) st) s (hi - lo).toNat (by simpa using h0)
    (by
      intro k st hk hP
      have hk2 : (k : ℤ) < hi - lo := by
        have := Int.toNat_of_nonneg (sub_nonneg.mpr hle)
        omega
      have := hstep (lo + (k : ℤ)) st (by omega) (by omega) hP
      simpa [add_assoc] using this)
  have hcast : lo + ((hi - lo).toNat : ℤ) = hi := by
    have := Int.toNat_of_nonneg (sub_nonneg.mpr hle)
    omega
  have key2 : P (lo + ((hi - lo).toNat : ℤ))
      ((List.range (hi - lo).toNat).foldl (fun st (k : ℕ) => body (lo + (k : ℤ)) st) s) := key
  rw [hcast] at key2
  exact key2

/-- Plain invariant of an ascending loop. -/
theorem forLoop_invariant {σ : Type} (P : σ → Prop) (lo hi : ℤ) (body : ℤ → σ → σ) (s : σ)
    (h0 : P s) (hstep : ∀ i st, lo ≤ i → i < hi → P st → P (body i st)) :
    P (forLoop lo hi body s) := by
  unfold forLoop
  refine foldl_range_induction (fun _ st => P st) _ s _ h0 ?_
  intro k st hk hP
  have hk2 : (k : ℤ) < hi - lo := by omega
  exact hstep _ st (by omega) (by omega) hP

/-- Plain invariant of a descending loop. -/
theorem forDown_invariant {σ : Type} (P : σ → Prop) (hi : ℤ) (body : ℤ → σ → σ) (s : σ)
    (h0 : P s) (hstep : ∀ i st, 0 ≤ i → i ≤ hi → P st → P (body i st)) :
    P (forDown hi body s) := by
  unfold forDown
  refine foldl_range_induction (fun _ st => P st) _ s _ h0 ?_
  intro k st hk hP
  have hk2 : (k : ℤ) < hi + 1 := by omega
  exact hstep _ st (by omega) (by omega) hP

/-- Plain invariant of a loop over the elements of a container. -/
theorem foldl_invariant {σ α : Type} (P : σ → Prop) (f : σ → α → σ) (l : List α) (s : σ)
    (h0 : P s) (hstep : ∀ a st, a ∈ l → P st → P (f st a)) : P (l.foldl f s) := by
  induction l generalizing s with
  | nil => simpa using h0
  | cons a t ih =>
    simp only [List.foldl_cons]
    exact ih _ (hstep a s (List.mem_cons_self a t) h0)
      (fun b st hb hP => hstep b st (List.mem_cons_of_mem a hb) hP)

theorem forLoop_of_le {σ : Type} (lo hi : ℤ) (h : hi ≤ lo) (body : ℤ → σ → σ) (s : σ) :
    forLoop lo hi body s = s := by
  unfold forLoop
  have : (hi - lo).toNat = 0 := by omega
  rw [this]
  rfl

/-! ## Matrix writes -/

theorem MatrixXd.set_coeff (m : MatrixXd) (i j : ℤ) (v : ℚ) (r c : ℤ) :
    (m.set i j v).coeff r c = if r = i ∧ c = j then v else m.coeff r c := rfl

/-- A column-block assignment rewrites exactly the `n` entries of its destination segment. -/
theorem MatrixXd.copyColumnBlock_coeff (dst src : MatrixXd) (r0 c n r1 c1 r c' : ℤ) :
    (dst.copyColumnBlock r0 c n src r1 c1).coeff r c' =
      if c' = c ∧ r0 ≤ r ∧ r < r0 + n then src.coeff (r1 + (r - r0)) c1
      else dst.coeff r c' := by
  unfold MatrixXd.copyColumnBlock
  by_cases hn : 0 ≤ n
  · have key := forLoop_induction
      (fun k (m : MatrixXd) => ∀ r c', m.coeff r c' =
        if c' = c ∧ r0 ≤ r ∧ r < r0 + k then src.coeff (r1 + (r - r0)) c1 else dst.coeff r c')
      0 n (fun k m => m.set (r0 + k) c (src.coeff (r1 + k) c1)) dst hn
      (by
        intro r c'
        rw [if_neg]
        omega)
      (by
        intro i st _ _ hP r c'
        rw [MatrixXd.set_coeff, hP r c']
        by_cases h1 : r = r0 + i ∧ c' = c
        · obtain ⟨hr, hc⟩ := h1
          subst hr hc
          rw [if_pos ⟨rfl, rfl⟩, if_pos ⟨rfl, by omega, by omega⟩]
          congr 1
          omega
        · rw [if_neg h1]
          by_cases h2 : c' = c ∧ r0 ≤ r ∧ r < r0 + i
          · rw [if_pos h2, if_pos ⟨h2.1, h2.2.1, by omega⟩]
          · rw [if_neg h2, if_neg]
            intro h3
            apply h2
            refine ⟨h3.1, h3.2.1, ?_⟩
            have : r ≠ r0 + i := fun h => h1 ⟨h, h3.1⟩
            omega)
    exact key r c'
  · rw [forLoop_of_le 0 n (by omega), if_neg]
    omega

/-- Writing one row, column by column. -/
theorem forLoop_set_row (i nj : ℤ) (f : ℤ → ℚ) (m : MatrixXd) (r c : ℤ) :
    (forLoop 0 nj (fun j m => m.set i j (f j)) m).coeff r c =
      if r = i ∧ 0 ≤ c ∧ c < nj then f c else m.coeff r c := by
  by_cases hn : 0 ≤ nj
  · have key := forLoop_induction
      (fun k (st : MatrixXd) => ∀ r c, st.coeff r c =
        if r = i ∧ 0 ≤ c ∧ c < k then f c else m.coeff r c)
      0 nj (fun j m => m.set i j (f j)) m hn
      (by
        intro r c
        rw [if_neg]
        omega)
      (by
        intro k st _ _ hP r c
        rw [MatrixXd.set_coeff, hP r c]
        by_cases h1 : r = i ∧ c = k
        · obtain ⟨hr, hc⟩ := h1
          subst hr hc
          rw [if_pos ⟨rfl, rfl⟩, if_pos ⟨rfl, by omega, by omega⟩]
        · rw [if_neg h1]
          by_cases h2 : r = i ∧ 0 ≤ c ∧ c < k
          · rw [if_pos h2, if_pos ⟨h2.1, h2.2.1, by omega⟩]
          · rw [if_neg h2, if_neg]
            intro h3
            apply h2
            refine ⟨h3.1, h3.2.1, ?_⟩
            have : c ≠ k := fun h => h1 ⟨h3.1, h⟩
            omega)
    exact key r c
  · rw [forLoop_of_le 0 nj (by omega), if_neg]
    omega

/-- Writing a block of rows, row by row and column by column. -/
theorem forLoop_set_rows (np nj : ℤ) (g : ℤ → ℤ → ℚ) (m : MatrixXd) (r c : ℤ) :
    (forLoop 0 np (fun i m => forLoop 0 nj (fun j m => m.set i j (g i j)) m) m).coeff r c =
      if 0 ≤ r ∧ r < np ∧ 0 ≤ c ∧ c < nj then g r c else m.coeff r c := by
  by_cases hn : 0 ≤ np
  · have key := forLoop_induction
      (fun k (st : MatrixXd) => ∀ r c, st.coeff r c =
        if 0 ≤ r ∧ r < k ∧ 0 ≤ c ∧ c < nj then g r c else m.coeff r c)
      0 np (fun i m => forLoop 0 nj (fun j m => m.set i j (g i j)) m) m hn
      (by
        intro r c
        rw [if_neg]
        omega)
      (by
        intro k st hk _ hP r c
        rw [forLoop_set_row k nj (g k) st r c, hP r c]
        by_cases h1 : r = k ∧ 0 ≤ c ∧ c < nj
        · obtain ⟨hr, hc⟩ := h1
          subst hr
          rw [if_pos ⟨rfl, hc⟩, if_pos ⟨hk, by omega, hc⟩]
        · rw [if_neg h1]
          by_cases h2 : 0 ≤ r ∧ r < k ∧ 0 ≤ c ∧ c < nj
          · rw [if_pos h2, if_pos ⟨h2.1, by omega, h2.2.2⟩]
          · rw [if_neg h2, if_neg]
            intro h3
            apply h2
            refine ⟨h3.1, ?_, h3.2.2⟩
            have : r ≠ k := fun h => h1 ⟨h, h3.2.2⟩
            omega)
    exact key r c
  · rw [forLoop_of_le 0 np (by omega), if_neg]
    omega

/-! ## Termination of `init()` -/

/-- The loop of `init()` ends as soon as the stride is positive and the fuel exceeds the number
of rows it has to walk. -/
theorem initLoop_terminates (stride e : ℤ) (hs : 1 ≤ stride) :
    ∀ (fuel : ℕ) (i : ℤ) (pts : List ℤ), (e + 1 - i).toNat < fuel →
      ∃ l, initLoop fuel i e stride pts = some l := by
  intro fuel
  induction fuel with
  | zero => intro i pts h; omega
  | succ n ih =>
    intro i pts h
    unfold initLoop
    by_cases hi : i < e + 1
    · rw [if_pos hi]
      exact ih (i + stride) (pts ++ [i]) (by omega)
    · rw [if_neg hi]
      exact ⟨pts, rfl⟩

theorem init_terminates (fuel : ℕ) (junk : Uninit) (t : ItompCIOTrajectory)
    (hs : 1 ≤ t.phase_stride_) (hfuel : (t.end_index_ + 1 - t.start_index_).toNat < fuel) :
    ∃ pts, ItompCIOTrajectory.init fuel junk t = some { t with
      trajectory_ := MatrixXd.alloc t.num_points_ t.num_joints_ junk.traj
      contact_trajectory_ :=
        MatrixXd.alloc (t.num_contact_phases_ + 1) t.num_contacts_ junk.contact
      contact_start_points_ := pts ++ [t.end_index_ + 1] } := by
  obtain ⟨l, hl⟩ := initLoop_terminates t.phase_stride_ t.end_index_ hs fuel t.start_index_ [0] hfuel
  exact ⟨l, by unfold ItompCIOTrajectory.init; rw [hl]⟩

theorem init_some (fuel : ℕ) (junk : Uninit) (t r : ItompCIOTrajectory)
    (h : ItompCIOTrajectory.init fuel junk t = some r) :
    ∃ pts, r = { t with
      trajectory_ := MatrixXd.alloc t.num_points_ t.num_joints_ junk.traj
      contact_trajectory_ :=
        MatrixXd.alloc (t.num_contact_phases_ + 1) t.num_contacts_ junk.contact
      contact_start_points_ := pts ++ [t.end_index_ + 1] } := by
  unfold ItompCIOTrajectory.init at h
  cases hl : initLoop fuel t.start_index_ t.end_index_ t.phase_stride_ [0] with
  | none => rw [hl] at h; cases h
  | some pts =>
    rw [hl] at h
    exact ⟨pts, (Option.some.inj h).symm⟩

/-! ## The restricted view -/

/-- What `copyFromFullTrajectory` leaves in the view: every member but the position matrix is
kept, and every stored entry at or after row `start_extra` is the source entry of the clamped
source row and of the joint's full-body column. -/
theorem copyFromFullTrajectory_some (D : ℤ) (self full : ItompCIOTrajectory)
    (pg : ItompPlanningGroup) (hpg : self.planning_group_ = some pg) :
    ∃ m, ItompCIOTrajectory.copyFromFullTrajectory D self full
        = some { self with trajectory_ := m } ∧
      ∀ i j, (D - 1) - full.start_index_ ≤ i → 0 ≤ i → i < self.num_points_ →
        0 ≤ j → j < self.num_joints_ →
        m.coeff i j = full.get (clampPoint (i - ((D - 1) - full.start_index_)) full.num_points_)
          (pg.joint j).kdl_joint_index_ := by
  unfold ItompCIOTrajectory.copyFromFullTrajectory
  rw [hpg]
  refine ⟨_, rfl, ?_⟩
  intro i j hse hi0 hi1 hj0 hj1
  have hframe := forLoop_invariant
    (fun (m : MatrixXd) => m.coeff i j
      = full.get (clampPoint (i - ((D - 1) - full.start_index_)) full.num_points_)
          (pg.joint j).kdl_joint_index_)
    0 self.num_joints_
    (fun j m =>
      if (pg.joint j).kdl_joint_index_ < 6 then
        (forDown ((D - 1) - full.start_index_ - 1) (fun i (st : ℚ × ℚ × MatrixXd) =>
          (st.1 - full.acc_start_ (pg.joint j).kdl_joint_index_ * self.discretization_,
            st.2.1 - st.1 * self.discretization_,
            st.2.2.set i j (st.2.1 - st.1 * self.discretization_)))
          (full.vel_start_ (pg.joint j).kdl_joint_index_,
            full.get 0 (pg.joint j).kdl_joint_index_, m)).2.2
      else m)
    (forLoop 0 self.num_points_ (fun i m =>
      forLoop 0 self.num_joints_ (fun j m =>
        m.set i j (full.get (clampPoint (i - ((D - 1) - full.start_index_)) full.num_points_)
          (pg.joint j).kdl_joint_index_)) m) self.trajectory_)
    (by
      beta_reduce
      rw [forLoop_set_rows self.num_points_ self.num_joints_
        (fun i j => full.get (clampPoint (i - ((D - 1) - full.start_index_)) full.num_points_)
          (pg.joint j).kdl_joint_index_) self.trajectory_ i j]
      rw [if_pos ⟨hi0, hi1, hj0, hj1⟩])
    (by
      intro j' st _ _ hP
      by_cases h6 : (pg.joint j').kdl_joint_index_ < 6
      · simp only [if_pos h6]
        refine forDown_invariant
          (fun (s : ℚ × ℚ × MatrixXd) => s.2.2.coeff i j
            = full.get (clampPoint (i - ((D - 1) - full.start_index_)) full.num_points_)
                (pg.joint j).kdl_joint_index_) _ _ _ hP ?_
        intro i' s _ hi' hs
        show (s.2.2.set i' j' _).coeff i j = _
        rw [MatrixXd.set_coeff, if_neg, hs]
        intro hc
        omega
      · simp only [if_neg h6]
        exact hP)
  exact hframe

theorem copyFromFullTrajectory_of_some (D : ℤ) (self full : ItompCIOTrajectory)
    (pg : ItompPlanningGroup) (r : ItompCIOTrajectory)
    (h : ItompCIOTrajectory.copyFromFullTrajectory D self full = some r)
    (hpg : self.planning_group_ = some pg) :
    r = { self with trajectory_ := r.trajectory_ } ∧
      ∀ i j, (D - 1) - full.start_index_ ≤ i → 0 ≤ i → i < self.num_points_ →
        0 ≤ j → j < self.num_joints_ →
        r.trajectory_.coeff i j
          = full.get (clampPoint (i - ((D - 1) - full.start_index_)) full.num_points_)
              (pg.joint j).kdl_joint_index_ := by
  obtain ⟨m, hm, hc⟩ := copyFromFullTrajectory_some D self full pg hpg
  rw [hm] at h
  simp only [Option.some.injEq] at h
  subst h
  exact ⟨rfl, hc⟩

theorem copyFromFullTrajectory_ne_none (D : ℤ) (self full : ItompCIOTrajectory)
    (pg : ItompPlanningGroup) (hpg : self.planning_group_ = some pg) :
    ItompCIOTrajectory.copyFromFullTrajectory D self full ≠ none := by
  obtain ⟨m, hm, -⟩ := copyFromFullTrajectory_some D self full pg hpg
  rw [hm]
  exact Option.some_ne_none _

/-- The members of a restricted view returned by the group constructor. -/
theorem ctorGroup_some (fuel : ℕ) (junk : Uninit) (D : ℤ) (S : ItompCIOTrajectory)
    (G : ItompPlanningGroup) (L : ℤ) (V : ItompCIOTrajectory)
    (h : ItompCIOTrajectory.ctorGroup fuel junk D S G L = some V) :
    V.planning_group_ = some G ∧ V.num_joints_ = G.num_joints_ ∧
    V.start_index_ = L - 1 ∧
    V.num_points_ = S.num_points_ + ((L - 1) - S.start_index_)
      + ((L - 1) - ((S.num_points_ - 1) - S.end_index_)) ∧
    V.end_index_ = (V.num_points_ - 1) - (L - 1) ∧
    V.contact_trajectory_ = S.contact_trajectory_ ∧
    V.phase_stride_ = S.phase_stride_ ∧ V.num_contact_phases_ = S.num_contact_phases_ ∧
    ∀ i j, (D - 1) - S.start_index_ ≤ i → 0 ≤ i → i < V.num_points_ →
      0 ≤ j → j < G.num_joints_ →
      V.trajectory_.coeff i j = S.get (clampPoint (i - ((D - 1) - S.start_index_)) S.num_points_)
        (G.joint j).kdl_joint_index_ := by
  unfold ItompCIOTrajectory.ctorGroup at h
  simp only [] at h
  split at h
  · cases h
  · rename_i self1 h1
    obtain ⟨pts, hpts⟩ := init_some _ _ _ _ h1
    subst hpts
    split at h
    · cases h
    · rename_i self2 h2
      obtain ⟨heq, hcoeff⟩ := copyFromFullTrajectory_of_some D _ S G _ h2 rfl
      simp only [Option.some.injEq] at h
      subst h
      rw [heq]
      exact ⟨rfl, rfl, rfl, rfl, rfl, rfl, rfl, rfl, hcoeff⟩

/-- The group constructor returns a view as soon as the source's phase stride is positive and
the fuel exceeds the interior length. -/
theorem ctorGroup_terminates (fuel : ℕ) (junk : Uninit) (D : ℤ) (S : ItompCIOTrajectory)
    (G : ItompPlanningGroup) (L : ℤ) (hs : 1 ≤ S.phase_stride_)
    (hfuel : (S.end_index_ - S.start_index_ + 1).toNat < fuel) :
    ∃ V, ItompCIOTrajectory.ctorGroup fuel junk D S G L = some V := by
  unfold ItompCIOTrajectory.ctorGroup
  simp only []
  obtain ⟨pts, hpts⟩ := init_terminates fuel junk
    { robot_model_ := S.robot_model_
      planning_group_ := some G
      phase_stride_ := S.phase_stride_
      discretization_ := S.discretization_
      num_contacts_ := S.num_contacts_
      contact_phase_duration_ := S.contact_phase_duration_
      num_contact_phases_ := S.num_contact_phases_
      num_joints_ := G.num_joints_
      num_points_ := S.num_points_ + ((L - 1) - S.start_index_)
        + ((L - 1) - ((S.num_points_ - 1) - S.end_index_))
      start_index_ := L - 1
      end_index_ := (S.num_points_ + ((L - 1) - S.start_index_)
        + ((L - 1) - ((S.num_points_ - 1) - S.end_index_)) - 1) - (L - 1)
      duration_ := S.duration_
      trajectory_ := MatrixXd.empty
      contact_trajectory_ := MatrixXd.empty
      contact_start_points_ := []
      full_trajectory_index_ := []
      vel_start_ := fun _ => 0
      acc_start_ := fun _ => 0 } hs
    (by
      show ((S.num_points_ + ((L - 1) - S.start_index_)
        + ((L - 1) - ((S.num_points_ - 1) - S.end_index_)) - 1) - (L - 1)
        + 1 - (L - 1)).toNat < fuel
      have : (S.num_points_ + ((L - 1) - S.start_index_)
        + ((L - 1) - ((S.num_points_ - 1) - S.end_index_)) - 1) - (L - 1)
        + 1 - (L - 1) = S.end_index_ - S.start_index_ + 1 := by ring
      rw [this]
      exact hfuel)
  rw [hpts]
  simp only []
  split
  · rename_i hnone
    exact absurd hnone (copyFromFullTrajectory_ne_none D _ S G rfl)
  · exact ⟨_, rfl⟩

/-! ## The merge of a view into the full-body trajectory -/

theorem forLoop_congr {σ : Type} (lo hi : ℤ) (body body2 : ℤ → σ → σ) (s : σ)
    (h : ∀ i st, lo ≤ i → i < hi → body i st = body2 i st) :
    forLoop lo hi body s = forLoop lo hi body2 s := by
  unfold forLoop
  apply List.foldl_ext
  intro st k hk
  have hk2 : k < (hi - lo).toNat := List.mem_range.mp hk
  exact h _ st (by omega) (by omega)

theorem MatrixXd.ext_iff_fields (a b : MatrixXd) (hr : a.rows = b.rows) (hc : a.cols = b.cols)
    (h : ∀ r c, a.coeff r c = b.coeff r c) : a = b := by
  cases a
  cases b
  simp only at hr hc h
  subst hr hc
  congr
  funext r c
  exact h r c

theorem MatrixXd.copyColumnBlock_dims (dst src : MatrixXd) (r0 c n r1 c1 : ℤ) :
    (dst.copyColumnBlock r0 c n src r1 c1).rows = dst.rows ∧
    (dst.copyColumnBlock r0 c n src r1 c1).cols = dst.cols := by
  unfold MatrixXd.copyColumnBlock
  exact forLoop_invariant (fun (m : MatrixXd) => m.rows = dst.rows ∧ m.cols = dst.cols) _ _ _ _
    ⟨rfl, rfl⟩ (fun _ st _ _ hP => hP)

theorem mergePositions_dims (F V : ItompCIOTrajectory) (G : ItompPlanningGroup) :
    (F.mergePositions V G).rows = F.trajectory_.rows ∧
    (F.mergePositions V G).cols = F.trajectory_.cols := by
  unfold ItompCIOTrajectory.mergePositions
  refine forLoop_invariant
    (fun (m : MatrixXd) => m.rows = F.trajectory_.rows ∧ m.cols = F.trajectory_.cols) _ _ _ _
    ⟨rfl, rfl⟩ ?_
  intro i st _ _ hP
  have := MatrixXd.copyColumnBlock_dims st V.trajectory_ F.start_index_
    (G.joint i).kdl_joint_index_ (F.end_index_ - F.start_index_ + 1) V.start_index_ i
  exact ⟨this.1.trans hP.1, this.2.trans hP.2⟩

theorem mergeContacts_dims (F V : ItompCIOTrajectory) (G : ItompPlanningGroup) :
    (F.mergeContacts V G).rows = F.contact_trajectory_.rows ∧
    (F.mergeContacts V G).cols = F.contact_trajectory_.cols := by
  unfold ItompCIOTrajectory.mergeContacts
  refine forLoop_invariant
    (fun (m : MatrixXd) => m.rows = F.contact_trajectory_.rows
      ∧ m.cols = F.contact_trajectory_.cols) _ _ _ _ ⟨rfl, rfl⟩ ?_
  intro i st _ _ hP
  have := MatrixXd.copyColumnBlock_dims st V.contact_trajectory_ 1 i
    (F.num_contact_phases_ - 2 - 1 + 1) 1 i
  exact ⟨this.1.trans hP.1, this.2.trans hP.2⟩

/-- Every position entry after the merge is either the old entry, or an interior entry of a
group column that holds the view's entry at the same offset. -/
theorem mergePositions_cases (F V : ItompCIOTrajectory) (G : ItompPlanningGroup) (r c : ℤ) :
    (F.mergePositions V G).coeff r c = F.trajectory_.coeff r c ∨
    ∃ i, 0 ≤ i ∧ i < G.num_joints_ ∧ (G.joint i).kdl_joint_index_ = c ∧
      F.start_index_ ≤ r ∧ r ≤ F.end_index_ ∧
      (F.mergePositions V G).coeff r c
        = V.trajectory_.coeff (V.start_index_ + (r - F.start_index_)) i := by
  unfold ItompCIOTrajectory.mergePositions
  refine forLoop_invariant
    (fun (m : MatrixXd) => m.coeff r c = F.trajectory_.coeff r c ∨
      ∃ i, 0 ≤ i ∧ i < G.num_joints_ ∧ (G.joint i).kdl_joint_index_ = c ∧
        F.start_index_ ≤ r ∧ r ≤ F.end_index_ ∧
        m.coeff r c = V.trajectory_.coeff (V.start_index_ + (r - F.start_index_)) i)
    _ _ _ _ (Or.inl rfl) ?_
  intro i st hi0 hi1 hP
  simp only []
  rw [MatrixXd.copyColumnBlock_coeff]
  by_cases h : c = (G.joint i).kdl_joint_index_ ∧ F.start_index_ ≤ r
      ∧ r < F.start_index_ + (F.end_index_ - F.start_index_ + 1)
  · rw [if_pos h]
    exact Or.inr ⟨i, hi0, hi1, h.1.symm, h.2.1, by omega, rfl⟩
  · rw [if_neg h]
    exact hP

/-- Every interior entry of a group column holds, after the merge, the view's entry at the
same offset. -/
theorem mergePositions_written (F V : ItompCIOTrajectory) (G : ItompPlanningGroup) (r c : ℤ)
    (hr0 : F.start_index_ ≤ r) (hr1 : r ≤ F.end_index_)
    (hc : ∃ i, 0 ≤ i ∧ i < G.num_joints_ ∧ (G.joint i).kdl_joint_index_ = c) :
    ∃ i, 0 ≤ i ∧ i < G.num_joints_ ∧ (G.joint i).kdl_joint_index_ = c ∧
      (F.mergePositions V G).coeff r c
        = V.trajectory_.coeff (V.start_index_ + (r - F.start_index_)) i := by
  unfold ItompCIOTrajectory.mergePositions
  have hn : (0 : ℤ) ≤ G.num_joints_ := by
    unfold ItompPlanningGroup.num_joints_
    exact Int.natCast_nonneg _
  have key := forLoop_induction
    (fun k (m : MatrixXd) => (∃ i, 0 ≤ i ∧ i < k ∧ (G.joint i).kdl_joint_index_ = c) →
      ∃ i, 0 ≤ i ∧ i < k ∧ (G.joint i).kdl_joint_index_ = c ∧
        m.coeff r c = V.trajectory_.coeff (V.start_index_ + (r - F.start_index_)) i)
    0 G.num_joints_
    (fun i m => m.copyColumnBlock F.start_index_ (G.joint i).kdl_joint_index_
      (F.end_index_ - F.start_index_ + 1) V.trajectory_ V.start_index_ i)
    F.trajectory_ hn
    (by
      rintro ⟨i, h0, h1, -⟩
      omega)
    (by
      intro k st hk0 _ hP hex
      rw [MatrixXd.copyColumnBlock_coeff]
      by_cases h : (G.joint k).kdl_joint_index_ = c
      · refine ⟨k, hk0, by omega, h, ?_⟩
        rw [if_pos ⟨h.symm, hr0, by omega⟩]
      · obtain ⟨i, h0, h1, h2⟩ := hex
        have hik : i ≠ k := fun e => h (e ▸ h2)
        obtain ⟨i2, a0, a1, a2, a3⟩ := hP ⟨i, h0, by omega, h2⟩
        refine ⟨i2, a0, by omega, a2, ?_⟩
        rw [if_neg (fun hh => h hh.1.symm)]
        exact a3)
  obtain ⟨i, h0, h1, h2, h3⟩ := key hc
  exact ⟨i, h0, h1, h2, h3⟩

/-- The contact matrix after the merge. -/
theorem mergeContacts_coeff (F V : ItompCIOTrajectory) (G : ItompPlanningGroup) (r c : ℤ) :
    (F.mergeContacts V G).coeff r c =
      if 0 ≤ c ∧ c < G.num_contacts_ ∧ 1 ≤ r ∧ r ≤ F.num_contact_phases_ - 2 then
        V.contact_trajectory_.coeff r c
      else F.contact_trajectory_.coeff r c := by
  unfold ItompCIOTrajectory.mergeContacts
  by_cases hn : 0 ≤ G.num_contacts_
  · have key := forLoop_induction
      (fun k (m : MatrixXd) => ∀ r c, m.coeff r c =
        if 0 ≤ c ∧ c < k ∧ 1 ≤ r ∧ r ≤ F.num_contact_phases_ - 2 then
          V.contact_trajectory_.coeff r c
        else F.contact_trajectory_.coeff r c)
      0 G.num_contacts_
      (fun i cm => cm.copyColumnBlock 1 i (F.num_contact_phases_ - 2 - 1 + 1)
        V.contact_trajectory_ 1 i)
      F.contact_trajectory_ hn
      (by
        intro r c
        rw [if_neg]
        omega)
      (by
        intro k st hk0 _ hP r c
        rw [MatrixXd.copyColumnBlock_coeff, hP r c]
        by_cases h1 : c = k ∧ 1 ≤ r ∧ r < 1 + (F.num_contact_phases_ - 2 - 1 + 1)
        · rw [if_pos h1, if_pos ⟨by omega, by omega, h1.2.1, by omega⟩]
          obtain ⟨hck, -, -⟩ := h1
          subst hck
          congr 1
          omega
        · rw [if_neg h1]
          by_cases h2 : 0 ≤ c ∧ c < k ∧ 1 ≤ r ∧ r ≤ F.num_contact_phases_ - 2
          · rw [if_pos h2, if_pos ⟨h2.1, by omega, h2.2.2⟩]
          · rw [if_neg h2, if_neg]
            intro h3
            apply h2
            refine ⟨h3.1, ?_, h3.2.2⟩
            have : c ≠ k := fun e => h1 ⟨e, h3.2.2.1, by omega⟩
            omega)
    exact key r c
  · rw [forLoop_of_le 0 _ (by omega), if_neg]
    omega

/-- The position part of the merge reads the view only inside the rows
`start_index_ .. start_index_ + (interior length of the target) - 1`. -/
theorem mergePositions_congr (F V V2 : ItompCIOTrajectory) (G : ItompPlanningGroup)
    (hstart : V2.start_index_ = V.start_index_)
    (h : ∀ r c, V.start_index_ ≤ r → r ≤ V.start_index_ + (F.end_index_ - F.start_index_) →
      V2.trajectory_.coeff r c = V.trajectory_.coeff r c) :
    F.mergePositions V2 G = F.mergePositions V G := by
  unfold ItompCIOTrajectory.mergePositions
  apply forLoop_congr
  intro i st _ _
  unfold MatrixXd.copyColumnBlock
  apply forLoop_congr
  intro k m hk0 hk1
  rw [hstart, h _ _ (by omega) (by omega)]

/-! ## Scalars and the quintic -/

theorem truncToInt_of_nonneg (x : ℚ) (hx : 0 ≤ x) : truncToInt x = ⌊x⌋ := by
  unfold truncToInt
  rw [Int.tdiv_eq_ediv (Rat.num_nonneg.mpr hx) (by positivity), Rat.floor_def]

theorem safeToInt_natCast (k : ℕ) : safeToInt (k : ℚ) = k := by
  unfold safeToInt
  rw [truncToInt_of_nonneg _ (by unfold EPS7; positivity), Int.floor_eq_iff]
  unfold EPS7
  constructor
  · push_cast; norm_num
  · push_cast; norm_num

open Polynomial in
/-- C2. Quintic boundary conditions. For all rational `x0 v0 a0 x1 T`, the degree-5 polynomial
`p` whose coefficients are the six numbers `fillInMinJerk` computes from
`(x0, v0*T, a0*T*T, x1)` is the function the fill loop evaluates, and it satisfies
`p(0) = x0`, `p'(0) = v0*T`, `p''(0) = a0*T*T`, `p(1) = x1`, `p'(1) = 0`, `p''(1) = 0`. -/
theorem quintic_boundary_conditions (x0 v0 a0 x1 T : ℚ) :
    ∃ p : Polynomial ℚ,
      p = ∑ k in Finset.range 6,
        C ((minJerkCoeff x0 (v0 * T) (a0 * T * T) x1).getD k 0) * X ^ k ∧
      (∀ t : ℚ, evalPoly (timePowers t) (minJerkCoeff x0 (v0 * T) (a0 * T * T) x1)
        = p.eval t) ∧
      p.eval 0 = x0 ∧ (derivative p).eval 0 = v0 * T ∧
      (derivative (derivative p)).eval 0 = a0 * T * T ∧
      p.eval 1 = x1 ∧ (derivative p).eval 1 = 0 ∧ (derivative (derivative p)).eval 1 = 0 := by
  refine ⟨_, rfl, ?_⟩
  generalize hpdef : (∑ k in Finset.range 6,
    C ((minJerkCoeff x0 (v0 * T) (a0 * T * T) x1).getD k 0) * X ^ k : Polynomial ℚ) = p
  have hp : p = C x0 + C (v0 * T) * X + C ((1 / 2) * (a0 * T * T)) * X ^ 2
      + C (-(3 / 2) * (a0 * T * T) - 6 * (v0 * T) - 10 * x0 + 10 * x1) * X ^ 3
      + C ((3 / 2) * (a0 * T * T) + 8 * (v0 * T) + 15 * x0 - 15 * x1) * X ^ 4
      + C (-(1 / 2) * (a0 * T * T) - 3 * (v0 * T) - 6 * x0 + 6 * x1) * X ^ 5 := by
    rw [← hpdef]
    simp only [minJerkCoeff, Finset.sum_range_succ, Finset.sum_range_zero]
    simp
  refine ⟨?_, ?_, ?_, ?_, ?_, ?_, ?_⟩
  · intro t
    rw [hp]
    simp [evalPoly, timePowers, minJerkCoeff, List.range_succ]
    ring
  all_goals
    rw [hp]
    simp only [derivative_add, derivative_C_mul, derivative_X_pow, derivative_X, derivative_C,
      derivative_mul, derivative_natCast, eval_add, eval_mul, eval_C, eval_X, eval_pow,
      eval_natCast, Nat.cast_ofNat, eval_zero, eval_one, eval_ofNat]
    try norm_num
    try ring

theorem safeToInt_eq_of_natCast (q : ℚ) (k : ℕ) (h : q = (k : ℚ)) : safeToInt q = (k : ℤ) := by
  rw [h, safeToInt_natCast]

theorem truncToInt_natCast (k : ℕ) : truncToInt (k : ℚ) = (k : ℤ) := by
  rw [truncToInt_of_nonneg _ (by positivity)]
  simp

/-- The geometry of `exampleYaw` is the one the full constructor computes for duration 0.4,
discretization 0.1, one contact and contact phase duration 0.2. -/
theorem exampleYaw_geometry :
    ∃ t, ItompCIOTrajectory.ctor 10 exampleJunk exampleRobot (2 / 5) (1 / 10) 1 (1 / 5)
        = some t ∧
      t.num_points_ = exampleYaw.num_points_ ∧ t.num_joints_ = exampleYaw.num_joints_ ∧
      t.start_index_ = exampleYaw.start_index_ ∧ t.end_index_ = exampleYaw.end_index_ ∧
      t.phase_stride_ = exampleYaw.phase_stride_ ∧
      t.num_contact_phases_ = exampleYaw.num_contact_phases_ ∧
      t.num_contacts_ = exampleYaw.num_contacts_ ∧
      t.contact_start_points_ = exampleYaw.contact_start_points_ := by
  have h1 : safeToInt ((2 / 5 : ℚ) / (1 / 10)) = 4 :=
    safeToInt_eq_of_natCast _ 4 (by norm_num)
  have h2 : safeToInt ((1 / 5 : ℚ) / (1 / 10)) = 2 :=
    safeToInt_eq_of_natCast _ 2 (by norm_num)
  have h3 : safeToInt ((2 / 5 : ℚ) / (1 / 5)) = 2 :=
    safeToInt_eq_of_natCast _ 2 (by norm_num)
  have h4 : truncToInt 1 = 1 := by
    have := truncToInt_natCast 1
    simpa using this
  unfold ItompCIOTrajectory.ctor ItompCIOTrajectory.init
  simp only [h1, h2, h3, h4]
  have h5 : initLoop 10 1 (4 + 1 - 2) 2 [0] = some [0, 1, 3] := by decide
  rw [h5]
  refine ⟨_, rfl, ?_⟩
  simp [exampleYaw, exampleRobot]

/-- The geometry of `exampleFull` is the one the full constructor computes for duration 0.6,
discretization 0.1, one contact and contact phase duration 0.3. -/
theorem exampleFull_geometry :
    ∃ t, ItompCIOTrajectory.ctor 10 exampleJunk exampleRobot (3 / 5) (1 / 10) 1 (3 / 10)
        = some t ∧
      t.num_points_ = exampleFull.num_points_ ∧ t.num_joints_ = exampleFull.num_joints_ ∧
      t.start_index_ = exampleFull.start_index_ ∧ t.end_index_ = exampleFull.end_index_ ∧
      t.phase_stride_ = exampleFull.phase_stride_ ∧
      t.num_contact_phases_ = exampleFull.num_contact_phases_ ∧
      t.num_contacts_ = exampleFull.num_contacts_ ∧
      t.contact_start_points_ = exampleFull.contact_start_points_ := by
  have h1 : safeToInt ((3 / 5 : ℚ) / (1 / 10)) = 6 :=
    safeToInt_eq_of_natCast _ 6 (by norm_num)
  have h2 : safeToInt ((3 / 10 : ℚ) / (1 / 10)) = 3 :=
    safeToInt_eq_of_natCast _ 3 (by norm_num)
  have h3 : safeToInt ((3 / 5 : ℚ) / (3 / 10)) = 2 :=
    safeToInt_eq_of_natCast _ 2 (by norm_num)
  have h4 : truncToInt 1 = 1 := by
    have := truncToInt_natCast 1
    simpa using this
  unfold ItompCIOTrajectory.ctor ItompCIOTrajectory.init
  simp only [h1, h2, h3, h4]
  have h5 : initLoop 10 1 (6 + 1 - 2) 3 [0] = some [0, 1, 4] := by decide
  rw [h5]
  refine ⟨_, rfl, ?_⟩
  simp [exampleFull, exampleRobot]

/-- The geometry of `exampleArm` is the one the full constructor computes for the scenario of
the spec: duration 2.0, discretization 0.1, no contact, contact phase duration 0.5. -/
theorem exampleArm_geometry :
    ∃ t, ItompCIOTrajectory.ctor 30 exampleJunk exampleArm.robot_model_ 2 (1 / 10) 0 (1 / 2)
        = some t ∧
      t.num_points_ = exampleArm.num_points_ ∧ t.num_joints_ = exampleArm.num_joints_ ∧
      t.start_index_ = exampleArm.start_index_ ∧ t.end_index_ = exampleArm.end_index_ ∧
      t.phase_stride_ = exampleArm.phase_stride_ ∧
      t.num_contact_phases_ = exampleArm.num_contact_phases_ ∧
      t.num_contacts_ = exampleArm.num_contacts_ ∧
      t.contact_start_points_ = exampleArm.contact_start_points_ := by
  have h1 : safeToInt ((2 : ℚ) / (1 / 10)) = 20 :=
    safeToInt_eq_of_natCast _ 20 (by norm_num)
  have h2 : safeToInt ((1 / 2 : ℚ) / (1 / 10)) = 5 :=
    safeToInt_eq_of_natCast _ 5 (by norm_num)
  have h3 : safeToInt ((2 : ℚ) / (1 / 2)) = 4 :=
    safeToInt_eq_of_natCast _ 4 (by norm_num)
  have h4 : truncToInt 0 = 0 := by
    have := truncToInt_natCast 0
    simpa using this
  unfold ItompCIOTrajectory.ctor ItompCIOTrajectory.init
  simp only [h1, h2, h3, h4]
  have h5 : initLoop 30 1 (20 + 1 - 2) 5 [0] = some [0, 1, 6, 11, 16] := by decide
  rw [h5]
  refine ⟨_, rfl, ?_⟩
  simp [exampleArm]

/-- C4. For every natural number `k` and every positive discretization `d`, the full
constructor called with duration `k * d` computes `safeToInt(duration / discretization) + 1
= k + 1`; every trajectory it returns has `num_points_ = k + 1`, and it does return one as soon
as the phase stride `safeToInt(contact_phase_duration / discretization)` is at least 1 and the
fuel exceeds `k`. -/
theorem num_points_exact_multiple (k : ℕ) (d : ℚ) (hd : 0 < d) :
    safeToInt (((k : ℚ) * d) / d) + 1 = (k : ℤ) + 1 ∧
    (∀ fuel junk robot_model num_contacts contact_phase_duration t,
      ItompCIOTrajectory.ctor fuel junk robot_model ((k : ℚ) * d) d num_contacts
        contact_phase_duration = some t → t.num_points_ = (k : ℤ) + 1) ∧
    (∀ fuel junk robot_model num_contacts contact_phase_duration,
      1 ≤ safeToInt (contact_phase_duration / d) → k < fuel →
      ∃ t, ItompCIOTrajectory.ctor fuel junk robot_model ((k : ℚ) * d) d num_contacts
        contact_phase_duration = some t ∧ t.num_points_ = (k : ℤ) + 1) := by
  have h1 : safeToInt (((k : ℚ) * d) / d) + 1 = (k : ℤ) + 1 := by
    rw [mul_div_assoc, div_self (ne_of_gt hd), mul_one, safeToInt_natCast]
  refine ⟨h1, ?_, ?_⟩
  · intro fuel junk robot_model num_contacts contact_phase_duration t ht
    unfold ItompCIOTrajectory.ctor at ht
    obtain ⟨pts, hpts⟩ := init_some _ _ _ _ ht
    rw [hpts]
    exact h1
  · intro fuel junk robot_model num_contacts contact_phase_duration hs hfuel
    unfold ItompCIOTrajectory.ctor
    refine (init_terminates fuel junk _ ?_ ?_).elim (fun pts hpts => ⟨_, hpts, h1⟩)
    · exact hs
    · show ((safeToInt ((k : ℚ) * d / d) + 1 - 2) + 1 - 1).toNat < fuel
      rw [h1]
      omega

/-- Witness of C4: `k = 20`, `d = 1/10` (duration 2.0, discretization 0.1, 21 steps). -/
theorem num_points_exact_multiple_witness :
    safeToInt ((((20 : ℕ) : ℚ) * (1 / 10)) / (1 / 10)) + 1 = ((20 : ℕ) : ℤ) + 1 :=
  (num_points_exact_multiple 20 (1 / 10) (by norm_num)).1

/-! ## Free-end min-jerk seeding -/

/-- Writing one row at the columns of a container. -/
theorem foldl_set_cols (l : List ℤ) (i : ℤ) (f : ℤ → ℚ) (m : MatrixXd) (r c : ℤ) :
    (l.foldl (fun m j => m.set i j (f j)) m).coeff r c =
      if r = i ∧ c ∈ l then f c else m.coeff r c := by
  induction l generalizing m with
  | nil => simp
  | cons a t ih =>
    simp only [List.foldl_cons]
    rw [ih, MatrixXd.set_coeff]
    by_cases h1 : r = i ∧ c ∈ t
    · rw [if_pos h1, if_pos ⟨h1.1, List.mem_cons_of_mem a h1.2⟩]
    · rw [if_neg h1]
      by_cases h2 : r = i ∧ c = a
      · obtain ⟨hr, hc⟩ := h2
        subst hc
        rw [if_pos ⟨hr, rfl⟩, if_pos ⟨hr, List.mem_cons_self c t⟩]
      · rw [if_neg h2, if_neg]
        rintro ⟨hr, hc⟩
        rcases List.mem_cons.mp hc with hc | hc
        · exact h2 ⟨hr, hc⟩
        · exact h1 ⟨hr, hc⟩

/-- The fill loop writes exactly the interior rows of the columns of the set, each with the
quintic of its column at the normalised time of its row. -/
theorem minJerkFillLoop_coeff (self : ItompCIOTrajectory) (l : List ℤ) (coeff : ℤ → List ℚ)
    (m : MatrixXd) (r c : ℤ) :
    (self.minJerkFillLoop l coeff m).coeff r c =
      if self.start_index_ ≤ r ∧ r ≤ self.end_index_ ∧ c ∈ l then
        evalPoly (timePowers (((r - (self.start_index_ - 1) : ℤ) : ℚ)
          / (((self.end_index_ + 1) - (self.start_index_ - 1) : ℤ) : ℚ))) (coeff c)
      else m.coeff r c := by
  unfold ItompCIOTrajectory.minJerkFillLoop
  simp only []
  by_cases hn : self.start_index_ - 1 + 1 ≤ self.end_index_ + 1
  · have key := forLoop_induction
      (fun k (st : MatrixXd) => ∀ r c, st.coeff r c =
        if self.start_index_ ≤ r ∧ r < k ∧ c ∈ l then
          evalPoly (timePowers (((r - (self.start_index_ - 1) : ℤ) : ℚ)
            / (((self.end_index_ + 1) - (self.start_index_ - 1) : ℤ) : ℚ))) (coeff c)
        else m.coeff r c)
      (self.start_index_ - 1 + 1) (self.end_index_ + 1)
      (fun i m => l.foldl (fun m j => m.set i j
        (evalPoly (timePowers (((i - (self.start_index_ - 1) : ℤ) : ℚ)
          / (((self.end_index_ + 1) - (self.start_index_ - 1) : ℤ) : ℚ))) (coeff j))) m)
      m hn
      (by
        intro r c
        rw [if_neg]
        omega)
      (by
        intro k st hk0 _ hP r c
        rw [foldl_set_cols, hP r c]
        by_cases h1 : r = k ∧ c ∈ l
        · obtain ⟨hr, hc⟩ := h1
          subst hr
          rw [if_pos ⟨rfl, hc⟩, if_pos ⟨by omega, by omega, hc⟩]
        · rw [if_neg h1]
          by_cases h2 : self.start_index_ ≤ r ∧ r < k ∧ c ∈ l
          · rw [if_pos h2, if_pos ⟨h2.1, by omega, h2.2.2⟩]
          · rw [if_neg h2, if_neg]
            intro h3
            apply h2
            refine ⟨h3.1, ?_, h3.2.2⟩
            have : r ≠ k := fun e => h1 ⟨e, h3.2.2⟩
            omega)
    rw [key r c]
    by_cases h : self.start_index_ ≤ r ∧ r ≤ self.end_index_ ∧ c ∈ l
    · rw [if_pos h, if_pos ⟨h.1, by omega, h.2.2⟩]
    · rw [if_neg h, if_neg]
      intro h3
      exact h ⟨h3.1, by omega, h3.2.2⟩
  · rw [forLoop_of_le _ _ (by omega), if_neg]
    omega

/-- The rotation block writes only in the column of the rotation joint. -/
theorem minJerkRotation_other_columns (env : SeedEnv) (self : ItompCIOTrajectory)
    (vel acc : ℤ → ℚ) (m : MatrixXd) (r c : ℤ) (hc : c ≠ ROT_JOINT_INDEX) :
    (self.minJerkRotation env vel acc m).coeff r c = m.coeff r c := by
  unfold ItompCIOTrajectory.minJerkRotation
  simp only []
  refine forLoop_invariant (fun (st : MatrixXd) => st.coeff r c = m.coeff r c) _ _ _ _ rfl ?_
  intro idx st _ _ hP
  refine forLoop_invariant (fun (st2 : MatrixXd) => st2.coeff r c = m.coeff r c) _ _ _ _ hP ?_
  intro i st2 _ _ hP2
  rw [MatrixXd.set_coeff, if_neg (fun h => hc h.2)]
  exact hP2

/-- The coefficient loop leaves, for every joint of the set that is not sent to the rotation
block, the six coefficients of its own boundary values. -/
theorem minJerkCoeffLoop_coeff (env : SeedEnv) (self : ItompCIOTrajectory) (l : List ℤ)
    (vel acc : ℤ → ℚ) (j : ℤ) (hj : j ∈ l) (hrot : ¬ isRotationCase env self j) :
    (self.minJerkCoeffLoop env l vel acc).2 j =
      minJerkCoeff (self.get (self.start_index_ - 1) j)
        ((if j < 6 then vel j else 0)
          * ((((self.end_index_ + 1) - (self.start_index_ - 1) : ℤ) : ℚ) * self.discretization_))
        ((if j < 6 then acc j else 0)
          * ((((self.end_index_ + 1) - (self.start_index_ - 1) : ℤ) : ℚ) * self.discretization_)
          * ((((self.end_index_ + 1) - (self.start_index_ - 1) : ℤ) : ℚ) * self.discretization_))
        (self.get (self.end_index_ + 1) j) := by
  unfold ItompCIOTrajectory.minJerkCoeffLoop
  simp only []
  generalize (false, env.coeffJunk) = st0
  induction l generalizing st0 with
  | nil => cases hj
  | cons a t ih =>
    simp only [List.foldl_cons]
    by_cases haj : a = j
    · subst haj
      refine foldl_invariant (fun (st : Bool × (ℤ → List ℚ)) => st.2 a = _) _ t _ ?_ ?_
      · have hcond : ¬ (a = ROT_JOINT_INDEX ∧ env.hasRoot6d = true
            ∧ (|self.get (self.start_index_ - 1) 0 - self.get (self.end_index_ + 1) 0| > EPS7
              ∨ |self.get (self.start_index_ - 1) 1 - self.get (self.end_index_ + 1) 1|
                > EPS7)) := hrot
        rw [if_neg hcond]
        simp
      · intro b st _ hP
        by_cases hb : b = ROT_JOINT_INDEX ∧ env.hasRoot6d = true
            ∧ (|self.get (self.start_index_ - 1) 0 - self.get (self.end_index_ + 1) 0| > EPS7
              ∨ |self.get (self.start_index_ - 1) 1 - self.get (self.end_index_ + 1) 1| > EPS7)
        · rw [if_pos hb]
          exact hP
        · rw [if_neg hb]
          by_cases hba : a = b
          · subst hba
            simp
          · simp only [if_neg hba]
            exact hP
    · rcases List.mem_cons.mp hj with h | h
      · exact absurd h.symm haj
      · exact ih h _

/-- Without the rotation case the coefficient loop does not raise `hasRotation`. -/
theorem minJerkCoeffLoop_flag (env : SeedEnv) (self : ItompCIOTrajectory) (l : List ℤ)
    (vel acc : ℤ → ℚ) (h : ∀ i ∈ l, ¬ isRotationCase env self i) :
    (self.minJerkCoeffLoop env l vel acc).1 = false := by
  unfold ItompCIOTrajectory.minJerkCoeffLoop
  simp only []
  refine foldl_invariant (fun (st : Bool × (ℤ → List ℚ)) => st.1 = false) _ l _ rfl ?_
  intro b st hb hP
  have hcond : ¬ (b = ROT_JOINT_INDEX ∧ env.hasRoot6d = true
      ∧ (|self.get (self.start_index_ - 1) 0 - self.get (self.end_index_ + 1) 0| > EPS7
        ∨ |self.get (self.start_index_ - 1) 1 - self.get (self.end_index_ + 1) 1|
          > EPS7)) := h b hb
  rw [if_neg hcond]
  exact hP

/-- Outside the rotation case of the rotation joint, an entry of the seeded trajectory is the
entry left by the fill loop. -/
theorem fillInMinJerk_get (env : SeedEnv) (self : ItompCIOTrajectory) (l : List ℤ)
    (vel acc : ℤ → ℚ) (r c : ℤ)
    (h : c ≠ ROT_JOINT_INDEX ∨ ¬ isRotationCase env self ROT_JOINT_INDEX) :
    (self.fillInMinJerk env l vel acc).get r c =
      (self.minJerkFillLoop l (self.minJerkCoeffLoop env l vel acc).2 self.trajectory_).coeff
        r c := by
  unfold ItompCIOTrajectory.fillInMinJerk ItompCIOTrajectory.get
  simp only []
  by_cases hflag : (self.minJerkCoeffLoop env l vel acc).1 = true
  · rw [if_pos hflag]
    rcases h with h | h
    · exact minJerkRotation_other_columns env self vel acc _ r c h
    · exfalso
      have : (self.minJerkCoeffLoop env l vel acc).1 = false :=
        minJerkCoeffLoop_flag env self l vel acc (fun i _ hi => h (by
          have e : i = ROT_JOINT_INDEX := hi.1
          rw [← e]
          exact hi))
      rw [this] at hflag
      cases hflag
  · rw [if_neg hflag]

theorem evalPoly_rest_to_rest (x0 x1 t : ℚ) :
    evalPoly (timePowers t) (minJerkCoeff x0 0 0 x1)
      = x0 + (x1 - x0) * (10 * t ^ 3 - 15 * t ^ 4 + 6 * t ^ 5) := by
  simp [evalPoly, timePowers, minJerkCoeff, List.range_succ]
  ring

/-- The normalised min-jerk profile `10 t^3 - 15 t^4 + 6 t^5` is non-decreasing: the increment
over `[a, b]` is `30 (b - a)` times a sum of squares. -/
theorem minJerkProfile_mono (a b : ℚ) (hab : a ≤ b) :
    10 * a ^ 3 - 15 * a ^ 4 + 6 * a ^ 5 ≤ 10 * b ^ 3 - 15 * b ^ 4 + 6 * b ^ 5 := by
  have key : (10 * b ^ 3 - 15 * b ^ 4 + 6 * b ^ 5) - (10 * a ^ 3 - 15 * a ^ 4 + 6 * a ^ 5)
      = 30 * (b - a) * ((((a + b) / 2) * (1 - (a + b) / 2) - ((b - a) / 2) ^ 2 / 3) ^ 2
        + (1 - 2 * ((a + b) / 2)) ^ 2 * ((b - a) / 2) ^ 2 / 3
        + 4 / 45 * ((b - a) / 2) ^ 4) := by
    ring
  have hnn : 0 ≤ 30 * (b - a) * ((((a + b) / 2) * (1 - (a + b) / 2) - ((b - a) / 2) ^ 2 / 3) ^ 2
        + (1 - 2 * ((a + b) / 2)) ^ 2 * ((b - a) / 2) ^ 2 / 3
        + 4 / 45 * ((b - a) / 2) ^ 4) :=
    mul_nonneg (mul_nonneg (by norm_num) (sub_nonneg.mpr hab)) (by positivity)
  linarith

/-- C6. Frame of free-end min-jerk seeding without the yaw special case. When has-root-6d is
disabled, or the planar x/y displacement between the two boundary rows is at most `1e-7`,
`fillInMinJerk` leaves unchanged every position entry whose row is outside
`[start_index_, end_index_]` or whose column is outside the supplied joint index set; the
contact matrix is unchanged as well. -/
theorem fillInMinJerk_frame (env : SeedEnv) (self : ItompCIOTrajectory) (l : List ℤ)
    (vel acc : ℤ → ℚ)
    (hno : env.hasRoot6d = false ∨
      (|self.get (self.start_index_ - 1) 0 - self.get (self.end_index_ + 1) 0| ≤ EPS7
        ∧ |self.get (self.start_index_ - 1) 1 - self.get (self.end_index_ + 1) 1| ≤ EPS7)) :
    (∀ r c, (r < self.start_index_ ∨ self.end_index_ < r ∨ c ∉ l) →
      (self.fillInMinJerk env l vel acc).trajectory_.coeff r c = self.trajectory_.coeff r c) ∧
    (self.fillInMinJerk env l vel acc).contact_trajectory_ = self.contact_trajectory_ := by
  have hrot : ¬ isRotationCase env self ROT_JOINT_INDEX := by
    rintro ⟨-, h1, h2⟩
    rcases hno with h | ⟨ha, hb⟩
    · rw [h] at h1
      cases h1
    · rcases h2 with h2 | h2
      · exact absurd ha (not_le.mpr h2)
      · exact absurd hb (not_le.mpr h2)
  refine ⟨?_, rfl⟩
  intro r c h
  have e := fillInMinJerk_get env self l vel acc r c (Or.inr hrot)
  unfold ItompCIOTrajectory.get at e
  rw [e, minJerkFillLoop_coeff, if_neg]
  rintro ⟨h1, h2, h3⟩
  rcases h with h | h | h
  · omega
  · omega
  · exact h h3

/-- Amended C3. No overshoot outside the yaw special case, in exact arithmetic (the entries and
the sums and products of the fill loop taken as rational numbers, without the rounding of
`double`). For a joint `j` of the supplied set with zero start velocity and acceleration, not
sent to the rotation block, whose boundary values satisfy `x0 ≤ x1` (`x0` in row
`start_index_ - 1`, `x1` in row `end_index_ + 1`): every interior step `i` holds the quintic
`p((i - (start_index_ - 1)) / (end_index_ - start_index_ + 2))`, every interior value lies in
`[x0, x1]`, and the interior values are non-decreasing in the step index. -/
theorem fillInMinJerk_no_overshoot (env : SeedEnv) (self : ItompCIOTrajectory) (l : List ℤ)
    (vel acc : ℤ → ℚ) (j : ℤ) (hj : j ∈ l) (hvel : vel j = 0) (hacc : acc j = 0)
    (hrot : ¬ isRotationCase env self j)
    (hx : self.get (self.start_index_ - 1) j ≤ self.get (self.end_index_ + 1) j) :
    (∀ i, self.start_index_ ≤ i → i ≤ self.end_index_ →
      (self.fillInMinJerk env l vel acc).get i j =
        evalPoly (timePowers (((i - (self.start_index_ - 1) : ℤ) : ℚ)
            / (((self.end_index_ + 1) - (self.start_index_ - 1) : ℤ) : ℚ)))
          (minJerkCoeff (self.get (self.start_index_ - 1) j) 0 0
            (self.get (self.end_index_ + 1) j))) ∧
    (∀ i, self.start_index_ ≤ i → i ≤ self.end_index_ →
      self.get (self.start_index_ - 1) j ≤ (self.fillInMinJerk env l vel acc).get i j ∧
      (self.fillInMinJerk env l vel acc).get i j ≤ self.get (self.end_index_ + 1) j) ∧
    (∀ i i2, self.start_index_ ≤ i → i ≤ i2 → i2 ≤ self.end_index_ →
      (self.fillInMinJerk env l vel acc).get i j
        ≤ (self.fillInMinJerk env l vel acc).get i2 j) := by
  have hval : ∀ i, self.start_index_ ≤ i → i ≤ self.end_index_ →
      (self.fillInMinJerk env l vel acc).get i j =
        evalPoly (timePowers (((i - (self.start_index_ - 1) : ℤ) : ℚ)
            / (((self.end_index_ + 1) - (self.start_index_ - 1) : ℤ) : ℚ)))
          (minJerkCoeff (self.get (self.start_index_ - 1) j) 0 0
            (self.get (self.end_index_ + 1) j)) := by
    intro i h0 h1
    have hc : j ≠ ROT_JOINT_INDEX ∨ ¬ isRotationCase env self ROT_JOINT_INDEX := by
      by_cases e : j = ROT_JOINT_INDEX
      · exact Or.inr (e ▸ hrot)
      · exact Or.inl e
    rw [fillInMinJerk_get env self l vel acc i j hc, minJerkFillLoop_coeff,
      if_pos ⟨h0, h1, hj⟩, minJerkCoeffLoop_coeff env self l vel acc j hj hrot, hvel, hacc]
    simp
  have hpos : ∀ i, self.start_index_ ≤ i → i ≤ self.end_index_ →
      (0 : ℚ) < (((self.end_index_ + 1) - (self.start_index_ - 1) : ℤ) : ℚ) := by
    intro i h0 h1
    have : (0 : ℤ) < (self.end_index_ + 1) - (self.start_index_ - 1) := by omega
    exact_mod_cast this
  have hdx : 0 ≤ self.get (self.end_index_ + 1) j - self.get (self.start_index_ - 1) j :=
    sub_nonneg.mpr hx
  refine ⟨hval, ?_, ?_⟩
  · intro i h0 h1
    rw [hval i h0 h1, evalPoly_rest_to_rest]
    have hp := hpos i h0 h1
    have ht0 : (0 : ℚ) ≤ ((i - (self.start_index_ - 1) : ℤ) : ℚ)
        / (((self.end_index_ + 1) - (self.start_index_ - 1) : ℤ) : ℚ) := by
      apply div_nonneg _ hp.le
      have : (0 : ℤ) ≤ i - (self.start_index_ - 1) := by omega
      exact_mod_cast this
    have ht1 : ((i - (self.start_index_ - 1) : ℤ) : ℚ)
        / (((self.end_index_ + 1) - (self.start_index_ - 1) : ℤ) : ℚ) ≤ 1 := by
      rw [div_le_one hp]
      have : i - (self.start_index_ - 1) ≤ (self.end_index_ + 1) - (self.start_index_ - 1) := by
        omega
      exact_mod_cast this
    generalize ((i - (self.start_index_ - 1) : ℤ) : ℚ)
        / (((self.end_index_ + 1) - (self.start_index_ - 1) : ℤ) : ℚ) = t at ht0 ht1 ⊢
    have m0 := minJerkProfile_mono 0 t ht0
    have m1 := minJerkProfile_mono t 1 ht1
    norm_num at m0 m1
    constructor
    · nlinarith [mul_nonneg hdx m0]
    · nlinarith [mul_nonneg hdx (sub_nonneg.mpr m1)]
  · intro i i2 h0 h1 h2
    rw [hval i h0 (by omega), hval i2 (by omega) h2, evalPoly_rest_to_rest,
      evalPoly_rest_to_rest]
    have hp := hpos i h0 (by omega)
    have hle : ((i - (self.start_index_ - 1) : ℤ) : ℚ)
        / (((self.end_index_ + 1) - (self.start_index_ - 1) : ℤ) : ℚ)
        ≤ ((i2 - (self.start_index_ - 1) : ℤ) : ℚ)
        / (((self.end_index_ + 1) - (self.start_index_ - 1) : ℤ) : ℚ) := by
      apply div_le_div_of_nonneg_right _ hp.le
      have : i - (self.start_index_ - 1) ≤ i2 - (self.start_index_ - 1) := by omega
      exact_mod_cast this
    generalize ((i - (self.start_index_ - 1) : ℤ) : ℚ)
        / (((self.end_index_ + 1) - (self.start_index_ - 1) : ℤ) : ℚ) = t at hle ⊢
    generalize ((i2 - (self.start_index_ - 1) : ℤ) : ℚ)
        / (((self.end_index_ + 1) - (self.start_index_ - 1) : ℤ) : ℚ) = t2 at hle ⊢
    have m := minJerkProfile_mono t t2 hle
    nlinarith [mul_nonneg hdx (sub_nonneg.mpr m)]

/-! ## Cartesian path seeding -/

/-- The write loop of lines 789-796 for the row `i`: nothing for the start row, the row of the
IK solution for every other row. -/
theorem cartesianWriteRow_coeff (i lo n : ℤ) (f : ℤ → ℚ) (m : MatrixXd) (r c : ℤ) :
    (forLoop 0 n (fun k m => if i ≠ lo then m.set i k (f k) else m) m).coeff r c =
      if i ≠ lo ∧ r = i ∧ 0 ≤ c ∧ c < n then f c else m.coeff r c := by
  by_cases h : i ≠ lo
  · have e : (fun (k : ℤ) (m : MatrixXd) => if i ≠ lo then m.set i k (f k) else m)
        = (fun k m => m.set i k (f k)) := by
      funext k m
      rw [if_pos h]
    rw [e, forLoop_set_row]
    by_cases h2 : r = i ∧ 0 ≤ c ∧ c < n
    · rw [if_pos h2, if_pos ⟨h, h2⟩]
    · rw [if_neg h2, if_neg (fun hh => h2 hh.2)]
  · have e : (fun (k : ℤ) (m : MatrixXd) => if i ≠ lo then m.set i k (f k) else m)
        = (fun _ m => m) := by
      funext k m
      rw [if_neg h]
    rw [e, if_neg (fun hh => h hh.1)]
    exact forLoop_invariant (fun (st : MatrixXd) => st.coeff r c = m.coeff r c) _ _ _ _ rfl
      (fun _ _ _ _ hP => hP)

/-- The write loop of the row `i` keeps the dimensions of the matrix. -/
theorem cartesianWriteRow_dims (i lo n : ℤ) (f : ℤ → ℚ) (m : MatrixXd) :
    (forLoop 0 n (fun k m => if i ≠ lo then m.set i k (f k) else m) m).rows = m.rows ∧
    (forLoop 0 n (fun k m => if i ≠ lo then m.set i k (f k) else m) m).cols = m.cols := by
  refine forLoop_invariant (fun (st : MatrixXd) => st.rows = m.rows ∧ st.cols = m.cols)
    _ _ _ _ ⟨rfl, rfl⟩ ?_
  intro k st _ _ hP
  by_cases h : i ≠ lo
  · simp only [if_pos h]
    exact hP
  · simp only [if_neg h]
    exact hP

/-- The sampling loop of Cartesian seeding along a chain of accepted configurations: if for
each row `i` of `lo .. lo + n - 1` the retry loop of the target pose of `i`, started from the
configuration `seq (i - 1)`, returns `seq i` within the fuel, then the loop started in the
state `seq (lo - 1)` ends in the state `seq (lo + n - 1)`, and each row but the start row holds
the joint values of its configuration. -/
theorem cartesianLoop_of_chain {σ : Type} (kin : Kinematics σ) (fuel : ℕ)
    (self : ItompCIOTrajectory) (pc : Constraints) (g : String) (lo : ℤ) (seq : ℤ → σ)
    (m0 : MatrixXd) :
    ∀ n : ℕ, (∀ i, lo ≤ i → i < lo + n →
        ikRetry kin g (self.cartesianTarget pc i) fuel (seq (i - 1)) = some (seq i)) →
      (List.range n).foldl
          (fun st (k : ℕ) => self.cartesianStep kin fuel pc g (lo + (k : ℤ)) st)
          (some (seq (lo - 1), m0))
        = some (seq (lo + n - 1), cartesianRows kin self lo n seq m0) := by
  intro n
  induction n with
  | zero =>
    intro _
    simp only [List.range_zero, List.foldl_nil, Nat.cast_zero, add_zero]
    congr 2
    refine MatrixXd.ext_iff_fields _ _ rfl rfl ?_
    intro r c
    unfold cartesianRows
    simp only [Nat.cast_zero, add_zero]
    rw [if_neg (by omega)]
  | succ n ih =>
    intro hchain
    rw [List.range_succ, List.foldl_append,
      ih (fun i h0 h1 => hchain i h0 (by push_cast; omega))]
    simp only [List.foldl_cons, List.foldl_nil]
    unfold ItompCIOTrajectory.cartesianStep
    simp only []
    have hk := hchain (lo + n) (by omega) (by push_cast; omega)
    rw [hk]
    simp only []
    have e : lo + ((n + 1 : ℕ) : ℤ) - 1 = lo + (n : ℤ) := by push_cast; ring
    rw [e]
    congr 2
    have hd := cartesianWriteRow_dims (lo + (n : ℤ)) (self.start_index_ - 1)
      (kin.getVariableCount (seq (lo + n))) (kin.getVariablePositions (seq (lo + n)))
      (cartesianRows kin self lo n seq m0)
    refine MatrixXd.ext_iff_fields _ _ hd.1 hd.2 ?_
    intro r c
    rw [cartesianWriteRow_coeff]
    unfold cartesianRows
    simp only []
    by_cases hr : r = lo + (n : ℤ)
    · subst hr
      by_cases hc : lo + (n : ℤ) ≠ self.start_index_ - 1 ∧ 0 ≤ c
          ∧ c < kin.getVariableCount (seq (lo + (n : ℤ)))
      · rw [if_pos ⟨hc.1, rfl, hc.2.1, hc.2.2⟩,
          if_pos ⟨by omega, by push_cast; omega, hc.1, hc.2.1, hc.2.2⟩]
      · rw [if_neg (fun h => hc ⟨h.1, h.2.2.1, h.2.2.2⟩),
          if_neg (fun h => hc ⟨h.2.2.1, h.2.2.2.1, h.2.2.2.2⟩),
          if_neg (by omega)]
    · rw [if_neg (fun h => hr h.2.1)]
      by_cases hc : lo ≤ r ∧ r < lo + (n : ℤ) ∧ r ≠ self.start_index_ - 1 ∧ 0 ≤ c
          ∧ c < kin.getVariableCount (seq r)
      · rw [if_pos hc, if_pos ⟨hc.1, by push_cast; omega, hc.2.2.1, hc.2.2.2.1, hc.2.2.2.2⟩]
      · rw [if_neg hc, if_neg]
        intro h
        exact hc ⟨h.1, by have := h.2.1; push_cast at this; omega, h.2.2.1, h.2.2.2.1,
          h.2.2.2.2⟩

/-- A chain of accepted configurations exists when the retry loop returns within the fuel from
every configuration and for every pose. -/
theorem cartesianChain_exists {σ : Type} (kin : Kinematics σ) (fuel : ℕ)
    (self : ItompCIOTrajectory) (pc : Constraints) (g : String)
    (hik : ∀ ks pose, ∃ ks2, ikRetry kin g pose fuel ks = some ks2) (lo : ℤ) (ks0 : σ) :
    ∀ n : ℕ, ∃ seq : ℤ → σ, seq (lo - 1) = ks0 ∧
      ∀ i, lo ≤ i → i < lo + n →
        ikRetry kin g (self.cartesianTarget pc i) fuel (seq (i - 1)) = some (seq i) := by
  intro n
  induction n with
  | zero => exact ⟨fun _ => ks0, rfl, fun i h0 h1 => by omega⟩
  | succ n ih =>
    obtain ⟨seq, hseq0, hchain⟩ := ih
    obtain ⟨ks2, hk⟩ := hik (seq (lo + n - 1)) (self.cartesianTarget pc (lo + n))
    refine ⟨Function.update seq (lo + n) ks2, ?_, ?_⟩
    · rw [Function.update_noteq (by omega)]
      exact hseq0
    · intro i hi0 hi1
      by_cases hi : i = lo + n
      · subst hi
        rw [Function.update_same, Function.update_noteq (by omega)]
        exact hk
      · rw [Function.update_noteq hi, Function.update_noteq (by omega)]
        exact hchain i hi0 (by push_cast at hi1; omega)

/-- What Cartesian seeding returns when every retry loop finds a solution within the fuel: a
trajectory whose position entries outside rows `start_index_ .. end_index_ + 1` are unchanged,
whose goal row `end_index_ + 1` holds the joint values of a state returned by the IK retry
loop, and whose contact matrix is unchanged. -/
theorem cartesian_seeding_spec {σ : Type} (kin : Kinematics σ) (fuel : ℕ)
    (self : ItompCIOTrajectory) (l : List ℤ) (vel acc : ℤ → ℚ) (pc : Constraints)
    (g : String)
    (hik : ∀ ks pose, ∃ ks2, ikRetry kin g pose fuel ks = some ks2) :
    ∃ t, self.fillInMinJerkCartesianTrajectory kin fuel l vel acc pc g = some t ∧
      (∀ r c, (r < self.start_index_ ∨ self.end_index_ + 1 < r) →
        t.trajectory_.coeff r c = self.trajectory_.coeff r c) ∧
      (self.start_index_ ≤ self.end_index_ + 1 →
        ∃ ks0 pose ks, ikRetry kin g pose fuel ks0 = some ks ∧
          ∀ c, 0 ≤ c → c < kin.getVariableCount ks →
            t.get (self.end_index_ + 1) c = kin.getVariablePositions ks c) ∧
      t.contact_trajectory_ = self.contact_trajectory_ := by
  unfold ItompCIOTrajectory.fillInMinJerkCartesianTrajectory
  simp only []
  generalize hks0 : kin.setVariablePositions
    ((List.range self.num_joints_.toNat).map
      (fun (k : ℕ) => self.get (self.start_index_ - 1) (k : ℤ))) = ks0
  generalize hbody : self.cartesianStep kin fuel pc g = body
  have hstep : ∀ i ks m, ∃ pose ks2, ikRetry kin g pose fuel ks = some ks2 ∧
      body i (some (ks, m)) = some (ks2, forLoop 0 (kin.getVariableCount ks2) (fun k m =>
        if i ≠ self.start_index_ - 1 then m.set i k (kin.getVariablePositions ks2 k)
        else m) m) := by
    intro i ks m
    obtain ⟨ks2, h2⟩ := hik ks (self.cartesianTarget pc i)
    refine ⟨_, ks2, h2, ?_⟩
    rw [← hbody]
    unfold ItompCIOTrajectory.cartesianStep
    simp only [h2]
  have main : ∃ ks m, forLoop (self.start_index_ - 1) (self.end_index_ + 1 + 1) body
        (some (ks0, self.trajectory_)) = some (ks, m) ∧
      (∀ r c, (r < self.start_index_ ∨ self.end_index_ + 1 < r) →
        m.coeff r c = self.trajectory_.coeff r c) ∧
      (self.start_index_ ≤ self.end_index_ + 1 →
        ∃ ks1 pose ks2, ikRetry kin g pose fuel ks1 = some ks2 ∧
          ∀ c, 0 ≤ c → c < kin.getVariableCount ks2 →
            m.coeff (self.end_index_ + 1) c = kin.getVariablePositions ks2 c) := by
    by_cases hle : self.start_index_ - 1 ≤ self.end_index_ + 1 + 1
    · have key := forLoop_induction
        (fun k (st : Option (σ × MatrixXd)) => ∃ ks m, st = some (ks, m) ∧
          (∀ r c, (r < self.start_index_ ∨ k ≤ r) →
            m.coeff r c = self.trajectory_.coeff r c) ∧
          (self.start_index_ < k →
            ∃ ks1 pose ks2, ikRetry kin g pose fuel ks1 = some ks2 ∧
              ∀ c, 0 ≤ c → c < kin.getVariableCount ks2 →
                m.coeff (k - 1) c = kin.getVariablePositions ks2 c))
        (self.start_index_ - 1) (self.end_index_ + 1 + 1) body
        (some (ks0, self.trajectory_)) hle
        ⟨ks0, self.trajectory_, rfl, fun _ _ _ => rfl, fun h => by omega⟩
        (by
          rintro i st hi0 hi1 ⟨ks, m, rfl, hframe, -⟩
          obtain ⟨pose, ks2, hret, hb⟩ := hstep i ks m
          refine ⟨ks2, _, hb, ?_, ?_⟩
          · intro r c hr
            rw [cartesianWriteRow_coeff, if_neg, hframe r c (by omega)]
            rintro ⟨h1, h2, -⟩
            omega
          · intro hlt
            refine ⟨ks, pose, ks2, hret, ?_⟩
            intro c hc0 hc1
            rw [cartesianWriteRow_coeff, if_pos ⟨by omega, by omega, hc0, hc1⟩])
      obtain ⟨ks, m, hst, hframe, hlast⟩ := key
      refine ⟨ks, m, hst, fun r c hr => hframe r c (by omega), ?_⟩
      intro hne
      obtain ⟨ks1, pose, ks2, hret, hrow⟩ := hlast (by omega)
      refine ⟨ks1, pose, ks2, hret, ?_⟩
      intro c hc0 hc1
      have := hrow c hc0 hc1
      rw [show self.end_index_ + 1 + 1 - 1 = self.end_index_ + 1 by omega] at this
      exact this
    · rw [forLoop_of_le _ _ (by omega)]
      exact ⟨ks0, self.trajectory_, rfl, fun _ _ _ => rfl, fun h => by omega⟩
  obtain ⟨ks, m, hst, hframe, hlast⟩ := main
  rw [hst]
  exact ⟨_, rfl, hframe, hlast, rfl⟩

theorem forLoop_eq_foldl {σ : Type} (lo hi : ℤ) (body : ℤ → σ → σ) (s : σ) :
    forLoop lo hi body s
      = (List.range (hi - lo).toNat).foldl (fun st (k : ℕ) => body (lo + (k : ℤ)) st) s := rfl

/-- C8 as amended. For any IK capability whose retry loop returns a solution, Cartesian path
seeding returns a trajectory in which every position entry of a row outside
`start_index_ .. end_index_ + 1` is unchanged; in particular the start row `start_index_ - 1`
keeps its values. The goal row `end_index_ + 1` does not: it holds the joint values of the
configuration that the retry loop returns for the target pose of the last sampled step
`end_index_ + 1`, started from the kinematic state in which the sampling loop has left the
steps before it. -/
theorem cartesian_seeding_frame {σ : Type} (kin : Kinematics σ) (fuel : ℕ)
    (self : ItompCIOTrajectory) (l : List ℤ) (vel acc : ℤ → ℚ) (pc : Constraints)
    (g : String)
    (hik : ∀ ks pose, ∃ ks2, ikRetry kin g pose fuel ks = some ks2) :
    ∃ t, self.fillInMinJerkCartesianTrajectory kin fuel l vel acc pc g = some t ∧
      (∀ r c, (r < self.start_index_ ∨ self.end_index_ + 1 < r) →
        t.trajectory_.coeff r c = self.trajectory_.coeff r c) ∧
      (∀ c, t.get (self.start_index_ - 1) c = self.get (self.start_index_ - 1) c) ∧
      (self.start_index_ ≤ self.end_index_ + 1 →
        ∃ (ks_prev : σ) (m_prev : MatrixXd) (ks : σ),
          forLoop (self.start_index_ - 1) (self.end_index_ + 1)
              (self.cartesianStep kin fuel pc g)
              (some (kin.setVariablePositions ((List.range self.num_joints_.toNat).map
                (fun (k : ℕ) => self.get (self.start_index_ - 1) (k : ℤ))),
                self.trajectory_))
            = some (ks_prev, m_prev) ∧
          ikRetry kin g (self.cartesianTarget pc (self.end_index_ + 1)) fuel ks_prev
            = some ks ∧
          ∀ c, 0 ≤ c → c < kin.getVariableCount ks →
            t.get (self.end_index_ + 1) c = kin.getVariablePositions ks c) := by
  obtain ⟨seq, hseq0, hchain⟩ := cartesianChain_exists kin fuel self pc g hik
    (self.start_index_ - 1)
    (kin.setVariablePositions ((List.range self.num_joints_.toNat).map
      (fun (k : ℕ) => self.get (self.start_index_ - 1) (k : ℤ))))
    (self.end_index_ + 1 + 1 - (self.start_index_ - 1)).toNat
  have hfull := cartesianLoop_of_chain kin fuel self pc g (self.start_index_ - 1) seq
    self.trajectory_ (self.end_index_ + 1 + 1 - (self.start_index_ - 1)).toNat hchain
  rw [hseq0] at hfull
  refine ⟨{ self with
      vel_start_ := vel
      acc_start_ := acc
      trajectory_ := cartesianRows kin self (self.start_index_ - 1)
        (self.end_index_ + 1 + 1 - (self.start_index_ - 1)).toNat seq self.trajectory_ },
    ?_, ?_, ?_, ?_⟩
  · unfold ItompCIOTrajectory.fillInMinJerkCartesianTrajectory
    simp only []
    rw [forLoop_eq_foldl, hfull]
  · intro r c hr
    show (cartesianRows kin self _ _ seq self.trajectory_).coeff r c = _
    unfold cartesianRows
    simp only []
    rw [if_neg]
    intro h
    omega
  · intro c
    show (cartesianRows kin self _ _ seq self.trajectory_).coeff (self.start_index_ - 1) c = _
    unfold cartesianRows ItompCIOTrajectory.get
    simp only []
    rw [if_neg]
    intro h
    exact h.2.2.1 rfl
  · intro hle
    have hprev := cartesianLoop_of_chain kin fuel self pc g (self.start_index_ - 1) seq
      self.trajectory_ (self.end_index_ + 1 - (self.start_index_ - 1)).toNat
      (fun i h0 h1 => hchain i h0 (by omega))
    rw [hseq0] at hprev
    have e : self.start_index_ - 1
        + ((self.end_index_ + 1 - (self.start_index_ - 1)).toNat : ℤ) - 1
        = self.end_index_ + 1 - 1 := by omega
    rw [e] at hprev
    refine ⟨seq (self.end_index_ + 1 - 1), _, seq (self.end_index_ + 1),
      by rw [forLoop_eq_foldl]; exact hprev,
      hchain (self.end_index_ + 1) (by omega) (by omega), ?_⟩
    intro c hc0 hc1
    show (cartesianRows kin self _ _ seq self.trajectory_).coeff (self.end_index_ + 1) c = _
    unfold cartesianRows
    simp only []
    rw [if_pos ⟨by omega, by omega, by omega, hc0, hc1⟩]

/-- Every retry loop of `exampleCountingKin` returns within two calls. -/
theorem exampleCountingKin_returns (ks : ℤ) (pose : Pose) :
    ∃ ks2, ikRetry exampleCountingKin "arm" pose 2 ks = some ks2 := by
  by_cases h : ks % 2 = 1
  · exact ⟨ks + 1, by simp [ikRetry, exampleCountingKin, h]⟩
  · have h2 : (ks + 1) % 2 = 1 := by omega
    exact ⟨ks + 1 + 1, by simp [ikRetry, exampleCountingKin, h, h2]⟩

/-- Witness of the amended C8: `exampleYaw` seeded along `examplePath` with
`exampleCountingKin`, whose state counts the IK calls, with two calls of fuel for each retry
loop. -/
theorem cartesian_seeding_frame_witness :
    (∀ ks pose, ∃ ks2, ikRetry exampleCountingKin "arm" pose 2 ks = some ks2) ∧
    ∃ t, exampleYaw.fillInMinJerkCartesianTrajectory exampleCountingKin 2 [0, 1, 5]
        (fun _ => 0) (fun _ => 0) examplePath "arm" = some t ∧
      (∀ r c, (r < exampleYaw.start_index_ ∨ exampleYaw.end_index_ + 1 < r) →
        t.trajectory_.coeff r c = exampleYaw.trajectory_.coeff r c) ∧
      (∀ c, t.get (exampleYaw.start_index_ - 1) c
        = exampleYaw.get (exampleYaw.start_index_ - 1) c) ∧
      (exampleYaw.start_index_ ≤ exampleYaw.end_index_ + 1 →
        ∃ (ks_prev : ℤ) (m_prev : MatrixXd) (ks : ℤ),
          forLoop (exampleYaw.start_index_ - 1) (exampleYaw.end_index_ + 1)
              (exampleYaw.cartesianStep exampleCountingKin 2 examplePath "arm")
              (some (exampleCountingKin.setVariablePositions
                ((List.range exampleYaw.num_joints_.toNat).map
                  (fun (k : ℕ) => exampleYaw.get (exampleYaw.start_index_ - 1) (k : ℤ))),
                exampleYaw.trajectory_))
            = some (ks_prev, m_prev) ∧
          ikRetry exampleCountingKin "arm" (exampleYaw.cartesianTarget examplePath
            (exampleYaw.end_index_ + 1)) 2 ks_prev = some ks ∧
          ∀ c, 0 ≤ c → c < exampleCountingKin.getVariableCount ks →
            t.get (exampleYaw.end_index_ + 1) c
              = exampleCountingKin.getVariablePositions ks c) :=
  ⟨exampleCountingKin_returns,
    cartesian_seeding_frame exampleCountingKin 2 exampleYaw [0, 1, 5] (fun _ => 0)
      (fun _ => 0) examplePath "arm" exampleCountingKin_returns⟩

/-- Counterexample to C8 as stated. With an IK capability that returns a solution at once,
Cartesian seeding of `exampleYaw` returns a trajectory whose goal row `end_index_ + 1 = 4`, a
row outside `[start_index_, end_index_] = [1, 3]`, holds 9 in column 0 where it held 1. -/
theorem cartesian_seeding_overwrites_goal_row :
    ∃ t, exampleYaw.fillInMinJerkCartesianTrajectory exampleKin 1 [0, 1, 5] (fun _ => 0)
        (fun _ => 0) examplePath "arm" = some t ∧
      ¬ (exampleYaw.start_index_ ≤ exampleYaw.end_index_ + 1
        ∧ exampleYaw.end_index_ + 1 ≤ exampleYaw.end_index_) ∧
      exampleYaw.get (exampleYaw.end_index_ + 1) 0 = 1 ∧
      t.get (exampleYaw.end_index_ + 1) 0 = 9 := by
  obtain ⟨t, ht, -, hgoal, -⟩ := cartesian_seeding_spec exampleKin 1 exampleYaw [0, 1, 5]
    (fun _ => 0) (fun _ => 0) examplePath "arm" (fun ks _ => ⟨ks, rfl⟩)
  obtain ⟨ks0, pose, ks, -, hrow⟩ := hgoal (by decide)
  refine ⟨t, ht, by decide, ?_, ?_⟩
  · simp [exampleYaw, ItompCIOTrajectory.get]
  · have h8 : (0 : ℤ) < exampleKin.getVariableCount ks := by
      show (0 : ℤ) < 8
      norm_num
    exact hrow 0 (le_refl 0) h8

/-! ## Waypoint-constrained seeding -/

/-- C7 at a failing input. For every spline function that passes through its first knot,
waypoint seeding of `exampleYaw` for candidate 0 with the block of `exampleWaypoints` writes
the first waypoint, 7, into row 0 of the constrained joint's column 6: a row outside
`[start_index_, end_index_] = [1, 3]`, which held 0. -/
theorem waypoint_seeding_overwrites_start_row (ecl : EclEnv)
    (hknot : ∀ x xs y ys, ecl.cubicNatural (x :: xs) (y :: ys) x = y) :
    ¬ (exampleYaw.start_index_ ≤ 0 ∧ 0 ≤ exampleYaw.end_index_) ∧
    exampleYaw.get 0 6 = 0 ∧
    (exampleYaw.fillInMinJerkConstraints ecl 0 [0, 6] exampleGroup exampleWaypoints
      (fun _ => 0) (fun _ => 0)).get 0 6 = 7 := by
  refine ⟨by decide, by simp [exampleYaw, ItompCIOTrajectory.get], ?_⟩
  have hb : constraintBlock exampleWaypoints 0 = (0, 2) := by decide
  have h1 : findJointConstraint exampleWaypoints 0 "arm_1" = (true, 0) := by decide
  have h0 : findJointConstraint exampleWaypoints 0 "base_x" = (false, -1) := by decide
  have j0 : (exampleGroup.joint 0).joint_name_ = "base_x" := rfl
  have j1 : (exampleGroup.joint (0 + 1)).joint_name_ = "arm_1" := rfl
  unfold ItompCIOTrajectory.fillInMinJerkConstraints ItompCIOTrajectory.get
  rw [hb]
  simp only [List.foldl_cons, List.foldl_nil, ItompCIOTrajectory.seedWaypointJoint, j0, j1, h0,
    h1]
  simp [forLoop, List.range_succ, MatrixXd.set, exampleYaw, accDist, exampleWaypoints,
    TrajectoryConstraints.position, hknot]

/-- Witness of the C7 evaluation: `exampleEcl` satisfies what is assumed of the spline. -/
theorem waypoint_seeding_overwrites_start_row_witness :
    (∀ x xs y ys, exampleEcl.cubicNatural (x :: xs) (y :: ys) x = y) ∧
    (exampleYaw.fillInMinJerkConstraints exampleEcl 0 [0, 6] exampleGroup exampleWaypoints
      (fun _ => 0) (fun _ => 0)).get 0 6 = 7 :=
  ⟨fun _ _ _ _ => rfl,
    (waypoint_seeding_overwrites_start_row exampleEcl (fun _ _ _ _ => rfl)).2.2⟩

/-! ## Choice of the seeding procedure -/

/-- The full constructor returns as soon as the phase stride is positive and the fuel exceeds
the number of interior rows. -/
theorem ctor_terminates (fuel : ℕ) (junk : Uninit) (robot_model : ItompRobotModel)
    (duration discretization num_contacts contact_phase_duration : ℚ)
    (hs : 1 ≤ safeToInt (contact_phase_duration / discretization))
    (hfuel : (safeToInt (duration / discretization) - 1).toNat < fuel) :
    ∃ t, ItompCIOTrajectory.ctor fuel junk robot_model duration discretization num_contacts
      contact_phase_duration = some t := by
  unfold ItompCIOTrajectory.ctor
  refine (init_terminates fuel junk _ ?_ ?_).elim (fun pts hpts => ⟨_, hpts⟩)
  · exact hs
  · show ((safeToInt (duration / discretization) + 1 - 2) + 1 - 1).toNat < fuel
    have e : (safeToInt (duration / discretization) + 1 - 2) + 1 - 1
        = safeToInt (duration / discretization) - 1 := by ring
    rw [e]
    exact hfuel

/-- The candidate loop body calls exactly one seeding member function, chosen by whether the
precomputed constraint list is empty and then by whether the path constraints hold a position
constraint; it returns when the construction of the fresh trajectory does and, in the
Cartesian case, when the IK retry loops do. -/
theorem seedCandidate_spec {σ : Type} (env : PlannerEnv σ) (self : ItompPlannerNode)
    (template : ItompCIOTrajectory) (groupName : String) (pc : Constraints) (i : ℤ)
    (hctor : ∃ t0, ItompCIOTrajectory.ctor env.fuel env.junk self.robot_model_
      template.duration_ template.discretization_ (env.params.numContacts : ℚ)
      env.params.phaseDuration = some t0)
    (hik : env.precomputation.constraints = [] → pc.position_constraints ≠ [] →
      ∀ ks pose, ∃ ks2, ikRetry env.kin groupName pose env.fuel ks = some ks2) :
    ∃ c, self.seedCandidate env template groupName pc i = some c ∧
      ((env.precomputation.constraints ≠ [] ∧ c.1 = SeedingProcedure.waypoint ∧
          c.2 = template.fillInMinJerkConstraints env.ecl i
            (groupJointsKDLIndices (env.getPlanningGroup groupName))
            (env.getPlanningGroup groupName) env.precomputation
            self.start_point_velocities_ self.start_point_accelerations_) ∨
        (env.precomputation.constraints = [] ∧ pc.position_constraints = [] ∧
          c.1 = SeedingProcedure.freeEnd ∧
          c.2 = template.fillInMinJerk env.seed
            (groupJointsKDLIndices (env.getPlanningGroup groupName))
            self.start_point_velocities_ self.start_point_accelerations_) ∨
        (env.precomputation.constraints = [] ∧ pc.position_constraints ≠ [] ∧
          c.1 = SeedingProcedure.cartesian ∧
          template.fillInMinJerkCartesianTrajectory env.kin env.fuel
            (groupJointsKDLIndices (env.getPlanningGroup groupName))
            self.start_point_velocities_ self.start_point_accelerations_ pc groupName
            = some c.2)) := by
  obtain ⟨t0, ht0⟩ := hctor
  unfold ItompPlannerNode.seedCandidate
  simp only [ht0]
  by_cases h1 : env.precomputation.constraints.length ≠ 0
  · rw [if_pos h1]
    refine ⟨_, rfl, Or.inl ⟨?_, rfl, rfl⟩⟩
    intro e
    rw [e] at h1
    exact h1 rfl
  · rw [if_neg h1]
    have e1 : env.precomputation.constraints = [] :=
      List.length_eq_zero.mp (not_not.mp h1)
    by_cases h2 : pc.position_constraints.length = 0
    · rw [if_pos h2]
      exact ⟨_, rfl, Or.inr (Or.inl ⟨e1, List.length_eq_zero.mp h2, rfl, rfl⟩)⟩
    · rw [if_neg h2]
      have e2 : pc.position_constraints ≠ [] := fun e => h2 (by rw [e]; rfl)
      obtain ⟨t, ht, -⟩ := cartesian_seeding_spec env.kin env.fuel template
        (groupJointsKDLIndices (env.getPlanningGroup groupName))
        self.start_point_velocities_ self.start_point_accelerations_ pc groupName
        (hik e1 e2)
      rw [ht]
      exact ⟨_, rfl, Or.inr (Or.inr ⟨e1, e2, rfl, rfl⟩)⟩

/-- C5 as amended. When the construction of a fresh trajectory returns and, in the Cartesian
case, the IK retry loops do, `fillGroupJointTrajectory` returns; `trajectories_` then has one
entry per candidate, and for every candidate index `i` below the population size the entry `i`
is the result of exactly one seeding member function applied to the template trajectory:
waypoint-constrained seeding when the precomputed constraint list is not empty (whether or not
it holds a block for that candidate); otherwise free-end min-jerk seeding when the path
constraints contain no position constraint; otherwise Cartesian path seeding. -/
theorem fillGroupJointTrajectory_selection {σ : Type} (env : PlannerEnv σ)
    (self : ItompPlannerNode) (groupName : String) (jointGoalState : JointState)
    (pc : Constraints) (tc : TrajectoryConstraints)
    (hctor : ∃ t0, ItompCIOTrajectory.ctor env.fuel env.junk self.robot_model_
      self.trajectory_.duration_ self.trajectory_.discretization_
      (env.params.numContacts : ℚ) env.params.phaseDuration = some t0)
    (hik : env.precomputation.constraints = [] → pc.position_constraints ≠ [] →
      ∀ ks pose, ∃ ks2, ikRetry env.kin groupName pose env.fuel ks = some ks2) :
    ∃ node2, self.fillGroupJointTrajectory env groupName jointGoalState pc tc = some node2 ∧
      node2.trajectory_ = self.setGoalPoint (env.getPlanningGroup groupName) jointGoalState ∧
      node2.trajectories_.length = env.params.numTrajectories.toNat ∧
      ∀ i, 0 ≤ i → i < env.params.numTrajectories →
        ∃ c, self.seedCandidate env node2.trajectory_ groupName pc i = some c ∧
          node2.trajectories_[i.toNat]? = some c.2 ∧
          ((env.precomputation.constraints ≠ [] ∧ c.1 = SeedingProcedure.waypoint ∧
              c.2 = node2.trajectory_.fillInMinJerkConstraints env.ecl i
                (groupJointsKDLIndices (env.getPlanningGroup groupName))
                (env.getPlanningGroup groupName) env.precomputation
                self.start_point_velocities_ self.start_point_accelerations_) ∨
            (env.precomputation.constraints = [] ∧ pc.position_constraints = [] ∧
              c.1 = SeedingProcedure.freeEnd ∧
              c.2 = node2.trajectory_.fillInMinJerk env.seed
                (groupJointsKDLIndices (env.getPlanningGroup groupName))
                self.start_point_velocities_ self.start_point_accelerations_) ∨
            (env.precomputation.constraints = [] ∧ pc.position_constraints ≠ [] ∧
              c.1 = SeedingProcedure.cartesian ∧
              node2.trajectory_.fillInMinJerkCartesianTrajectory env.kin env.fuel
                (groupJointsKDLIndices (env.getPlanningGroup groupName))
                self.start_point_velocities_ self.start_point_accelerations_ pc groupName
                = some c.2)) := by
  have hctor2 : ∃ t0, ItompCIOTrajectory.ctor env.fuel env.junk self.robot_model_
      (self.setGoalPoint (env.getPlanningGroup groupName) jointGoalState).duration_
      (self.setGoalPoint (env.getPlanningGroup groupName) jointGoalState).discretization_
      (env.params.numContacts : ℚ) env.params.phaseDuration = some t0 := hctor
  generalize htpl : self.setGoalPoint (env.getPlanningGroup groupName) jointGoalState
    = template at hctor2
  have hcand := fun i => seedCandidate_spec env self template groupName pc i hctor2 hik
  have main : ∃ ts, forLoop 0 env.params.numTrajectories
        (fun i (st : Option (List ItompCIOTrajectory)) =>
          match st with
          | none => none
          | some ts =>
            match self.seedCandidate env template groupName pc i with
            | none => none
            | some c => some (ts ++ [c.2])) (some []) = some ts ∧
      ts.length = env.params.numTrajectories.toNat ∧
      ∀ i, 0 ≤ i → i < env.params.numTrajectories →
        ∃ c, self.seedCandidate env template groupName pc i = some c ∧
          ts[i.toNat]? = some c.2 := by
    by_cases hN : 0 ≤ env.params.numTrajectories
    · have key := forLoop_induction
        (fun k (st : Option (List ItompCIOTrajectory)) => ∃ ts, st = some ts ∧
          (ts.length : ℤ) = k ∧
          ∀ i, 0 ≤ i → i < k →
            ∃ c, self.seedCandidate env template groupName pc i = some c ∧
              ts[i.toNat]? = some c.2)
        0 env.params.numTrajectories
        (fun i (st : Option (List ItompCIOTrajectory)) =>
          match st with
          | none => none
          | some ts =>
            match self.seedCandidate env template groupName pc i with
            | none => none
            | some c => some (ts ++ [c.2])) (some []) hN
        ⟨[], rfl, rfl, fun i h0 h1 => by omega⟩
        (by
          rintro k st hk0 hk1 ⟨ts, rfl, hlen, hall⟩
          obtain ⟨c, hc, -⟩ := hcand k
          refine ⟨ts ++ [c.2], by simp only [hc], ?_, ?_⟩
          · rw [List.length_append]
            simp only [List.length_singleton]
            push_cast
            omega
          · intro i h0 h1
            by_cases hik2 : i = k
            · subst hik2
              refine ⟨c, hc, ?_⟩
              have : i.toNat = ts.length := by omega
              rw [this]
              simp
            · obtain ⟨c2, hc2, hget⟩ := hall i h0 (by omega)
              refine ⟨c2, hc2, ?_⟩
              rw [List.getElem?_append_left (by omega)]
              exact hget)
      obtain ⟨ts, hts, hlen, hall⟩ := key
      exact ⟨ts, hts, by omega, hall⟩
    · rw [forLoop_of_le _ _ (by omega)]
      exact ⟨[], rfl, by simp; omega, fun i h0 h1 => by omega⟩
  obtain ⟨ts, hts, hlen, hall⟩ := main
  unfold ItompPlannerNode.fillGroupJointTrajectory
  simp only [htpl, hts]
  refine ⟨_, rfl, rfl, hlen, ?_⟩
  intro i h0 h1
  obtain ⟨c, hc, hget⟩ := hall i h0 h1
  obtain ⟨c2, hc2, hsel⟩ := hcand i
  rw [hc] at hc2
  cases hc2
  exact ⟨c, hc, hget, hsel⟩

/-- The fresh trajectory of the example planner is constructed: duration 0.4, discretization
0.1, phase duration 0.2 give 5 steps and stride 2. -/
theorem exampleCtor_returns :
    ∃ t0, ItompCIOTrajectory.ctor examplePlannerEnv.fuel examplePlannerEnv.junk
      exampleNode.robot_model_ exampleNode.trajectory_.duration_
      exampleNode.trajectory_.discretization_
      (examplePlannerEnv.params.numContacts : ℚ) examplePlannerEnv.params.phaseDuration
      = some t0 := by
  apply ctor_terminates
  · rw [safeToInt_eq_of_natCast _ 2
      (by norm_num [examplePlannerEnv, exampleNode, exampleYaw])]
    norm_num
  · rw [safeToInt_eq_of_natCast _ 4 (by norm_num [exampleNode, exampleYaw])]
    decide

/-- Witness of the amended C5: the example planner with a population of 2. -/
theorem fillGroupJointTrajectory_selection_witness :
    (∃ t0, ItompCIOTrajectory.ctor examplePlannerEnv.fuel examplePlannerEnv.junk
      exampleNode.robot_model_ exampleNode.trajectory_.duration_
      exampleNode.trajectory_.discretization_
      (examplePlannerEnv.params.numContacts : ℚ) examplePlannerEnv.params.phaseDuration
      = some t0) ∧
    ∃ node2, exampleNode.fillGroupJointTrajectory examplePlannerEnv "arm" ⟨[], []⟩
        exampleNoPath ⟨[]⟩ = some node2 ∧
      node2.trajectories_.length = examplePlannerEnv.params.numTrajectories.toNat :=
  ⟨exampleCtor_returns,
    (fillGroupJointTrajectory_selection examplePlannerEnv exampleNode "arm" ⟨[], []⟩
      exampleNoPath ⟨[]⟩ exampleCtor_returns (fun h => absurd h (by decide))).elim
      (fun node2 h => ⟨node2, h.1, h.2.2.1⟩)⟩

/-- Counterexample to C5 as stated. The precomputed list `exampleWaypoints` holds a block for
candidate 0 only, the population size is 2 and the path constraints hold no position
constraint: no waypoint constraints exist for candidate 1, yet the seeding applied to
candidate 1 is the waypoint-constrained one, not free-end min-jerk seeding. -/
theorem seedCandidate_waypoint_without_block :
    (1 : ℤ) < examplePlannerEnv.params.numTrajectories ∧
    ¬ waypointsExistFor examplePlannerEnv.precomputation 1 ∧
    exampleNoPath.position_constraints = [] ∧
    ∃ t, exampleNode.seedCandidate examplePlannerEnv exampleYaw "arm" exampleNoPath 1
      = some (SeedingProcedure.waypoint, t) := by
  refine ⟨by decide, by decide, rfl, ?_⟩
  have hctor := exampleCtor_returns
  obtain ⟨c, hc, hsel⟩ := seedCandidate_spec examplePlannerEnv exampleNode exampleYaw "arm"
    exampleNoPath 1 hctor (fun h => absurd h (by decide))
  rcases hsel with ⟨-, h1, -⟩ | ⟨h0, -⟩ | ⟨h0, -⟩
  · exact ⟨c.2, by rw [hc, ← h1]⟩
  · exact absurd h0 (by decide)
  · exact absurd h0 (by decide)

/-! ## Projection and merge -/

/-- C10. Geometry of a projected view. For every source trajectory `S` and diff rule length
`L ≥ 1`, every view returned by `ItompCIOTrajectory(S, group, L)` has `start_index_ = L - 1`
(which is non-negative) and `end_index_ = num_points_ - 1 - (L - 1)`, so that exactly `L - 1`
rows precede and `L - 1` rows follow its interior, and its interior length equals the interior
length of `S`; and the constructor does return a view as soon as the phase stride of `S` is
positive and the fuel exceeds the interior length. -/
theorem projected_view_geometry (fuel : ℕ) (junk : Uninit) (D : ℤ) (S : ItompCIOTrajectory)
    (G : ItompPlanningGroup) (L : ℤ) (hL : 1 ≤ L) :
    (∀ V, ItompCIOTrajectory.ctorGroup fuel junk D S G L = some V →
      V.start_index_ = L - 1 ∧ 0 ≤ V.start_index_ ∧
      V.end_index_ = V.num_points_ - 1 - (L - 1) ∧
      V.num_points_ - 1 - V.end_index_ = L - 1 ∧
      V.end_index_ - V.start_index_ + 1 = S.end_index_ - S.start_index_ + 1) ∧
    (1 ≤ S.phase_stride_ → (S.end_index_ - S.start_index_ + 1).toNat < fuel →
      ∃ V, ItompCIOTrajectory.ctorGroup fuel junk D S G L = some V) := by
  refine ⟨?_, fun hs hfuel => ctorGroup_terminates fuel junk D S G L hs hfuel⟩
  intro V hV
  obtain ⟨-, -, h1, h2, h3, -⟩ := ctorGroup_some fuel junk D S G L V hV
  refine ⟨h1, by omega, h3, by omega, by omega⟩

/-- Witness of C10: the view of `exampleFull` for `exampleGroup` with `L = 3`. -/
theorem projected_view_geometry_witness :
    (∀ V, ItompCIOTrajectory.ctorGroup 10 exampleJunk 3 exampleFull exampleGroup 3 = some V →
      V.start_index_ = 3 - 1 ∧ 0 ≤ V.start_index_ ∧
      V.end_index_ = V.num_points_ - 1 - (3 - 1) ∧
      V.num_points_ - 1 - V.end_index_ = 3 - 1 ∧
      V.end_index_ - V.start_index_ + 1
        = exampleFull.end_index_ - exampleFull.start_index_ + 1) ∧
    (1 ≤ exampleFull.phase_stride_ →
      (exampleFull.end_index_ - exampleFull.start_index_ + 1).toNat < 10 →
      ∃ V, ItompCIOTrajectory.ctorGroup 10 exampleJunk 3 exampleFull exampleGroup 3 = some V) :=
  projected_view_geometry 10 exampleJunk 3 exampleFull exampleGroup 3 (by decide)

/-- C9. Frame of the merge. When `V` is a group trajectory (its planning group is `G`) whose
interior is at least as long as the interior of `F` (the two are equally long when `V` is a view
of `F`), `F.updateFromGroupTrajectory(V)` returns `F2` with:
(a) every position entry outside rows `F.start_index_ .. F.end_index_` or outside the columns
that are full-body indices of joints of `G` unchanged, and every interior entry of such a column
equal to the entry of `V` at the same offset from `V.start_index_`, for a group joint with that
full-body index; (b) the contact entries of phases `1 .. num_contact_phases_ - 2` and columns
`0 .. getNumContacts() - 1` equal to those of `V` and every other contact entry unchanged;
(c) every other member unchanged; (d) the result is the same for any `V2` that agrees with `V`
on its planning group, start index, contact matrix and interior rows: the padding rows of `V`
are never read. -/
theorem mergeBack_frame (F V : ItompCIOTrajectory) (G : ItompPlanningGroup)
    (hG : V.planning_group_ = some G)
    (hlen : F.end_index_ - F.start_index_ ≤ V.end_index_ - V.start_index_) :
    ∃ F2, F.updateFromGroupTrajectory V = some F2 ∧
      (∀ r c, (r < F.start_index_ ∨ F.end_index_ < r ∨
          ∀ i, 0 ≤ i → i < G.num_joints_ → (G.joint i).kdl_joint_index_ ≠ c) →
        F2.trajectory_.coeff r c = F.trajectory_.coeff r c) ∧
      (∀ r c, F.start_index_ ≤ r → r ≤ F.end_index_ →
        (∃ i, 0 ≤ i ∧ i < G.num_joints_ ∧ (G.joint i).kdl_joint_index_ = c) →
        ∃ i, 0 ≤ i ∧ i < G.num_joints_ ∧ (G.joint i).kdl_joint_index_ = c ∧
          F2.trajectory_.coeff r c
            = V.trajectory_.coeff (V.start_index_ + (r - F.start_index_)) i) ∧
      (∀ r c, F2.contact_trajectory_.coeff r c =
        if 0 ≤ c ∧ c < G.num_contacts_ ∧ 1 ≤ r ∧ r ≤ F.num_contact_phases_ - 2 then
          V.contact_trajectory_.coeff r c
        else F.contact_trajectory_.coeff r c) ∧
      F2 = { F with trajectory_ := F2.trajectory_
                    contact_trajectory_ := F2.contact_trajectory_ } ∧
      (∀ V2 : ItompCIOTrajectory, V2.planning_group_ = V.planning_group_ →
        V2.start_index_ = V.start_index_ →
        V2.contact_trajectory_ = V.contact_trajectory_ →
        (∀ r c, V.start_index_ ≤ r → r ≤ V.end_index_ →
          V2.trajectory_.coeff r c = V.trajectory_.coeff r c) →
        F.updateFromGroupTrajectory V2 = some F2) := by
  refine ⟨{ F with trajectory_ := F.mergePositions V G
                   contact_trajectory_ := F.mergeContacts V G }, ?_, ?_, ?_, ?_, rfl, ?_⟩
  · unfold ItompCIOTrajectory.updateFromGroupTrajectory
    rw [hG]
  · intro r c h
    rcases mergePositions_cases F V G r c with h1 | ⟨i, h0, h1, h2, h3, h4, -⟩
    · exact h1
    · rcases h with h | h | h
      · omega
      · omega
      · exact absurd h2 (h i h0 h1)
  · intro r c hr0 hr1 hc
    exact mergePositions_written F V G r c hr0 hr1 hc
  · intro r c
    exact mergeContacts_coeff F V G r c
  · intro V2 hpg hstart hcontact hrows
    unfold ItompCIOTrajectory.updateFromGroupTrajectory
    rw [hpg, hG]
    have h1 : F.mergePositions V2 G = F.mergePositions V G :=
      mergePositions_congr F V V2 G hstart
        (fun r c h0 h1 => hrows r c h0 (by omega))
    have h2 : F.mergeContacts V2 G = F.mergeContacts V G := by
      unfold ItompCIOTrajectory.mergeContacts
      rw [hcontact]
    simp only [h1, h2]

/-- C1. Round trip through a view built with the stencil length `L`. The group constructor
sizes the view and sets its `start_index_` from its argument `diff_rule_length = L`, while
`copyFromFullTrajectory` places the rows of the source with the constant
`DIFF_RULE_LENGTH = D`. For every `1 ≤ D ≤ L`, every trajectory `F` whose interior lies inside
its rows (`0 ≤ start_index_`, `end_index_ < num_points_`, as for every full-body trajectory) and
every planning group `G`: the group constructor returns a view `V` (phase stride positive,
enough fuel) and `F.updateFromGroupTrajectory(V)` returns `F2`, in which every interior entry of
a group column holds the entry that `F` had `L - D` rows further down (clamped to the last
row), every other position entry and every contact entry is unchanged. So `F2` is `F` when
`L = D`, and the interior rows of the group columns are shifted when `L > D`. -/
theorem project_mergeBack_row_shift (fuel : ℕ) (junk : Uninit) (D L : ℤ)
    (F : ItompCIOTrajectory) (G : ItompPlanningGroup) (hD : 1 ≤ D) (hL : D ≤ L)
    (hstart : 0 ≤ F.start_index_) (hend : F.end_index_ < F.num_points_)
    (hs : 1 ≤ F.phase_stride_) (hfuel : (F.end_index_ - F.start_index_ + 1).toNat < fuel) :
    ∃ V F2, ItompCIOTrajectory.ctorGroup fuel junk D F G L = some V ∧
      F.updateFromGroupTrajectory V = some F2 ∧
      (∀ r c, F.start_index_ ≤ r → r ≤ F.end_index_ →
        (∃ i, 0 ≤ i ∧ i < G.num_joints_ ∧ (G.joint i).kdl_joint_index_ = c) →
        F2.trajectory_.coeff r c
          = F.trajectory_.coeff (clampPoint (r + (L - D)) F.num_points_) c) ∧
      (∀ r c, (r < F.start_index_ ∨ F.end_index_ < r ∨
          ∀ i, 0 ≤ i → i < G.num_joints_ → (G.joint i).kdl_joint_index_ ≠ c) →
        F2.trajectory_.coeff r c = F.trajectory_.coeff r c) ∧
      (∀ r c, F2.contact_trajectory_.coeff r c = F.contact_trajectory_.coeff r c) ∧
      (L = D → F2 = F) := by
  obtain ⟨V, hV⟩ := ctorGroup_terminates fuel junk D F G L hs hfuel
  obtain ⟨hpg, hnj, hVstart, hVnp, hVend, hVcontact, -, -, hVcoeff⟩ :=
    ctorGroup_some fuel junk D F G L V hV
  have hin : ∀ r c, F.start_index_ ≤ r → r ≤ F.end_index_ →
      (∃ i, 0 ≤ i ∧ i < G.num_joints_ ∧ (G.joint i).kdl_joint_index_ = c) →
      (F.mergePositions V G).coeff r c
        = F.trajectory_.coeff (clampPoint (r + (L - D)) F.num_points_) c := by
    intro r c hr0 hr1 hc
    obtain ⟨i, h0, h1, h2, h5⟩ := mergePositions_written F V G r c hr0 hr1 hc
    rw [h5, hVcoeff _ i (by omega) (by omega) (by omega) h0 h1, h2]
    unfold ItompCIOTrajectory.get
    have e : V.start_index_ + (r - F.start_index_) - (D - 1 - F.start_index_)
        = r + (L - D) := by omega
    rw [e]
  have hout : ∀ r c, (r < F.start_index_ ∨ F.end_index_ < r ∨
        ∀ i, 0 ≤ i → i < G.num_joints_ → (G.joint i).kdl_joint_index_ ≠ c) →
      (F.mergePositions V G).coeff r c = F.trajectory_.coeff r c := by
    intro r c h
    rcases mergePositions_cases F V G r c with h1 | ⟨i, h0, h1, h2, h3, h4, -⟩
    · exact h1
    · rcases h with h | h | h
      · omega
      · omega
      · exact absurd h2 (h i h0 h1)
  have hcon : ∀ r c, (F.mergeContacts V G).coeff r c = F.contact_trajectory_.coeff r c := by
    intro r c
    rw [mergeContacts_coeff, hVcontact]
    split <;> rfl
  have hF2 : F.updateFromGroupTrajectory V
      = some { F with trajectory_ := F.mergePositions V G
                      contact_trajectory_ := F.mergeContacts V G } := by
    unfold ItompCIOTrajectory.updateFromGroupTrajectory
    rw [hpg]
  refine ⟨V, _, hV, hF2, hin, hout, hcon, ?_⟩
  intro hLD
  have hpos : ∀ r c, (F.mergePositions V G).coeff r c = F.trajectory_.coeff r c := by
    intro r c
    by_cases h : F.start_index_ ≤ r ∧ r ≤ F.end_index_ ∧
        ∃ i, 0 ≤ i ∧ i < G.num_joints_ ∧ (G.joint i).kdl_joint_index_ = c
    · rw [hin r c h.1 h.2.1 h.2.2, hLD]
      unfold clampPoint
      simp only [sub_self, add_zero]
      rw [if_neg (by omega), if_neg (by omega)]
    · refine hout r c ?_
      by_cases h1 : r < F.start_index_
      · exact Or.inl h1
      · by_cases h2 : F.end_index_ < r
        · exact Or.inr (Or.inl h2)
        · refine Or.inr (Or.inr ?_)
          intro i hi0 hi1 hic
          exact h ⟨by omega, by omega, i, hi0, hi1, hic⟩
  have e1 : F.mergePositions V G = F.trajectory_ :=
    MatrixXd.ext_iff_fields _ _ (mergePositions_dims F V G).1 (mergePositions_dims F V G).2 hpos
  have e2 : F.mergeContacts V G = F.contact_trajectory_ :=
    MatrixXd.ext_iff_fields _ _ (mergeContacts_dims F V G).1 (mergeContacts_dims F V G).2 hcon
  rw [e1, e2]

/-- Witness of C9: `exampleView` merged into `exampleFull`. -/
theorem mergeBack_frame_witness :
    exampleView.planning_group_ = some exampleGroup ∧
    ∃ F2, exampleFull.updateFromGroupTrajectory exampleView = some F2 ∧
      (∀ r c, (r < exampleFull.start_index_ ∨ exampleFull.end_index_ < r ∨
          ∀ i, 0 ≤ i → i < exampleGroup.num_joints_ →
            (exampleGroup.joint i).kdl_joint_index_ ≠ c) →
        F2.trajectory_.coeff r c = exampleFull.trajectory_.coeff r c) ∧
      (∀ r c, exampleFull.start_index_ ≤ r → r ≤ exampleFull.end_index_ →
        (∃ i, 0 ≤ i ∧ i < exampleGroup.num_joints_ ∧
          (exampleGroup.joint i).kdl_joint_index_ = c) →
        ∃ i, 0 ≤ i ∧ i < exampleGroup.num_joints_ ∧
          (exampleGroup.joint i).kdl_joint_index_ = c ∧
          F2.trajectory_.coeff r c = exampleView.trajectory_.coeff
            (exampleView.start_index_ + (r - exampleFull.start_index_)) i) ∧
      (∀ r c, F2.contact_trajectory_.coeff r c =
        if 0 ≤ c ∧ c < exampleGroup.num_contacts_ ∧ 1 ≤ r
            ∧ r ≤ exampleFull.num_contact_phases_ - 2 then
          exampleView.contact_trajectory_.coeff r c
        else exampleFull.contact_trajectory_.coeff r c) ∧
      F2 = { exampleFull with trajectory_ := F2.trajectory_
                              contact_trajectory_ := F2.contact_trajectory_ } ∧
      (∀ V2 : ItompCIOTrajectory, V2.planning_group_ = exampleView.planning_group_ →
        V2.start_index_ = exampleView.start_index_ →
        V2.contact_trajectory_ = exampleView.contact_trajectory_ →
        (∀ r c, exampleView.start_index_ ≤ r → r ≤ exampleView.end_index_ →
          V2.trajectory_.coeff r c = exampleView.trajectory_.coeff r c) →
        exampleFull.updateFromGroupTrajectory V2 = some F2) :=
  ⟨rfl, mergeBack_frame exampleFull exampleView exampleGroup rfl (by decide)⟩

/-- The failing input of C1: the view of `exampleFull` for `exampleGroup` built with the
stencil length 4 while `DIFF_RULE_LENGTH` is 3, merged back at once. The interior entry of
row 1 and column 6 (the arm joint), which held 16, holds 26 afterwards, the entry of row 2. With
the stencil length 3 the same round trip returns `exampleFull` itself. -/
theorem project_mergeBack_row_shift_witness :
    ((1 : ℤ) ≤ 3 ∧ (3 : ℤ) ≤ 4 ∧ 0 ≤ exampleFull.start_index_
      ∧ exampleFull.end_index_ < exampleFull.num_points_ ∧ 1 ≤ exampleFull.phase_stride_) ∧
    (∃ V F2, ItompCIOTrajectory.ctorGroup 10 exampleJunk 3 exampleFull exampleGroup 4 = some V ∧
      exampleFull.updateFromGroupTrajectory V = some F2 ∧
      exampleFull.trajectory_.coeff 1 6 = 16 ∧ F2.trajectory_.coeff 1 6 = 26) ∧
    ∃ V F2, ItompCIOTrajectory.ctorGroup 10 exampleJunk 3 exampleFull exampleGroup 3 = some V ∧
      exampleFull.updateFromGroupTrajectory V = some F2 ∧ F2 = exampleFull := by
  refine ⟨by decide, ?_, ?_⟩
  · obtain ⟨V, F2, hV, hF2, hin, -, -, -⟩ := project_mergeBack_row_shift 10 exampleJunk 3 4
      exampleFull exampleGroup (by decide) (by decide) (by decide) (by decide) (by decide)
      (by decide)
    refine ⟨V, F2, hV, hF2, ?_, ?_⟩
    · simp [exampleFull]
      norm_num
    · rw [hin 1 6 (by decide) (by decide) ⟨1, by decide, by decide, rfl⟩]
      have hc : clampPoint (1 + (4 - 3)) exampleFull.num_points_ = 2 := by decide
      rw [hc]
      simp [exampleFull]
      norm_num
  · obtain ⟨V, F2, hV, hF2, -, -, -, hsame⟩ := project_mergeBack_row_shift 10 exampleJunk 3 3
      exampleFull exampleGroup (by decide) (by decide) (by decide) (by decide) (by decide)
      (by decide)
    exact ⟨V, F2, hV, hF2, hsame rfl⟩

/-! ## Examples of free-end seeding -/

/-- Witness of C6: the spec scenario with has-root-6d disabled. -/
theorem fillInMinJerk_frame_witness :
    examplePlainEnv.hasRoot6d = false ∧
    (∀ r c, (r < exampleArm.start_index_ ∨ exampleArm.end_index_ < r
        ∨ c ∉ ([0, 1, 2, 3, 4, 5] : List ℤ)) →
      (exampleArm.fillInMinJerk examplePlainEnv [0, 1, 2, 3, 4, 5] (fun _ => 0)
        (fun _ => 0)).trajectory_.coeff r c = exampleArm.trajectory_.coeff r c) ∧
    (exampleArm.fillInMinJerk examplePlainEnv [0, 1, 2, 3, 4, 5] (fun _ => 0)
      (fun _ => 0)).contact_trajectory_ = exampleArm.contact_trajectory_ :=
  ⟨rfl, fillInMinJerk_frame examplePlainEnv exampleArm [0, 1, 2, 3, 4, 5] (fun _ => 0)
    (fun _ => 0) (Or.inl rfl)⟩

/-- Counterexample to C3 as stated. With has-root-6d enabled and a planar displacement of 1
along x, the yaw joint (column 5) has zero start velocity and acceleration and boundary values
`x0 = x1 = 0`, yet the value written at the interior step 1 is `-M_PI/4`, below `x0`. -/
theorem fillInMinJerk_yaw_overshoot :
    (5 : ℤ) ∈ ([0, 1, 5] : List ℤ) ∧
    exampleYaw.get (exampleYaw.start_index_ - 1) 5 ≤ exampleYaw.get (exampleYaw.end_index_ + 1) 5 ∧
    (exampleYaw.start_index_ ≤ 1 ∧ 1 ≤ exampleYaw.end_index_) ∧
    (exampleYaw.fillInMinJerk exampleYawEnv [0, 1, 5] (fun _ => 0) (fun _ => 0)).get 1 5
      = -(M_PI_double / 4) ∧
    (exampleYaw.fillInMinJerk exampleYawEnv [0, 1, 5] (fun _ => 0) (fun _ => 0)).get 1 5
      < exampleYaw.get (exampleYaw.start_index_ - 1) 5 := by
  have hval : (exampleYaw.fillInMinJerk exampleYawEnv [0, 1, 5] (fun _ => 0) (fun _ => 0)).get 1 5
      = -(M_PI_double / 4) := by
    simp [ItompCIOTrajectory.fillInMinJerk, ItompCIOTrajectory.minJerkCoeffLoop,
      ItompCIOTrajectory.minJerkFillLoop, ItompCIOTrajectory.minJerkRotation, forLoop,
      List.range_succ, MatrixXd.set, evalPoly, timePowers, minJerkCoeff, exampleYaw,
      exampleYawEnv, ROT_JOINT_INDEX, EPS7, ItompCIOTrajectory.get]
    norm_num [M_PI_double]
  refine ⟨by decide, ?_, by decide, hval, ?_⟩
  · simp [exampleYaw, ItompCIOTrajectory.get]
  · rw [hval]
    simp [exampleYaw, ItompCIOTrajectory.get, M_PI_double]

/-- Witness of the amended C3: the spec scenario, joint 0 (start 0, goal 1, 21 steps). -/
theorem fillInMinJerk_no_overshoot_witness :
    ((0 : ℤ) ∈ ([0, 1, 2, 3, 4, 5] : List ℤ)
      ∧ exampleArm.get (exampleArm.start_index_ - 1) 0
        ≤ exampleArm.get (exampleArm.end_index_ + 1) 0) ∧
    (∀ i, exampleArm.start_index_ ≤ i → i ≤ exampleArm.end_index_ →
      (exampleArm.fillInMinJerk examplePlainEnv [0, 1, 2, 3, 4, 5] (fun _ => 0)
          (fun _ => 0)).get i 0 =
        evalPoly (timePowers (((i - (exampleArm.start_index_ - 1) : ℤ) : ℚ)
            / (((exampleArm.end_index_ + 1) - (exampleArm.start_index_ - 1) : ℤ) : ℚ)))
          (minJerkCoeff (exampleArm.get (exampleArm.start_index_ - 1) 0) 0 0
            (exampleArm.get (exampleArm.end_index_ + 1) 0))) ∧
    (∀ i, exampleArm.start_index_ ≤ i → i ≤ exampleArm.end_index_ →
      exampleArm.get (exampleArm.start_index_ - 1) 0
        ≤ (exampleArm.fillInMinJerk examplePlainEnv [0, 1, 2, 3, 4, 5] (fun _ => 0)
          (fun _ => 0)).get i 0 ∧
      (exampleArm.fillInMinJerk examplePlainEnv [0, 1, 2, 3, 4, 5] (fun _ => 0)
          (fun _ => 0)).get i 0 ≤ exampleArm.get (exampleArm.end_index_ + 1) 0) ∧
    (∀ i i2, exampleArm.start_index_ ≤ i → i ≤ i2 → i2 ≤ exampleArm.end_index_ →
      (exampleArm.fillInMinJerk examplePlainEnv [0, 1, 2, 3, 4, 5] (fun _ => 0)
          (fun _ => 0)).get i 0
        ≤ (exampleArm.fillInMinJerk examplePlainEnv [0, 1, 2, 3, 4, 5] (fun _ => 0)
          (fun _ => 0)).get i2 0) :=
  have hx : exampleArm.get (exampleArm.start_index_ - 1) 0
      ≤ exampleArm.get (exampleArm.end_index_ + 1) 0 := by
    simp [exampleArm, ItompCIOTrajectory.get]
  ⟨⟨by decide, hx⟩,
    fillInMinJerk_no_overshoot examplePlainEnv exampleArm [0, 1, 2, 3, 4, 5] (fun _ => 0)
      (fun _ => 0) 0 (by decide) rfl rfl
      (fun h => absurd h.2.1 (by decide)) hx⟩

/-! ## The leading pad of a restricted view -/

theorem forDown_induction {σ : Type} (P : ℕ → σ → Prop) (hi : ℤ) (body : ℤ → σ → σ) (s : σ)
    (h0 : P 0 s)
    (hstep : ∀ (k : ℕ) st, k < (hi + 1).toNat → P k st → P (k + 1) (body (hi - (k : ℤ)) st)) :
    P (hi + 1).toNat (forDown hi body s) := by
  unfold forDown
  exact foldl_range_induction P _ s _ h0 hstep

/-- The pre-start loop of `copyFromFullTrajectory` for one column: after it, row
`start_extra - k` holds the position reached after `k` backward steps, and no other column has
been written. -/
theorem preStart_loop (se j : ℤ) (v x a dt : ℚ) (m : MatrixXd) :
    (∀ k : ℕ, 1 ≤ k → (k : ℤ) ≤ se →
      (forDown (se - 1) (fun i (st : ℚ × ℚ × MatrixXd) =>
        (st.1 - a * dt, st.2.1 - st.1 * dt, st.2.2.set i j (st.2.1 - st.1 * dt)))
        (v, x, m)).2.2.coeff (se - k) j
        = x - (k : ℚ) * v * dt + ((k : ℚ) * ((k : ℚ) - 1) / 2) * a * dt * dt) ∧
    (∀ r c, c ≠ j →
      (forDown (se - 1) (fun i (st : ℚ × ℚ × MatrixXd) =>
        (st.1 - a * dt, st.2.1 - st.1 * dt, st.2.2.set i j (st.2.1 - st.1 * dt)))
        (v, x, m)).2.2.coeff r c = m.coeff r c) := by
  constructor
  · intro k hk1 hk2
    have key := forDown_induction
      (fun (n : ℕ) (st : ℚ × ℚ × MatrixXd) =>
        st.1 = v - (n : ℚ) * a * dt ∧
        st.2.1 = x - (n : ℚ) * v * dt + ((n : ℚ) * ((n : ℚ) - 1) / 2) * a * dt * dt ∧
        ∀ k : ℕ, 1 ≤ k → k ≤ n → st.2.2.coeff (se - k) j
          = x - (k : ℚ) * v * dt + ((k : ℚ) * ((k : ℚ) - 1) / 2) * a * dt * dt)
      (se - 1)
      (fun i (st : ℚ × ℚ × MatrixXd) =>
        (st.1 - a * dt, st.2.1 - st.1 * dt, st.2.2.set i j (st.2.1 - st.1 * dt)))
      (v, x, m)
      (by
        refine ⟨by simp, by simp, ?_⟩
        intro k h1 h2
        omega)
      (by
        intro n st _ hP
        obtain ⟨h1, h2, h3⟩ := hP
        refine ⟨?_, ?_, ?_⟩
        · show st.1 - a * dt = _
          rw [h1]; push_cast; ring
        · show st.2.1 - st.1 * dt = _
          rw [h1, h2]; push_cast; ring
        · intro k' hk1' hk2'
          show (st.2.2.set _ j _).coeff (se - k') j = _
          rw [MatrixXd.set_coeff]
          by_cases hk : k' = n + 1
          · subst hk
            rw [if_pos ⟨by push_cast; ring, rfl⟩, h1, h2]
            push_cast; ring
          · rw [if_neg (by intro hc; apply hk; have := hc.1; omega)]
            exact h3 k' hk1' (by omega))
    exact key.2.2 k hk1 (by omega)
  · intro r c hc
    refine forDown_invariant
      (fun (s : ℚ × ℚ × MatrixXd) => s.2.2.coeff r c = m.coeff r c) _ _ _ rfl ?_
    intro i s _ _ hs
    show (s.2.2.set i j _).coeff r c = _
    rw [MatrixXd.set_coeff, if_neg (fun h => hc h.2), hs]

/-- What `copyFromFullTrajectory` leaves in the rows before `start_extra`: for a joint whose
full-body index is below 6 the backward extrapolation, for any other joint the source entry of
the clamped row, which is row 0. -/
theorem copyFromFullTrajectory_prestart (D : ℤ) (self full : ItompCIOTrajectory)
    (pg : ItompPlanningGroup) (hpg : self.planning_group_ = some pg) :
    ∃ m, ItompCIOTrajectory.copyFromFullTrajectory D self full
        = some { self with trajectory_ := m } ∧
      ∀ (j : ℤ) (k : ℕ), 0 ≤ j → j < self.num_joints_ → 1 ≤ k →
        (k : ℤ) ≤ (D - 1) - full.start_index_ →
        ((pg.joint j).kdl_joint_index_ < 6 →
          m.coeff ((D - 1) - full.start_index_ - k) j
            = full.get 0 (pg.joint j).kdl_joint_index_
              - (k : ℚ) * full.vel_start_ (pg.joint j).kdl_joint_index_ * self.discretization_
              + ((k : ℚ) * ((k : ℚ) - 1) / 2) * full.acc_start_ (pg.joint j).kdl_joint_index_
                * self.discretization_ * self.discretization_) ∧
        (6 ≤ (pg.joint j).kdl_joint_index_ →
          (D - 1) - full.start_index_ - k < self.num_points_ → 1 ≤ full.num_points_ →
          m.coeff ((D - 1) - full.start_index_ - k) j
            = full.get 0 (pg.joint j).kdl_joint_index_) := by
  unfold ItompCIOTrajectory.copyFromFullTrajectory
  rw [hpg]
  refine ⟨_, rfl, ?_⟩
  intro j k hj0 hj1 hk1 hk2
  constructor
  · intro h6
    have key := forLoop_induction
      (fun (j' : ℤ) (m : MatrixXd) => j < j' →
        m.coeff ((D - 1) - full.start_index_ - k) j
          = full.get 0 (pg.joint j).kdl_joint_index_
            - (k : ℚ) * full.vel_start_ (pg.joint j).kdl_joint_index_ * self.discretization_
            + ((k : ℚ) * ((k : ℚ) - 1) / 2) * full.acc_start_ (pg.joint j).kdl_joint_index_
              * self.discretization_ * self.discretization_)
      0 self.num_joints_
      (fun j m =>
        if (pg.joint j).kdl_joint_index_ < 6 then
          (forDown ((D - 1) - full.start_index_ - 1) (fun i (st : ℚ × ℚ × MatrixXd) =>
            (st.1 - full.acc_start_ (pg.joint j).kdl_joint_index_ * self.discretization_,
              st.2.1 - st.1 * self.discretization_,
              st.2.2.set i j (st.2.1 - st.1 * self.discretization_)))
            (full.vel_start_ (pg.joint j).kdl_joint_index_,
              full.get 0 (pg.joint j).kdl_joint_index_, m)).2.2
        else m)
      (forLoop 0 self.num_points_ (fun i m =>
        forLoop 0 self.num_joints_ (fun j m =>
          m.set i j (full.get (clampPoint (i - ((D - 1) - full.start_index_)) full.num_points_)
            (pg.joint j).kdl_joint_index_)) m) self.trajectory_)
      (by omega)
      (by intro h; omega)
      (by
        intro j' st hj'0 hj'1 hP hlt
        by_cases hjj : j' = j
        · subst hjj
          simp only [if_pos h6]
          exact (preStart_loop _ _ _ _ _ _ _).1 k hk1 hk2
        · have hP2 := hP (by omega)
          by_cases h6' : (pg.joint j').kdl_joint_index_ < 6
          · simp only [if_pos h6']
            rw [(preStart_loop _ _ _ _ _ _ _).2 _ _ (fun h => hjj h.symm)]
            exact hP2
          · simp only [if_neg h6']
            exact hP2)
    exact key hj1
  · intro h6 hrow hnp
    have hcl : clampPoint ((D - 1) - full.start_index_ - k - ((D - 1) - full.start_index_))
        full.num_points_ = 0 := by
      unfold clampPoint
      have h1 : (D - 1) - full.start_index_ - (k : ℤ) - ((D - 1) - full.start_index_) < 0 := by
        omega
      simp only [if_pos h1]
      rw [if_neg (by omega)]
    have key := forLoop_invariant
      (fun (m : MatrixXd) => m.coeff ((D - 1) - full.start_index_ - k) j
        = full.get 0 (pg.joint j).kdl_joint_index_)
      0 self.num_joints_
      (fun j m =>
        if (pg.joint j).kdl_joint_index_ < 6 then
          (forDown ((D - 1) - full.start_index_ - 1) (fun i (st : ℚ × ℚ × MatrixXd) =>
            (st.1 - full.acc_start_ (pg.joint j).kdl_joint_index_ * self.discretization_,
              st.2.1 - st.1 * self.discretization_,
              st.2.2.set i j (st.2.1 - st.1 * self.discretization_)))
            (full.vel_start_ (pg.joint j).kdl_joint_index_,
              full.get 0 (pg.joint j).kdl_joint_index_, m)).2.2
        else m)
      (forLoop 0 self.num_points_ (fun i m =>
        forLoop 0 self.num_joints_ (fun j m =>
          m.set i j (full.get (clampPoint (i - ((D - 1) - full.start_index_)) full.num_points_)
            (pg.joint j).kdl_joint_index_)) m) self.trajectory_)
      (by
        beta_reduce
        rw [forLoop_set_rows self.num_points_ self.num_joints_
          (fun i j => full.get (clampPoint (i - ((D - 1) - full.start_index_)) full.num_points_)
            (pg.joint j).kdl_joint_index_) self.trajectory_ _ j]
        rw [if_pos ⟨by omega, hrow, hj0, hj1⟩]
        rw [hcl])
      (by
        intro j' st _ _ hP
        by_cases h6' : (pg.joint j').kdl_joint_index_ < 6
        · simp only [if_pos h6']
          have hjj : j ≠ j' := by
            intro h; subst h; omega
          rw [(preStart_loop _ _ _ _ _ _ _).2 _ _ hjj]
          exact hP
        · simp only [if_neg h6']
          exact hP)
    exact key

theorem copyFromFullTrajectory_prestart_of_some (D : ℤ) (self full : ItompCIOTrajectory)
    (pg : ItompPlanningGroup) (r : ItompCIOTrajectory)
    (h : ItompCIOTrajectory.copyFromFullTrajectory D self full = some r)
    (hpg : self.planning_group_ = some pg) :
    ∀ (j : ℤ) (k : ℕ), 0 ≤ j → j < self.num_joints_ → 1 ≤ k →
      (k : ℤ) ≤ (D - 1) - full.start_index_ →
      ((pg.joint j).kdl_joint_index_ < 6 →
        r.trajectory_.coeff ((D - 1) - full.start_index_ - k) j
          = full.get 0 (pg.joint j).kdl_joint_index_
            - (k : ℚ) * full.vel_start_ (pg.joint j).kdl_joint_index_ * self.discretization_
            + ((k : ℚ) * ((k : ℚ) - 1) / 2) * full.acc_start_ (pg.joint j).kdl_joint_index_
              * self.discretization_ * self.discretization_) ∧
      (6 ≤ (pg.joint j).kdl_joint_index_ →
        (D - 1) - full.start_index_ - k < self.num_points_ → 1 ≤ full.num_points_ →
        r.trajectory_.coeff ((D - 1) - full.start_index_ - k) j
          = full.get 0 (pg.joint j).kdl_joint_index_) := by
  obtain ⟨m, hm, hc⟩ := copyFromFullTrajectory_prestart D self full pg hpg
  rw [hm] at h
  simp only [Option.some.injEq] at h
  subst h
  exact hc

/-- C11. Leading pad extrapolation of a restricted view `V` of a source `S`: the view is built
(positive phase stride, enough fuel), and with `start_extra = (DIFF_RULE_LENGTH - 1) -
S.start_index_`, for every `k` in `1 .. start_extra` the view row `start_extra - k` of a group
joint `j` with full-body index `g` holds `x0 - k*v*dt + (k*(k-1)/2)*a*dt*dt` when `g < 6`, and
`x0` when `g >= 6` (for a row of the view and a source with at least one row), where
`x0 = S(0, g)`, `v = S.vel_start_(g)`, `a = S.acc_start_(g)` and `dt = discretization_`. -/
theorem leading_pad_extrapolation (fuel : ℕ) (junk : Uninit) (D : ℤ) (S : ItompCIOTrajectory)
    (G : ItompPlanningGroup) (L : ℤ) (hs : 1 ≤ S.phase_stride_)
    (hfuel : (S.end_index_ - S.start_index_ + 1).toNat < fuel) :
    ∃ V, ItompCIOTrajectory.ctorGroup fuel junk D S G L = some V ∧
      V.discretization_ = S.discretization_ ∧
      ∀ (j : ℤ) (k : ℕ), 0 ≤ j → j < G.num_joints_ → 1 ≤ k →
        (k : ℤ) ≤ (D - 1) - S.start_index_ →
        ((G.joint j).kdl_joint_index_ < 6 →
          V.get ((D - 1) - S.start_index_ - k) j
            = S.get 0 (G.joint j).kdl_joint_index_
              - (k : ℚ) * S.vel_start_ (G.joint j).kdl_joint_index_ * V.discretization_
              + ((k : ℚ) * ((k : ℚ) - 1) / 2) * S.acc_start_ (G.joint j).kdl_joint_index_
                * V.discretization_ * V.discretization_) ∧
        (6 ≤ (G.joint j).kdl_joint_index_ →
          (D - 1) - S.start_index_ - k < V.num_points_ → 1 ≤ S.num_points_ →
          V.get ((D - 1) - S.start_index_ - k) j = S.get 0 (G.joint j).kdl_joint_index_) := by
  obtain ⟨V, hV⟩ := ctorGroup_terminates fuel junk D S G L hs hfuel
  refine ⟨V, hV, ?_⟩
  unfold ItompCIOTrajectory.ctorGroup at hV
  simp only [] at hV
  split at hV
  · cases hV
  · rename_i self1 h1
    obtain ⟨pts, hpts⟩ := init_some _ _ _ _ h1
    subst hpts
    split at hV
    · cases hV
    · rename_i self2 h2
      have hc := copyFromFullTrajectory_prestart_of_some D _ S G _ h2 rfl
      have heq := (copyFromFullTrajectory_of_some D _ S G _ h2 rfl).1
      simp only [Option.some.injEq] at hV
      subst hV
      rw [heq]
      exact ⟨rfl, hc⟩

/-- The view of `exampleFull` for `exampleGroup` with `DIFF_RULE_LENGTH = 4` has two leading
pad rows: the root column (x0 = 0, v = 1, a = 2, dt = 0.1) holds -0.1 in row 1 and -0.18 in
row 0; the arm column (full-body index 6) holds the boundary value 6 in both. -/
theorem leading_pad_extrapolation_witness :
    ∃ V, ItompCIOTrajectory.ctorGroup 10 exampleJunk 4 exampleFull exampleGroup 4 = some V ∧
      V.get 0 0 = -(9 / 50) ∧ V.get 1 0 = -(1 / 10) ∧ V.get 0 1 = 6 ∧ V.get 1 1 = 6 := by
  obtain ⟨V, hV, hd, h⟩ := leading_pad_extrapolation 10 exampleJunk 4 exampleFull exampleGroup 4
    (by decide) (by decide)
  have hnp := (ctorGroup_some _ _ _ _ _ _ _ hV).2.2.2.1
  have hnp2 : V.num_points_ = 11 := by rw [hnp]; decide
  have h00 := (h 0 2 (by decide) (by decide) (by decide) (by decide)).1 (by decide)
  have h10 := (h 0 1 (by decide) (by decide) (by decide) (by decide)).1 (by decide)
  have h01 := (h 1 2 (by decide) (by decide) (by decide) (by decide)).2 (by decide)
    (by rw [hnp2]; decide) (by decide)
  have h11 := (h 1 1 (by decide) (by decide) (by decide) (by decide)).2 (by decide)
    (by rw [hnp2]; decide) (by decide)
  rw [hd] at h00 h10
  refine ⟨V, hV, ?_, ?_, ?_, ?_⟩
  · have e : (4 - 1 - exampleFull.start_index_ - ((2 : ℕ) : ℤ)) = 0 := by decide
    rw [e] at h00
    rw [h00]
    simp [exampleFull, exampleGroup, ItompPlanningGroup.joint, ItompCIOTrajectory.get]
    norm_num
  · have e : (4 - 1 - exampleFull.start_index_ - ((1 : ℕ) : ℤ)) = 1 := by decide
    rw [e] at h10
    rw [h10]
    simp [exampleFull, exampleGroup, ItompPlanningGroup.joint, ItompCIOTrajectory.get]
  · have e : (4 - 1 - exampleFull.start_index_ - ((2 : ℕ) : ℤ)) = 0 := by decide
    rw [e] at h01
    rw [h01]
    simp [exampleFull, exampleGroup, ItompPlanningGroup.joint, ItompCIOTrajectory.get]
  · have e : (4 - 1 - exampleFull.start_index_ - ((1 : ℕ) : ℤ)) = 1 := by decide
    rw [e] at h11
    rw [h11]
    simp [exampleFull, exampleGroup, ItompPlanningGroup.joint, ItompCIOTrajectory.get]

/-! ## The source entries read for a restricted view -/

theorem forLoop_append_mem {α : Type} (n : ℤ) (f : ℤ → α) (rs0 : List α) (x : α) :
    x ∈ forLoop 0 n (fun j (rs : List α) => rs ++ [f j]) rs0
      ↔ x ∈ rs0 ∨ ∃ j, 0 ≤ j ∧ j < n ∧ x = f j := by
  by_cases hn : 0 ≤ n
  · have key := forLoop_induction
      (fun (i : ℤ) (rs : List α) => x ∈ rs ↔ x ∈ rs0 ∨ ∃ j, 0 ≤ j ∧ j < i ∧ x = f j)
      0 n (fun j (rs : List α) => rs ++ [f j]) rs0 hn
      (by
        constructor
        · intro h; exact Or.inl h
        · rintro (h | ⟨j, h0, h1, -⟩)
          · exact h
          · omega)
      (by
        intro i st hi0 _ hP
        rw [List.mem_append, hP, List.mem_singleton]
        constructor
        · rintro ((h | ⟨j, h0, h1, h2⟩) | h)
          · exact Or.inl h
          · exact Or.inr ⟨j, h0, by omega, h2⟩
          · exact Or.inr ⟨i, hi0, by omega, h⟩
        · rintro (h | ⟨j, h0, h1, h2⟩)
          · exact Or.inl (Or.inl h)
          · by_cases hji : j = i
            · subst hji; exact Or.inr h2
            · exact Or.inl (Or.inr ⟨j, h0, by omega, h2⟩))
    exact key
  · rw [forLoop_of_le 0 n (by omega)]
    constructor
    · intro h; exact Or.inl h
    · rintro (h | ⟨j, h0, h1, -⟩)
      · exact h
      · omega

theorem forLoop_append_mem2 {α : Type} (np nj : ℤ) (g : ℤ → ℤ → α) (rs0 : List α) (x : α) :
    x ∈ forLoop 0 np (fun i (rs : List α) =>
        forLoop 0 nj (fun j (rs : List α) => rs ++ [g i j]) rs) rs0
      ↔ x ∈ rs0 ∨ ∃ i j, 0 ≤ i ∧ i < np ∧ 0 ≤ j ∧ j < nj ∧ x = g i j := by
  by_cases hn : 0 ≤ np
  · have key := forLoop_induction
      (fun (k : ℤ) (rs : List α) =>
        x ∈ rs ↔ x ∈ rs0 ∨ ∃ i j, 0 ≤ i ∧ i < k ∧ 0 ≤ j ∧ j < nj ∧ x = g i j)
      0 np (fun i (rs : List α) =>
        forLoop 0 nj (fun j (rs : List α) => rs ++ [g i j]) rs) rs0 hn
      (by
        constructor
        · intro h; exact Or.inl h
        · rintro (h | ⟨i, j, h0, h1, -⟩)
          · exact h
          · omega)
      (by
        intro k st hk0 _ hP
        beta_reduce
        rw [forLoop_append_mem nj (g k) st x, hP]
        constructor
        · rintro ((h | ⟨i, j, h0, h1, h2⟩) | ⟨j, h0, h1, h2⟩)
          · exact Or.inl h
          · exact Or.inr ⟨i, j, h0, by omega, h2⟩
          · exact Or.inr ⟨k, j, hk0, by omega, h0, h1, h2⟩
        · rintro (h | ⟨i, j, h0, h1, h2, h3, h4⟩)
          · exact Or.inl (Or.inl h)
          · by_cases hik : i = k
            · subst hik; exact Or.inr ⟨j, h2, h3, h4⟩
            · exact Or.inl (Or.inr ⟨i, j, h0, by omega, h2, h3, h4⟩))
    exact key
  · rw [forLoop_of_le 0 np (by omega)]
    constructor
    · intro h; exact Or.inl h
    · rintro (h | ⟨i, j, h0, h1, -⟩)
      · exact h
      · omega

theorem clampPoint_range (p n : ℤ) (hn : 1 ≤ n) : 0 ≤ clampPoint p n ∧ clampPoint p n < n := by
  unfold clampPoint
  simp only []
  split <;> split <;> omega

/-- The reads of `copyFromFullTrajectory`: the entries (clamped row, full-body column of a
group joint) of the copy loop and the entries (0, full-body column of a group joint). -/
theorem copyFromFullTrajectoryReads_mem (D : ℤ) (self full : ItompCIOTrajectory)
    (pg : ItompPlanningGroup) (hpg : self.planning_group_ = some pg) (x : ℤ × ℤ) :
    x ∈ self.copyFromFullTrajectoryReads D full ↔
      (∃ i j, 0 ≤ i ∧ i < self.num_points_ ∧ 0 ≤ j ∧ j < self.num_joints_ ∧
        x = (clampPoint (i - ((D - 1) - full.start_index_)) full.num_points_,
          (pg.joint j).kdl_joint_index_)) ∨
      ∃ j, 0 ≤ j ∧ j < self.num_joints_ ∧ x = (0, (pg.joint j).kdl_joint_index_) := by
  unfold ItompCIOTrajectory.copyFromFullTrajectoryReads
  rw [hpg]
  simp only []
  rw [forLoop_append_mem self.num_joints_ (fun j => ((0 : ℤ), (pg.joint j).kdl_joint_index_)),
    forLoop_append_mem2 self.num_points_ self.num_joints_
      (fun i j => (clampPoint (i - ((D - 1) - full.start_index_)) full.num_points_,
        (pg.joint j).kdl_joint_index_))]
  simp

/-- C16. Building a restricted view never fails on account of the group: the group
constructor has no check of the joint indices and returns a view for every group (positive
phase stride, enough fuel). While it does, it reads the source position entry of row 0 at the
full-body column `kdl_joint_index_` of every group joint; every one of its reads of a source
position entry is at the column of a group joint and, for a source with at least one step, at
a row of the source. So, for a source whose matrix has `num_points_` rows, all reads are
inside the source matrix exactly when every group joint is a column of the source; for a
group joint absent from the source a read outside the source matrix is made. -/
theorem restricted_view_reads (fuel : ℕ) (junk : Uninit) (D : ℤ) (S : ItompCIOTrajectory)
    (G : ItompPlanningGroup) (L : ℤ) (hs : 1 ≤ S.phase_stride_)
    (hfuel : (S.end_index_ - S.start_index_ + 1).toNat < fuel) :
    ∃ V, ItompCIOTrajectory.ctorGroup fuel junk D S G L = some V ∧
      (∀ j, 0 ≤ j → j < G.num_joints_ →
        ((0 : ℤ), (G.joint j).kdl_joint_index_) ∈ V.copyFromFullTrajectoryReads D S) ∧
      (∀ x ∈ V.copyFromFullTrajectoryReads D S,
        (∃ j, 0 ≤ j ∧ j < G.num_joints_ ∧ x.2 = (G.joint j).kdl_joint_index_) ∧
        (1 ≤ S.num_points_ → 0 ≤ x.1 ∧ x.1 < S.num_points_)) ∧
      (1 ≤ S.num_points_ → S.trajectory_.rows = S.num_points_ →
        ((∀ x ∈ V.copyFromFullTrajectoryReads D S, S.trajectory_.inRange x.1 x.2) ↔
          ∀ j, 0 ≤ j → j < G.num_joints_ →
            0 ≤ (G.joint j).kdl_joint_index_ ∧
              (G.joint j).kdl_joint_index_ < S.trajectory_.cols)) := by
  obtain ⟨V, hV⟩ := ctorGroup_terminates fuel junk D S G L hs hfuel
  obtain ⟨hpg, hnj, -⟩ := ctorGroup_some _ _ _ _ _ _ _ hV
  have hmem := copyFromFullTrajectoryReads_mem D V S G hpg
  rw [hnj] at hmem
  have h1 : ∀ j, 0 ≤ j → j < G.num_joints_ →
      ((0 : ℤ), (G.joint j).kdl_joint_index_) ∈ V.copyFromFullTrajectoryReads D S := by
    intro j hj0 hj1
    exact (hmem _).2 (Or.inr ⟨j, hj0, hj1, rfl⟩)
  have h2 : ∀ x ∈ V.copyFromFullTrajectoryReads D S,
      (∃ j, 0 ≤ j ∧ j < G.num_joints_ ∧ x.2 = (G.joint j).kdl_joint_index_) ∧
      (1 ≤ S.num_points_ → 0 ≤ x.1 ∧ x.1 < S.num_points_) := by
    intro x hx
    rcases (hmem x).1 hx with ⟨i, j, -, -, hj0, hj1, rfl⟩ | ⟨j, hj0, hj1, rfl⟩
    · exact ⟨⟨j, hj0, hj1, rfl⟩, fun hnp => clampPoint_range _ _ hnp⟩
    · exact ⟨⟨j, hj0, hj1, rfl⟩, fun hnp => ⟨le_refl _, by show (0 : ℤ) < _; omega⟩⟩
  refine ⟨V, hV, h1, h2, ?_⟩
  intro hnp hrows
  constructor
  · intro hall j hj0 hj1
    have := hall _ (h1 j hj0 hj1)
    exact ⟨this.2.2.1, this.2.2.2⟩
  · intro hcols x hx
    obtain ⟨⟨j, hj0, hj1, hx2⟩, hx1⟩ := h2 x hx
    have hr := hx1 hnp
    have hc := hcols j hj0 hj1
    unfold MatrixXd.inRange
    rw [hrows, hx2]
    exact ⟨hr.1, hr.2, hc.1, hc.2⟩

/-- Witness of C16: the view of `exampleFull` for `exampleGroup` (full-body columns 0 and 6 of
the 8 columns of the source) is built with every read inside the source matrix. -/
theorem restricted_view_reads_witness :
    ∃ V, ItompCIOTrajectory.ctorGroup 10 exampleJunk 3 exampleFull exampleGroup 3 = some V ∧
      ∀ x ∈ V.copyFromFullTrajectoryReads 3 exampleFull,
        exampleFull.trajectory_.inRange x.1 x.2 := by
  obtain ⟨V, hV, -, -, h3⟩ := restricted_view_reads 10 exampleJunk 3 exampleFull exampleGroup 3
    (by decide) (by decide)
  refine ⟨V, hV, (h3 (by decide) rfl).2 ?_⟩
  intro j hj0 hj1
  have hj2 : j < 2 := hj1
  have hj : j = 0 ∨ j = 1 := by omega
  rcases hj with rfl | rfl <;> decide

/-- Counterexample to C16 as stated: for the group `exampleGhostGroup`, whose joint has the
full-body index 8, and the source `exampleFull`, whose matrix has the columns 0..7, the group
constructor returns a view, and to build it the source entry (0, 8) is read, which is outside
the source matrix. -/
theorem restricted_view_reads_outside_source :
    ∃ V, ItompCIOTrajectory.ctorGroup 10 exampleJunk 3 exampleFull exampleGhostGroup 3
        = some V ∧
      ((0 : ℤ), (8 : ℤ)) ∈ V.copyFromFullTrajectoryReads 3 exampleFull ∧
      ¬ exampleFull.trajectory_.inRange 0 8 := by
  obtain ⟨V, hV⟩ := ctorGroup_terminates 10 exampleJunk 3 exampleFull exampleGhostGroup 3
    (by decide) (by decide)
  obtain ⟨hpg, hnj, -⟩ := ctorGroup_some _ _ _ _ _ _ _ hV
  refine ⟨V, hV, ?_, by decide⟩
  rw [copyFromFullTrajectoryReads_mem 3 V exampleFull exampleGhostGroup hpg]
  refine Or.inr ⟨0, le_refl _, ?_, rfl⟩
  rw [hnj]
  decide

/-! ## The full constructor: step count and phase boundaries -/

/-- The loop of `init()` with a positive stride pushes `i, i + stride, i + 2 stride, ...` as
long as the row is at most `end_index`. -/
theorem initLoop_eq (stride e : ℤ) (hs : 1 ≤ stride) :
    ∀ (fuel : ℕ) (i : ℤ) (pts : List ℤ), (e + 1 - i).toNat < fuel →
      initLoop fuel i e stride pts
        = some (pts ++ (List.range ((e - i + stride) / stride).toNat).map
            (fun (k : ℕ) => i + (k : ℤ) * stride)) := by
  intro fuel
  induction fuel with
  | zero => intro i pts h; omega
  | succ n ih =>
    intro i pts h
    unfold initLoop
    by_cases hi : i < e + 1
    · rw [if_pos hi, ih (i + stride) (pts ++ [i]) (by omega)]
      have hq : (e - i + stride) / stride = (e - i) / stride + 1 := by
        have := Int.add_mul_ediv_right (e - i) 1 (show stride ≠ 0 by omega)
        rw [one_mul] at this
        exact this
      have hq0 : 0 ≤ (e - i) / stride := Int.ediv_nonneg (by omega) (by omega)
      have e1 : e - (i + stride) + stride = e - i := by ring
      rw [e1, hq]
      have e2 : ((e - i) / stride + 1).toNat = ((e - i) / stride).toNat + 1 := by omega
      rw [e2, List.range_succ_eq_map, List.map_cons, List.map_map, List.append_assoc]
      congr 2
      · simp
        intro k _
        ring
    · rw [if_neg hi]
      have hq : (e - i + stride) / stride < 1 :=
        Int.ediv_lt_of_lt_mul (by omega) (by omega)
      have e2 : ((e - i + stride) / stride).toNat = 0 := by omega
      rw [e2]
      simp

/-- The members of a trajectory returned by the full constructor. -/
theorem ctor_some (fuel : ℕ) (junk : Uninit) (robot_model : ItompRobotModel)
    (duration discretization num_contacts contact_phase_duration : ℚ) (t : ItompCIOTrajectory)
    (h : ItompCIOTrajectory.ctor fuel junk robot_model duration discretization num_contacts
      contact_phase_duration = some t) :
    t.num_points_ = safeToInt (duration / discretization) + 1 ∧
    t.duration_ = duration ∧ t.discretization_ = discretization ∧
    t.start_index_ = 1 ∧ t.end_index_ = safeToInt (duration / discretization) + 1 - 2 ∧
    t.phase_stride_ = safeToInt (contact_phase_duration / discretization) ∧
    t.num_contact_phases_ = safeToInt (duration / contact_phase_duration) + 2 := by
  unfold ItompCIOTrajectory.ctor at h
  obtain ⟨pts, hpts⟩ := init_some _ _ _ _ h
  rw [hpts]
  exact ⟨rfl, rfl, rfl, rfl, rfl, rfl, rfl⟩

/-- The phase boundaries collected by the full constructor: 0, then the interior rows
`1, 1 + stride, ...` up to `end_index_`, then `end_index_ + 1`, the last row. -/
theorem ctor_boundaries (fuel : ℕ) (junk : Uninit) (robot_model : ItompRobotModel)
    (duration discretization num_contacts contact_phase_duration : ℚ)
    (hs : 1 ≤ safeToInt (contact_phase_duration / discretization))
    (hfuel : (safeToInt (duration / discretization) - 1).toNat < fuel) :
    ∃ t, ItompCIOTrajectory.ctor fuel junk robot_model duration discretization num_contacts
        contact_phase_duration = some t ∧
      t.contact_start_points_ =
        0 :: ((List.range ((safeToInt (duration / discretization) - 2
            + safeToInt (contact_phase_duration / discretization))
            / safeToInt (contact_phase_duration / discretization)).toNat).map
          (fun (k : ℕ) => 1 + (k : ℤ) * safeToInt (contact_phase_duration / discretization))
          ++ [safeToInt (duration / discretization)]) := by
  have hloop := initLoop_eq (safeToInt (contact_phase_duration / discretization))
    (safeToInt (duration / discretization) + 1 - 2) hs fuel 1 [0]
    (by
      have e : safeToInt (duration / discretization) + 1 - 2 + 1 - 1
          = safeToInt (duration / discretization) - 1 := by ring
      rw [e]
      exact hfuel)
  have e1 : safeToInt (duration / discretization) + 1 - 2 - 1
      + safeToInt (contact_phase_duration / discretization)
      = safeToInt (duration / discretization) - 2
        + safeToInt (contact_phase_duration / discretization) := by ring
  rw [e1] at hloop
  unfold ItompCIOTrajectory.ctor ItompCIOTrajectory.init
  simp only []
  rw [hloop]
  refine ⟨_, rfl, ?_⟩
  simp
  ring

theorem safeToInt_eq_of_bounds (q : ℚ) (k : ℤ) (h0 : 0 ≤ q) (h1 : (k : ℚ) ≤ q + EPS7)
    (h2 : q + EPS7 < (k : ℚ) + 1) : safeToInt q = k := by
  unfold safeToInt
  rw [truncToInt_of_nonneg _ (by unfold EPS7; positivity), Int.floor_eq_iff]
  exact ⟨h1, h2⟩

/-- The number of interior phase boundaries when the duration is `m` phases of `s` steps. -/
theorem boundary_count (m s : ℕ) (hm : 1 ≤ m) (hs : 1 ≤ s) :
    ((((m * s : ℕ) : ℤ) - 2 + (s : ℤ)) / (s : ℤ)).toNat = if s = 1 then m - 1 else m := by
  by_cases h1 : s = 1
  · subst h1
    rw [if_pos rfl]
    simp only [mul_one, Nat.cast_one, Int.ediv_one]
    omega
  · rw [if_neg h1]
    have e : (((m * s : ℕ) : ℤ) - 2 + (s : ℤ)) = ((s : ℤ) - 2) + (m : ℤ) * (s : ℤ) := by
      push_cast; ring
    rw [e, Int.add_mul_ediv_right _ _ (show (s : ℤ) ≠ 0 by omega),
      Int.ediv_eq_zero_of_lt (by omega) (by omega)]
    simp

/-- C12. For the full constructor called with a duration of `m >= 1` contact phases and a
contact phase duration of `s >= 1` steps (duration `m * (s * d)`, phase duration `s * d`,
discretization `d > 0`), the constructor returns, `num_contact_phases_ =
safeToInt(duration / contact_phase_duration) + 2 = m + 2`, and `contact_start_points_` has
`m + 2` elements when `s >= 2` but only `m + 1` when `s = 1` (phase duration equal to the
discretization): the condition of the construction-time assertion holds exactly when
`s ≠ 1`. -/
theorem contact_start_points_count (m s : ℕ) (d : ℚ) (hm : 1 ≤ m) (hs : 1 ≤ s) (hd : 0 < d)
    (fuel : ℕ) (hfuel : m * s < fuel) (junk : Uninit) (robot_model : ItompRobotModel)
    (num_contacts : ℚ) :
    ∃ t, ItompCIOTrajectory.ctor fuel junk robot_model ((m : ℚ) * ((s : ℚ) * d)) d num_contacts
        ((s : ℚ) * d) = some t ∧
      t.num_contact_phases_ = (m : ℤ) + 2 ∧
      (t.contact_start_points_.length : ℤ) = (if s = 1 then (m : ℤ) + 1 else (m : ℤ) + 2) ∧
      (t.initAssertion ↔ s ≠ 1) := by
  have hd0 : d ≠ 0 := ne_of_gt hd
  have hs0 : (s : ℚ) ≠ 0 := by
    have : (0 : ℚ) < (s : ℚ) := by exact_mod_cast hs
    exact ne_of_gt this
  have hn : safeToInt ((m : ℚ) * ((s : ℚ) * d) / d) = ((m * s : ℕ) : ℤ) :=
    safeToInt_eq_of_natCast _ (m * s) (by push_cast; field_simp; ring)
  have hst : safeToInt ((s : ℚ) * d / d) = (s : ℤ) :=
    safeToInt_eq_of_natCast _ s (by field_simp)
  have hph : safeToInt ((m : ℚ) * ((s : ℚ) * d) / ((s : ℚ) * d)) = (m : ℤ) :=
    safeToInt_eq_of_natCast _ m (by field_simp)
  obtain ⟨t, ht, hcsp⟩ := ctor_boundaries fuel junk robot_model ((m : ℚ) * ((s : ℚ) * d)) d
    num_contacts ((s : ℚ) * d) (by rw [hst]; exact_mod_cast hs)
    (by rw [hn]; generalize m * s = n at hfuel; omega)
  have hf := ctor_some _ _ _ _ _ _ _ _ ht
  have hncp : t.num_contact_phases_ = (m : ℤ) + 2 := by rw [hf.2.2.2.2.2.2, hph]
  have hlen : (t.contact_start_points_.length : ℤ)
      = (if s = 1 then (m : ℤ) + 1 else (m : ℤ) + 2) := by
    rw [hcsp, hn, hst]
    simp only [List.length_cons, List.length_append, List.length_map, List.length_range,
      List.length_nil, boundary_count m s hm hs]
    split <;> push_cast <;> omega
  refine ⟨t, ht, hncp, hlen, ?_⟩
  unfold ItompCIOTrajectory.initAssertion
  rw [hlen, hncp]
  by_cases h1 : s = 1
  · rw [if_pos h1]
    constructor
    · intro h; omega
    · intro h; exact absurd h1 h
  · rw [if_neg h1]
    exact ⟨fun _ => h1, fun _ => rfl⟩

/-- The failing input of C12: duration 0.5 with phase duration 0.1 equal to the discretization
0.1 (`m = 5`, `s = 1`): the constructor returns a trajectory with `num_contact_phases_ = 7`
whose `contact_start_points_` has 6 elements, so the condition of its assertion is false. -/
theorem contact_start_points_count_witness :
    ∃ t, ItompCIOTrajectory.ctor 10 exampleJunk exampleRobot
        (((5 : ℕ) : ℚ) * (((1 : ℕ) : ℚ) * (1 / 10))) (1 / 10) 1 (((1 : ℕ) : ℚ) * (1 / 10))
        = some t ∧
      t.num_contact_phases_ = 7 ∧ (t.contact_start_points_.length : ℤ) = 6 ∧
      ¬ t.initAssertion := by
  obtain ⟨t, ht, h1, h2, h3⟩ := contact_start_points_count 5 1 (1 / 10) (by decide)
    (by decide) (by norm_num) 10 (by decide) exampleJunk exampleRobot 1
  refine ⟨t, ht, ?_, ?_, ?_⟩
  · rw [h1]; norm_num
  · rw [h2]; norm_num
  · rw [h3]; simp

/-- C13. Phase-boundary list shape: for every trajectory built by the full constructor with at
least 3 steps and phase stride at least 1 (the constructor returns once the fuel exceeds the
interior length), `contact_start_points_` is strictly increasing, its first element is 0 and
its last element is `num_points_ - 1`, the index of the last step (`end_index_ + 1`). -/
theorem contact_start_points_shape (fuel : ℕ) (junk : Uninit) (robot_model : ItompRobotModel)
    (duration discretization num_contacts contact_phase_duration : ℚ)
    (hn : 2 ≤ safeToInt (duration / discretization))
    (hs : 1 ≤ safeToInt (contact_phase_duration / discretization))
    (hfuel : (safeToInt (duration / discretization) - 1).toNat < fuel) :
    ∃ t, ItompCIOTrajectory.ctor fuel junk robot_model duration discretization num_contacts
        contact_phase_duration = some t ∧
      3 ≤ t.num_points_ ∧ 1 ≤ t.phase_stride_ ∧
      t.contact_start_points_.Pairwise (fun a b => a < b) ∧
      t.contact_start_points_.head? = some 0 ∧
      t.contact_start_points_.getLast? = some (t.num_points_ - 1) ∧
      t.num_points_ - 1 = t.end_index_ + 1 := by
  obtain ⟨t, ht, hcsp⟩ := ctor_boundaries fuel junk robot_model duration discretization
    num_contacts contact_phase_duration hs hfuel
  have hf := ctor_some _ _ _ _ _ _ _ _ ht
  refine ⟨t, ht, by rw [hf.1]; omega, by rw [hf.2.2.2.2.2.1]; exact hs, ?_, ?_, ?_, ?_⟩
  · rw [hcsp]
    generalize safeToInt (duration / discretization) = n at hn
    generalize safeToInt (contact_phase_duration / discretization) = s at hs
    have hmem : ∀ a ∈ (List.range ((n - 2 + s) / s).toNat).map
        (fun (k : ℕ) => 1 + (k : ℤ) * s), 1 ≤ a ∧ a < n := by
      intro a ha
      obtain ⟨k, hk, rfl⟩ := List.mem_map.1 ha
      have hk2 : k < ((n - 2 + s) / s).toNat := List.mem_range.1 hk
      have hk3 : (k : ℤ) + 1 ≤ (n - 2 + s) / s := by omega
      have hk4 := (Int.le_ediv_iff_mul_le (show 0 < s by omega)).1 hk3
      have hk0 : (0 : ℤ) ≤ (k : ℤ) * s := mul_nonneg (by omega) (by omega)
      constructor
      · omega
      · have e : ((k : ℤ) + 1) * s = (k : ℤ) * s + s := by ring
        rw [e] at hk4
        omega
    rw [List.pairwise_cons]
    refine ⟨?_, ?_⟩
    · intro a ha
      rcases List.mem_append.1 ha with ha | ha
      · have := (hmem a ha).1
        omega
      · simp at ha; omega
    · rw [List.pairwise_append]
      refine ⟨?_, List.pairwise_singleton _ _, ?_⟩
      · rw [List.pairwise_map]
        refine List.Pairwise.imp ?_ (List.pairwise_lt_range _)
        intro a b hab
        have h1 : (a : ℤ) < (b : ℤ) := by exact_mod_cast hab
        have h2 : (a : ℤ) * s < (b : ℤ) * s := mul_lt_mul_of_pos_right h1 (by omega)
        omega
      · intro a ha b hb
        simp at hb
        rw [hb]
        exact (hmem a ha).2
  · rw [hcsp]
    rfl
  · rw [hcsp, hf.1]
    rw [← List.cons_append, List.getLast?_concat]
    congr 1
    ring
  · rw [hf.1, hf.2.2.2.2.1]
    ring

/-- Witness of C13: duration 0.4, discretization 0.1, contact phase duration 0.2 (5 steps,
stride 2). -/
theorem contact_start_points_shape_witness :
    ∃ t, ItompCIOTrajectory.ctor 10 exampleJunk exampleRobot (2 / 5) (1 / 10) 1 (1 / 5)
        = some t ∧
      3 ≤ t.num_points_ ∧ 1 ≤ t.phase_stride_ ∧
      t.contact_start_points_.Pairwise (fun a b => a < b) ∧
      t.contact_start_points_.head? = some 0 ∧
      t.contact_start_points_.getLast? = some (t.num_points_ - 1) ∧
      t.num_points_ - 1 = t.end_index_ + 1 :=
  contact_start_points_shape 10 exampleJunk exampleRobot (2 / 5) (1 / 10) 1 (1 / 5)
    (by rw [safeToInt_eq_of_natCast _ 4 (by norm_num)]; decide)
    (by rw [safeToInt_eq_of_natCast _ 2 (by norm_num)]; decide)
    (by rw [safeToInt_eq_of_natCast _ 4 (by norm_num)]; decide)

/-- Counterexample to C13 as stated: for duration 0.4, discretization 0.1 and contact phase
duration 0.2 the constructor returns a trajectory of 5 steps with stride 2 whose list is
0, 1, 3, 4: the last element is 4, not the number of steps 5. -/
theorem contact_start_points_last_not_num_points :
    ∃ t, ItompCIOTrajectory.ctor 10 exampleJunk exampleRobot (2 / 5) (1 / 10) 1 (1 / 5)
        = some t ∧
      3 ≤ t.num_points_ ∧ 1 ≤ t.phase_stride_ ∧
      t.contact_start_points_ = [0, 1, 3, 4] ∧ t.num_points_ = 5 ∧
      t.contact_start_points_.getLast? ≠ some t.num_points_ := by
  obtain ⟨t, ht, h1, -, -, -, h5, -, -, h8⟩ := exampleYaw_geometry
  have hnp : t.num_points_ = 5 := h1
  have hst : t.phase_stride_ = 2 := h5
  have hc : t.contact_start_points_ = [0, 1, 3, 4] := h8
  refine ⟨t, ht, by rw [hnp]; decide, by rw [hst]; decide, hc, hnp, ?_⟩
  rw [hc, hnp]
  decide

/-- C14, as amended. In exact arithmetic (the quotient and the sum taken as rational numbers,
without the rounding of `double`), for every positive duration and discretization the step
count of the full constructor is `num_points_ = floor(duration / discretization + 1e-7) + 1`:
the quotient plus 1e-7 is truncated, not rounded to the nearest integer. Every trajectory the
constructor returns has that many steps, and it returns one as soon as the phase stride is at
least 1 and the fuel exceeds the interior length. -/
theorem num_points_truncation (duration discretization : ℚ) (hdur : 0 < duration)
    (hdisc : 0 < discretization) :
    safeToInt (duration / discretization) + 1 = ⌊duration / discretization + EPS7⌋ + 1 ∧
    (∀ fuel junk robot_model num_contacts contact_phase_duration t,
      ItompCIOTrajectory.ctor fuel junk robot_model duration discretization num_contacts
        contact_phase_duration = some t →
      t.num_points_ = ⌊duration / discretization + EPS7⌋ + 1) ∧
    (∀ fuel junk robot_model num_contacts contact_phase_duration,
      1 ≤ safeToInt (contact_phase_duration / discretization) →
      (⌊duration / discretization + EPS7⌋ - 1).toNat < fuel →
      ∃ t, ItompCIOTrajectory.ctor fuel junk robot_model duration discretization num_contacts
        contact_phase_duration = some t ∧
        t.num_points_ = ⌊duration / discretization + EPS7⌋ + 1) := by
  have hq : 0 ≤ duration / discretization := le_of_lt (div_pos hdur hdisc)
  have h1 : safeToInt (duration / discretization) = ⌊duration / discretization + EPS7⌋ := by
    unfold safeToInt
    exact truncToInt_of_nonneg _ (by unfold EPS7; positivity)
  refine ⟨by rw [h1], ?_, ?_⟩
  · intro fuel junk robot_model num_contacts contact_phase_duration t ht
    rw [(ctor_some _ _ _ _ _ _ _ _ ht).1, h1]
  · intro fuel junk robot_model num_contacts contact_phase_duration hs hfuel
    obtain ⟨t, ht⟩ := ctor_terminates fuel junk robot_model duration discretization
      num_contacts contact_phase_duration hs (by rw [h1]; exact hfuel)
    exact ⟨t, ht, by rw [(ctor_some _ _ _ _ _ _ _ _ ht).1, h1]⟩

/-- Witness of C14: duration 1.06 and discretization 0.1 give `floor(10.6000001) + 1 = 11`
steps. -/
theorem num_points_truncation_witness :
    safeToInt ((53 / 50 : ℚ) / (1 / 10)) + 1 = 11 := by
  have h := (num_points_truncation (53 / 50) (1 / 10) (by norm_num) (by norm_num)).1
  rw [h]
  have : ⌊(53 / 50 : ℚ) / (1 / 10) + EPS7⌋ = 10 := by
    rw [Int.floor_eq_iff]
    unfold EPS7
    constructor <;> norm_num
  rw [this]
  rfl

/-- Counterexample to C14 as stated: for duration 1.06, discretization 0.1 and contact phase
duration 0.53 the constructor returns a trajectory of 11 steps, where rounding 10.6 to the
nearest integer gives 11 and the claim 12 steps. -/
theorem num_points_not_rounded :
    ∃ t, ItompCIOTrajectory.ctor 20 exampleJunk exampleRobot (53 / 50) (1 / 10) 1 (53 / 100)
        = some t ∧
      t.num_points_ = 11 ∧ round ((53 / 50 : ℚ) / (1 / 10)) + 1 = 12 := by
  have h1 : safeToInt ((53 / 50 : ℚ) / (1 / 10)) = 10 :=
    safeToInt_eq_of_bounds _ 10 (by norm_num) (by unfold EPS7; norm_num)
      (by unfold EPS7; norm_num)
  have h2 : safeToInt ((53 / 100 : ℚ) / (1 / 10)) = 5 :=
    safeToInt_eq_of_bounds _ 5 (by norm_num) (by unfold EPS7; norm_num)
      (by unfold EPS7; norm_num)
  obtain ⟨t, ht⟩ := ctor_terminates 20 exampleJunk exampleRobot (53 / 50) (1 / 10) 1 (53 / 100)
    (by rw [h2]; decide) (by rw [h1]; decide)
  refine ⟨t, ht, by rw [(ctor_some _ _ _ _ _ _ _ _ ht).1, h1]; rfl, ?_⟩
  have : round ((53 / 50 : ℚ) / (1 / 10)) = 11 := by
    rw [round_eq, Int.floor_eq_iff]
    constructor <;> norm_num
  rw [this]
  rfl

/-- C15, as amended. The full constructor has no check of the duration against the step count:
whenever it returns (it does as soon as the phase stride is at least 1 and the fuel exceeds the
interior length), the trajectory keeps the supplied duration in `duration_`, has
`safeToInt(duration / discretization) + 1` steps whatever `(num_points_ - 1) * discretization`
is, and satisfies `ROS_ASSERT(duration == duration_)`, the argument against the member
initialised from it. The other assertion of the construction, the one of `init()` on the number
of phase boundaries, holds exactly when the number of interior boundaries
`(n - 2 + s) / s` equals `safeToInt(duration / contact_phase_duration)`, for the truncated
quotients `n = safeToInt(duration / discretization)` and
`s = safeToInt(contact_phase_duration / discretization)`: it compares counts of phases, not the
duration with the duration recomputed from the step count. -/
theorem ctor_duration_checks (fuel : ℕ) (junk : Uninit) (robot_model : ItompRobotModel)
    (duration discretization num_contacts contact_phase_duration : ℚ)
    (hs : 1 ≤ safeToInt (contact_phase_duration / discretization))
    (hfuel : (safeToInt (duration / discretization) - 1).toNat < fuel) :
    ∃ t, ItompCIOTrajectory.ctor fuel junk robot_model duration discretization num_contacts
        contact_phase_duration = some t ∧
      t.ctorAssertion duration ∧ t.duration_ = duration ∧
      t.num_points_ = safeToInt (duration / discretization) + 1 ∧
      (t.initAssertion ↔
        ((((safeToInt (duration / discretization) - 2
            + safeToInt (contact_phase_duration / discretization))
          / safeToInt (contact_phase_duration / discretization)).toNat : ℕ) : ℤ)
          = safeToInt (duration / contact_phase_duration)) := by
  obtain ⟨t, ht, hcsp⟩ := ctor_boundaries fuel junk robot_model duration discretization
    num_contacts contact_phase_duration hs hfuel
  have hf := ctor_some _ _ _ _ _ _ _ _ ht
  refine ⟨t, ht, hf.2.1.symm, hf.2.1, hf.1, ?_⟩
  unfold ItompCIOTrajectory.initAssertion
  rw [hcsp, hf.2.2.2.2.2.2]
  simp only [List.length_cons, List.length_append, List.length_map, List.length_range,
    List.length_singleton, List.length_nil]
  push_cast
  constructor
  · intro h
    linarith
  · intro h
    linarith

/-- The theorem `ctor_duration_checks` on duration 0.5, discretization 0.1 and contact phase
duration 0.3: the duration is an exact multiple of the discretization (6 steps,
`(num_points_ - 1) * discretization = 0.5`), the assertion on the duration holds, and the
assertion of `init()` does not (4 phase boundaries against `num_contact_phases_ = 3`). -/
theorem ctor_duration_checks_witness :
    1 ≤ safeToInt ((3 / 10 : ℚ) / (1 / 10)) ∧
    ∃ t, ItompCIOTrajectory.ctor 10 exampleJunk exampleRobot (1 / 2) (1 / 10) 1 (3 / 10)
        = some t ∧
      t.ctorAssertion (1 / 2) ∧ t.duration_ = 1 / 2 ∧ t.num_points_ = 6 ∧
      ((t.num_points_ - 1 : ℤ) : ℚ) * (1 / 10) = 1 / 2 ∧
      (t.contact_start_points_.length : ℤ) = 4 ∧ t.num_contact_phases_ = 3 ∧
      ¬ t.initAssertion := by
  have h1 : safeToInt ((1 / 2 : ℚ) / (1 / 10)) = 5 :=
    safeToInt_eq_of_natCast _ 5 (by norm_num)
  have h2 : safeToInt ((3 / 10 : ℚ) / (1 / 10)) = 3 :=
    safeToInt_eq_of_natCast _ 3 (by norm_num)
  have h3 : safeToInt ((1 / 2 : ℚ) / (3 / 10)) = 1 :=
    safeToInt_eq_of_bounds _ 1 (by norm_num) (by unfold EPS7; norm_num)
      (by unfold EPS7; norm_num)
  obtain ⟨t, ht, hca, hd, hnp, hinit⟩ := ctor_duration_checks 10 exampleJunk exampleRobot
    (1 / 2) (1 / 10) 1 (3 / 10) (by rw [h2]; decide) (by rw [h1]; decide)
  have hf := ctor_some _ _ _ _ _ _ _ _ ht
  rw [h1, h2, h3] at hinit
  rw [h1] at hnp
  have hno : ¬ t.initAssertion := fun h => absurd (hinit.1 h) (by decide)
  have hncp : t.num_contact_phases_ = 3 := by rw [hf.2.2.2.2.2.2, h3]; rfl
  have hlen : (t.contact_start_points_.length : ℤ) = 4 := by
    obtain ⟨t2, ht2, hcsp⟩ := ctor_boundaries 10 exampleJunk exampleRobot (1 / 2) (1 / 10) 1
      (3 / 10) (by rw [h2]; decide) (by rw [h1]; decide)
    rw [ht] at ht2
    cases ht2
    rw [hcsp, h1, h2]
    decide
  refine ⟨by rw [h2]; decide, t, ht, hca, hd, hnp, ?_, hlen, hncp, hno⟩
  rw [hnp]
  norm_num

/-- Counterexample to C15 as stated: for duration 1.05, discretization 0.1 and contact phase
duration 0.35 the constructor returns a trajectory of 11 steps that keeps `duration_ = 1.05`,
although `(num_points_ - 1) * discretization = 1.0` differs from the duration; both of its
assertions hold. -/
theorem ctor_accepts_non_multiple_duration :
    ∃ t, ItompCIOTrajectory.ctor 20 exampleJunk exampleRobot (21 / 20) (1 / 10) 1 (7 / 20)
        = some t ∧
      t.num_points_ = 11 ∧ t.duration_ = 21 / 20 ∧
      ((t.num_points_ - 1 : ℤ) : ℚ) * (1 / 10) ≠ 21 / 20 ∧
      t.ctorAssertion (21 / 20) ∧ t.initAssertion := by
  have h1 : safeToInt ((21 / 20 : ℚ) / (1 / 10)) = 10 :=
    safeToInt_eq_of_bounds _ 10 (by norm_num) (by unfold EPS7; norm_num)
      (by unfold EPS7; norm_num)
  have h2 : safeToInt ((7 / 20 : ℚ) / (1 / 10)) = 3 :=
    safeToInt_eq_of_bounds _ 3 (by norm_num) (by unfold EPS7; norm_num)
      (by unfold EPS7; norm_num)
  have h3 : safeToInt ((21 / 20 : ℚ) / (7 / 20)) = 3 :=
    safeToInt_eq_of_natCast _ 3 (by norm_num)
  obtain ⟨t, ht, hcsp⟩ := ctor_boundaries 20 exampleJunk exampleRobot (21 / 20) (1 / 10) 1
    (7 / 20) (by rw [h2]; decide) (by rw [h1]; decide)
  have hf := ctor_some _ _ _ _ _ _ _ _ ht
  rw [h1, h2] at hcsp
  have hnp : t.num_points_ = 11 := by rw [hf.1, h1]; rfl
  refine ⟨t, ht, hnp, hf.2.1, ?_, hf.2.1.symm, ?_⟩
  · rw [hnp]; norm_num
  · unfold ItompCIOTrajectory.initAssertion
    rw [hcsp, hf.2.2.2.2.2.2, h3]
    decide

/-! ## The improvement manager and the best-cost coordinator -/

/-- C19. For a manager with cached index `c` and a process-wide update index `u`,
`updatePlanningParameters` returns true exactly when `c ≠ u`; after the call the cached index
is `u`; a second call with the same `u` returns false and changes nothing; a freshly
constructed manager (cached index -1) returns true for every `u ≠ -1`. -/
theorem updatePlanningParameters_spec (self : ImprovementManager) (u : ℤ) :
    ((self.updatePlanningParameters u).1 = true ↔ self.last_planning_parameter_index_ ≠ u) ∧
    (self.updatePlanningParameters u).2.last_planning_parameter_index_ = u ∧
    ((self.updatePlanningParameters u).2.updatePlanningParameters u
      = (false, (self.updatePlanningParameters u).2)) ∧
    (ImprovementManager.ctor.last_planning_parameter_index_ = -1) ∧
    (u ≠ -1 → (ImprovementManager.ctor.updatePlanningParameters u).1 = true) := by
  unfold ImprovementManager.updatePlanningParameters ImprovementManager.ctor
  by_cases h : self.last_planning_parameter_index_ = u
  · simp [h]
    intro h1
    rw [if_neg (fun h2 => h1 h2.symm)]
  · simp [h]
    intro h1
    rw [if_neg (fun h2 => h1 h2.symm)]

theorem reportAll_append (m : BestCostManager) (l : List (ℤ × ℚ)) (r : ℤ × ℚ) :
    m.reportAll (l ++ [r]) = (m.reportAll l).reportCost r.1 r.2 := by
  simp [BestCostManager.reportAll, List.foldl_append]

/-- C20. Starting from the reset state (bestIndex -1, bestCost +∞), after any finite sequence
of `reportCost` calls: with no call the state is still the reset state; otherwise `bestCost`
is the minimum reported cost and `bestIndex` is the candidate index of the earliest call of the
sequence that reported that minimum (every earlier call reported a strictly higher cost). -/
theorem reportCost_sequential_minimum (m0 : BestCostManager) (reports : List (ℤ × ℚ)) :
    (reports = [] → (m0.reset.reportAll reports).getBestCostTrajectoryIndex = -1
      ∧ (m0.reset.reportAll reports).bestCost = ⊤) ∧
    (reports ≠ [] → ∃ p : ℕ, ∃ hp : p < reports.length,
      (m0.reset.reportAll reports).bestCost = ((reports.get ⟨p, hp⟩).2 : WithTop ℚ) ∧
      (m0.reset.reportAll reports).getBestCostTrajectoryIndex = (reports.get ⟨p, hp⟩).1 ∧
      (∀ r ∈ reports, (reports.get ⟨p, hp⟩).2 ≤ r.2) ∧
      (∀ q : ℕ, ∀ hq : q < reports.length, q < p →
        (reports.get ⟨p, hp⟩).2 < (reports.get ⟨q, hq⟩).2)) := by
  unfold BestCostManager.getBestCostTrajectoryIndex
  constructor
  · rintro rfl; exact ⟨rfl, rfl⟩
  · induction reports using List.reverseRecOn with
    | nil => intro h; exact absurd rfl h
    | append_singleton l r ih =>
      intro _
      rw [reportAll_append]
      by_cases hl : l = []
      · subst hl
        refine ⟨0, by simp, ?_⟩
        simp [BestCostManager.reportAll, BestCostManager.reset, BestCostManager.reportCost]
      · obtain ⟨p, hp, hc, hi, hmin, hfirst⟩ := ih hl
        have hpl : p < (l ++ [r]).length := by simp; omega
        have hget : ∀ (q : ℕ) (hq : q < l.length) (hq2 : q < (l ++ [r]).length),
            (l ++ [r]).get ⟨q, hq2⟩ = l.get ⟨q, hq⟩ := by
          intro q hq hq2
          simp [List.getElem_append_left hq]
        unfold BestCostManager.reportCost
        by_cases hlt : (r.2 : WithTop ℚ) < (m0.reset.reportAll l).bestCost
        · rw [if_pos hlt]
          rw [hc] at hlt
          have hlt2 : r.2 < (l.get ⟨p, hp⟩).2 := by exact_mod_cast hlt
          have hlast : (l ++ [r]).get ⟨l.length, by simp⟩ = r := by simp
          refine ⟨l.length, by simp, ?_, ?_, ?_, ?_⟩
          · rw [hlast]
          · rw [hlast]
          · rw [hlast]
            intro x hx
            rcases List.mem_append.1 hx with hx | hx
            · exact le_of_lt (lt_of_lt_of_le hlt2 (hmin x hx))
            · simp at hx; subst hx; exact le_refl _
          · rw [hlast]
            intro q hq hql
            rw [hget q hql hq]
            exact lt_of_lt_of_le hlt2 (hmin _ (List.get_mem _ _ _))
        · rw [if_neg hlt]
          rw [hc] at hlt
          have hge : (l.get ⟨p, hp⟩).2 ≤ r.2 := by
            have := not_lt.1 hlt
            exact_mod_cast this
          refine ⟨p, hpl, ?_, ?_, ?_, ?_⟩
          · rw [hget p hp hpl]; exact hc
          · rw [hget p hp hpl]; exact hi
          · rw [hget p hp hpl]
            intro x hx
            rcases List.mem_append.1 hx with hx | hx
            · exact hmin x hx
            · simp at hx; subst hx; exact hge
          · rw [hget p hp hpl]
            intro q hq hqp
            have hql : q < l.length := by omega
            rw [hget q hql hq]
            exact hfirst q hql hqp

/-! ## The planning info of a trial -/

theorem vectorAt_some {α : Type} (v : List α) (i : ℤ) (x : α) (h : vectorAt v i = some x) :
    0 ≤ i ∧ i.toNat < v.length ∧ v[i.toNat]? = some x := by
  unfold vectorAt at h
  split at h
  · rename_i h0
    exact ⟨h0, (List.getElem?_eq_some_iff.1 h).1, h⟩
  · cases h

theorem vectorAt_set {α : Type} (v : List α) (i : ℤ) (x y : α) (h : vectorAt v i = some y) :
    vectorAt (v.set i.toNat x) i = some x := by
  obtain ⟨h0, h1, -⟩ := vectorAt_some v i y h
  unfold vectorAt
  rw [if_pos h0, List.getElem?_set_self (by simpa using h1)]

/-- What `writePlanningInfo` leaves behind when it returns: the entry of the trial and the
component holds the figures of the optimizer at the coordinator's best index. -/
theorem writePlanningInfo_some {σ : Type} (env : PlanningRunEnv σ)
    (self s2 : ItompPlannerNodeState) (trials component : ℤ)
    (h : self.writePlanningInfo env trials component = some s2) :
    ∃ optimizer row info,
      vectorAt self.optimizers_ self.best_cost_manager_.getBestCostTrajectoryIndex
        = some optimizer ∧
      vectorAt s2.planning_info_ trials = some row ∧ vectorAt row component = some info ∧
      info.cost = optimizer.getBestCost ∧
      info.success = (if optimizer.isSucceed then 1 else 0) ∧
      info.iterations = optimizer.getLastIteration + 1 ∧
      info.time = self.last_planning_time_ ∧
      s2.best_cost_manager_ = self.best_cost_manager_ ∧
      s2.optimizers_ = self.optimizers_ ∧
      s2.toItompPlannerNode = self.toItompPlannerNode ∧
      s2.planning_count_ = self.planning_count_ := by
  unfold ItompPlannerNodeState.writePlanningInfo at h
  simp only [] at h
  split at h
  · cases h
  · rename_i planning_info _
    split at h
    · cases h
    · rename_i row hrow
      split at h
      · rename_i info optimizer hinfo hopt
        simp only [Option.some.injEq] at h
        subst h
        exact ⟨optimizer, _, _, hopt, vectorAt_set _ _ _ _ hrow, vectorAt_set _ _ _ _ hinfo,
          rfl, rfl, rfl, rfl, rfl, rfl, rfl, rfl⟩
      · cases h

/-- The call `writePlanningInfo(trials, component)` returns when the trial is a row of
`planning_info_`, the component an entry of that row and the coordinator's best index an
element of `optimizers_`. -/
theorem writePlanningInfo_returns {σ : Type} (env : PlanningRunEnv σ)
    (self : ItompPlannerNodeState) (trials component : ℤ) (row : List PlanningInfo)
    (info : PlanningInfo) (optimizer : ItompOptimizer)
    (hrow : vectorAt self.planning_info_ trials = some row)
    (hinfo : vectorAt row component = some info)
    (hopt : vectorAt self.optimizers_ self.best_cost_manager_.getBestCostTrajectoryIndex
      = some optimizer) :
    ∃ s2, self.writePlanningInfo env trials component = some s2 := by
  obtain ⟨h0, h1, -⟩ := vectorAt_some _ _ _ hrow
  have hlen : ¬ ((self.planning_info_.length : ℤ) ≤ trials) := by omega
  unfold ItompPlannerNodeState.writePlanningInfo
  simp only [if_neg hlen, hrow, hinfo, hopt]
  exact ⟨_, rfl⟩

/-- C18. For every population (every vector `optimizers_`, whatever its size `N`), the
planning info that `writePlanningInfo` records for a (trial, component) takes its cost and its
success flag from the optimizer at the coordinator's best index, its time from
`last_planning_time_`, and its `iterations` field is that optimizer's `getLastIteration() + 1`.
The call returns when the trial is a row of `planning_info_`, the component an entry of that
row and the best index an element of `optimizers_`. -/
theorem writePlanningInfo_best_optimizer {σ : Type} (env : PlanningRunEnv σ)
    (self : ItompPlannerNodeState) (trials component : ℤ) :
    (∀ s2, self.writePlanningInfo env trials component = some s2 →
      ∃ optimizer row info,
        vectorAt self.optimizers_ self.best_cost_manager_.getBestCostTrajectoryIndex
          = some optimizer ∧
        vectorAt s2.planning_info_ trials = some row ∧ vectorAt row component = some info ∧
        info.cost = optimizer.getBestCost ∧
        info.success = (if optimizer.isSucceed then 1 else 0) ∧
        info.iterations = optimizer.getLastIteration + 1 ∧
        info.time = self.last_planning_time_) ∧
    (∀ row info optimizer, vectorAt self.planning_info_ trials = some row →
      vectorAt row component = some info →
      vectorAt self.optimizers_ self.best_cost_manager_.getBestCostTrajectoryIndex
        = some optimizer →
      ∃ s2, self.writePlanningInfo env trials component = some s2) := by
  constructor
  · intro s2 h
    obtain ⟨optimizer, row, info, h1, h2, h3, h4, h5, h6, h7, -⟩ :=
      writePlanningInfo_some env self s2 trials component h
    exact ⟨optimizer, row, info, h1, h2, h3, h4, h5, h6, h7⟩
  · intro row info optimizer hrow hinfo hopt
    exact writePlanningInfo_returns env self trials component row info optimizer hrow hinfo hopt

theorem exampleRaceState_entry :
    vectorAt exampleRaceState.planning_info_ 0 = some [⟨0, 0, 0, 0⟩] ∧
    vectorAt [(⟨0, 0, 0, 0⟩ : PlanningInfo)] 0 = some ⟨0, 0, 0, 0⟩ ∧
    vectorAt exampleRaceState.optimizers_
      exampleRaceState.best_cost_manager_.getBestCostTrajectoryIndex = some ⟨0, 3, true⟩ :=
  ⟨rfl, rfl, rfl⟩

/-- The scenario of the spec: a population of 4 whose optimizers all converged in their first
iteration; the recorded info has the cost 3 of candidate 1, success 1 and `iterations = 1`. -/
theorem exampleRaceState_planning_info :
    exampleRaceState.optimizers_.length = 4 ∧
    ∃ s2, exampleRaceState.writePlanningInfo exampleRunEnv 0 0 = some s2 ∧
      ∃ row info, vectorAt s2.planning_info_ 0 = some row ∧ vectorAt row 0 = some info ∧
        info.cost = 3 ∧ info.success = 1 ∧ info.iterations = 1 ∧ info.time = 2 := by
  obtain ⟨s2, hs2⟩ := writePlanningInfo_returns exampleRunEnv exampleRaceState 0 0 _ _ _
    exampleRaceState_entry.1 exampleRaceState_entry.2.1 exampleRaceState_entry.2.2
  obtain ⟨optimizer, row, info, h1, h2, h3, h4, h5, h6, h7, -⟩ :=
    writePlanningInfo_some exampleRunEnv exampleRaceState s2 0 0 hs2
  rw [exampleRaceState_entry.2.2] at h1
  simp only [Option.some.injEq] at h1
  subst h1
  exact ⟨rfl, s2, hs2, row, info, h2, h3, h4, h5, h6, h7⟩

/-- Counterexample to C18 as stated: in the population of 4 of `exampleRaceState` the winning
optimizer (candidate 1) has `getLastIteration() = 0`, and the recorded `iterations` is 1. -/
theorem writePlanningInfo_iterations_off_by_one :
    exampleRaceState.optimizers_.length = 4 ∧
    ∃ s2 optimizer row info, exampleRaceState.writePlanningInfo exampleRunEnv 0 0 = some s2 ∧
      vectorAt exampleRaceState.optimizers_
        exampleRaceState.best_cost_manager_.getBestCostTrajectoryIndex = some optimizer ∧
      vectorAt s2.planning_info_ 0 = some row ∧ vectorAt row 0 = some info ∧
      optimizer.getLastIteration = 0 ∧ info.iterations = 1 ∧
      info.iterations ≠ optimizer.getLastIteration := by
  obtain ⟨s2, hs2⟩ := writePlanningInfo_returns exampleRunEnv exampleRaceState 0 0 _ _ _
    exampleRaceState_entry.1 exampleRaceState_entry.2.1 exampleRaceState_entry.2.2
  obtain ⟨optimizer, row, info, h1, h2, h3, -, -, h6, -⟩ :=
    writePlanningInfo_some exampleRunEnv exampleRaceState s2 0 0 hs2
  have h1b := h1
  rw [exampleRaceState_entry.2.2] at h1b
  simp only [Option.some.injEq] at h1b
  subst h1b
  refine ⟨rfl, s2, _, row, info, hs2, h1, h2, h3, rfl, h6, ?_⟩
  rw [h6]
  decide

/-! ## The result of a planning call -/

theorem fillInResult_some {σ : Type} (env : PlanningRunEnv σ) (self : ItompPlannerNodeState)
    (planningGroups : List String) (res res2 : MotionPlanResponse)
    (h : self.fillInResult env planningGroups res = some res2) :
    res2.error_code_ = SUCCESS ∧
    ∃ best, vectorAt self.trajectories_ self.best_cost_manager_.getBestCostTrajectoryIndex
        = some best ∧
      res2.trajectory_ = (List.range best.num_points_.toNat).map (fun (i : ℕ) =>
        (List.range env.getVariableCount.toNat).map (fun (j : ℕ) => best.get (i : ℤ) (j : ℤ)))
      := by
  unfold ItompPlannerNodeState.fillInResult at h
  simp only [] at h
  split at h
  · rename_i group0 best _ hbest
    simp only [Option.some.injEq] at h
    subst h
    exact ⟨rfl, best, hbest, rfl⟩
  · cases h

/-- Whenever `planKinematicPath` returns on a request that passes `preprocessRequest`, it
returns true with the error code `SUCCESS` and the way points of the candidate trajectory at
the coordinator's best index; no member of any optimizer is consulted for it. -/
theorem planKinematicPath_some {σ : Type} (env : PlanningRunEnv σ)
    (self : ItompPlannerNodeState) (req : MotionPlanRequest) (res : MotionPlanResponse)
    (r : Bool × MotionPlanResponse × ItompPlannerNodeState)
    (hpre : preprocessRequest env req = some true)
    (hret : self.planKinematicPath env req res = some r) :
    r.1 = true ∧ r.2.1.error_code_ = SUCCESS ∧
    ∃ best, vectorAt r.2.2.trajectories_ r.2.2.best_cost_manager_.getBestCostTrajectoryIndex
        = some best ∧
      r.2.1.trajectory_ = (List.range best.num_points_.toNat).map (fun (i : ℕ) =>
        (List.range env.getVariableCount.toNat).map (fun (j : ℕ) => best.get (i : ℤ) (j : ℤ)))
      := by
  unfold ItompPlannerNodeState.planKinematicPath at hret
  rw [hpre] at hret
  simp only [] at hret
  split at hret
  · cases hret
  · rename_i s5 _
    split at hret
    · cases hret
    · rename_i res2 hres
      simp only [Option.some.injEq] at hret
      subst hret
      obtain ⟨h1, best, h2, h3⟩ := fillInResult_some env s5 _ res res2 hres
      exact ⟨rfl, h1, best, h2, h3⟩

/-- The call `initTrajectory` returns without rebuilding the template trajectory when the
configured duration is the one of the template; the robot model, the geometry of the template
and the bookkeeping of the trials are kept. -/
theorem initTrajectory_same_duration {σ : Type} (env : PlanningRunEnv σ)
    (self : ItompPlannerNodeState) (joint_state : JointState)
    (hd : self.trajectory_.duration_ = env.trajectoryDuration) :
    ∃ s2, self.initTrajectory env joint_state = some s2 ∧
      s2.robot_model_ = self.robot_model_ ∧
      s2.trajectory_.duration_ = self.trajectory_.duration_ ∧
      s2.trajectory_.discretization_ = self.trajectory_.discretization_ ∧
      s2.planning_info_ = self.planning_info_ ∧
      s2.planning_count_ = self.planning_count_ := by
  unfold ItompPlannerNodeState.initTrajectory
  simp only [hd, ne_eq, not_true_eq_false, if_false]
  exact ⟨_, rfl, rfl, rfl, rfl, rfl, rfl⟩

/-- The call `fillGroupJointTrajectory` returns, with one candidate per member of the
population, when the construction of a fresh trajectory returns and, in the Cartesian case, the
IK retry loops do. -/
theorem fillGroupJointTrajectory_returns {σ : Type} (env : PlannerEnv σ)
    (self : ItompPlannerNode) (groupName : String) (jointGoalState : JointState)
    (pc : Constraints) (tc : TrajectoryConstraints)
    (hctor : ∃ t0, ItompCIOTrajectory.ctor env.fuel env.junk self.robot_model_
      self.trajectory_.duration_ self.trajectory_.discretization_
      (env.params.numContacts : ℚ) env.params.phaseDuration = some t0)
    (hik : env.precomputation.constraints = [] → pc.position_constraints ≠ [] →
      ∀ ks pose, ∃ ks2, ikRetry env.kin groupName pose env.fuel ks = some ks2) :
    ∃ node2, self.fillGroupJointTrajectory env groupName jointGoalState pc tc = some node2 ∧
      (0 ≤ env.params.numTrajectories →
        (node2.trajectories_.length : ℤ) = env.params.numTrajectories) := by
  have hctor2 : ∃ t0, ItompCIOTrajectory.ctor env.fuel env.junk self.robot_model_
      (self.setGoalPoint (env.getPlanningGroup groupName) jointGoalState).duration_
      (self.setGoalPoint (env.getPlanningGroup groupName) jointGoalState).discretization_
      (env.params.numContacts : ℚ) env.params.phaseDuration = some t0 := hctor
  unfold ItompPlannerNode.fillGroupJointTrajectory
  simp only []
  generalize self.setGoalPoint (env.getPlanningGroup groupName) jointGoalState
    = template at hctor2
  by_cases hN : 0 ≤ env.params.numTrajectories
  · have key := forLoop_induction
      (fun k (st : Option (List ItompCIOTrajectory)) => ∃ ts, st = some ts ∧
        (ts.length : ℤ) = k)
      0 env.params.numTrajectories
      (fun i (st : Option (List ItompCIOTrajectory)) =>
        match st with
        | none => none
        | some ts =>
          match self.seedCandidate env template groupName pc i with
          | none => none
          | some c => some (ts ++ [c.2])) (some []) hN
      ⟨[], rfl, rfl⟩
      (by
        rintro k st _ _ ⟨ts, rfl, hlen⟩
        obtain ⟨c, hc, -⟩ := seedCandidate_spec env self template groupName pc k hctor2 hik
        refine ⟨ts ++ [c.2], by simp only [hc], ?_⟩
        rw [List.length_append]
        simp only [List.length_singleton]
        push_cast
        omega)
    obtain ⟨ts, hts, hlen⟩ := key
    rw [hts]
    exact ⟨_, rfl, fun _ => hlen⟩
  · rw [forLoop_of_le 0 _ (by omega)]
    exact ⟨_, rfl, fun h => absurd h hN⟩

theorem forLoop_single {σ : Type} (lo hi : ℤ) (h : hi = lo + 1) (body : ℤ → σ → σ) (s : σ) :
    forLoop lo hi body s = body lo s := by
  unfold forLoop
  have e : (hi - lo).toNat = 1 := by omega
  rw [e]
  simp [List.range_succ]

/-- The call `trajectoryOptimization` returns when the seeding does; the node then holds the
candidates, the optimizers and the coordinator as the run of the optimizers left them. -/
theorem trajectoryOptimization_returns {σ : Type} (env : PlanningRunEnv σ)
    (self : ItompPlannerNodeState) (groupName : String) (jointGoalState : JointState)
    (pc : Constraints) (tc : TrajectoryConstraints) (node : ItompPlannerNode)
    (hnode : self.toItompPlannerNode.fillGroupJointTrajectory env.planner groupName
      jointGoalState pc tc = some node) :
    ∃ s4, self.trajectoryOptimization env groupName jointGoalState pc tc = some s4 ∧
      s4.trajectories_
        = (env.runOptimizers groupName node.trajectories_
            self.best_cost_manager_.reset).trajectories ∧
      s4.best_cost_manager_
        = (env.runOptimizers groupName node.trajectories_
            self.best_cost_manager_.reset).best_cost_manager ∧
      s4.optimizers_ = (List.range env.planner.params.numTrajectories.toNat).map
        (fun (i : ℕ) => (env.runOptimizers groupName node.trajectories_
            self.best_cost_manager_.reset).optimizers (i : ℤ)) ∧
      s4.planning_info_ = self.planning_info_ ∧
      s4.planning_count_ = self.planning_count_ := by
  unfold ItompPlannerNodeState.trajectoryOptimization
  rw [hnode]
  exact ⟨_, rfl, rfl, rfl, rfl, rfl, rfl⟩

theorem fillInResult_returns {σ : Type} (env : PlanningRunEnv σ) (self : ItompPlannerNodeState)
    (planningGroups : List String) (res : MotionPlanResponse) (group0 : String)
    (best : ItompCIOTrajectory) (hg : vectorAt planningGroups 0 = some group0)
    (hb : vectorAt self.trajectories_ self.best_cost_manager_.getBestCostTrajectoryIndex
      = some best) :
    ∃ res2, self.fillInResult env planningGroups res = some res2 := by
  unfold ItompPlannerNodeState.fillInResult
  simp only [hg, hb]
  exact ⟨_, rfl⟩

/-- A planning call of one trial for a single planning group, step by step. -/
theorem planKinematicPath_one_trial {σ : Type} (env : PlanningRunEnv σ)
    (self s2 s4 s5 : ItompPlannerNodeState) (req : MotionPlanRequest)
    (res res2 : MotionPlanResponse) (jointGoalState : JointState)
    (hpre : preprocessRequest env req = some true)
    (hgroup : req.group_name ≠ "decomposed_body")
    (htrials : env.numTrials = 1)
    (hinit : self.initTrajectory env req.start_state = some s2)
    (hgoal : s2.getGoalState env req = some jointGoalState)
    (hopt : s2.trajectoryOptimization env req.group_name jointGoalState req.path_constraints
      req.trajectory_constraints = some s4)
    (hwrite : s4.writePlanningInfo env self.planning_count_ 0 = some s5)
    (hfill : s5.fillInResult env [req.group_name] res = some res2) :
    self.planKinematicPath env req res
      = some (true, res2, { s5 with planning_count_ := s5.planning_count_ + 1 }) := by
  unfold ItompPlannerNodeState.planKinematicPath
  rw [hpre]
  simp only [htrials]
  have hgroups : getPlanningGroups req.group_name = [req.group_name] := by
    unfold getPlanningGroups
    rw [if_neg hgroup]
  rw [hgroups]
  rw [forLoop_single self.planning_count_ (self.planning_count_ + 1) rfl]
  simp only [hinit, hgoal]
  rw [forLoop_single 0 _ (by simp)]
  simp only [Int.toNat_zero, List.getD_cons_zero, hopt, hwrite, hfill]

/-- The planning call of the example returns, and at its end the optimizer at the
coordinator's best index is `exampleFailedOptimizer`. -/
theorem exampleRun_returns :
    preprocessRequest exampleRunEnv exampleRequest = some true ∧
    ∃ r, exampleNodeState.planKinematicPath exampleRunEnv exampleRequest exampleResponse
        = some r ∧
      vectorAt r.2.2.optimizers_ r.2.2.best_cost_manager_.getBestCostTrajectoryIndex
        = some exampleFailedOptimizer := by
  have hpre : preprocessRequest exampleRunEnv exampleRequest = some true := rfl
  refine ⟨hpre, ?_⟩
  obtain ⟨s2, hs2, hrm, hdur, hdisc, hinfo, hcount⟩ :=
    initTrajectory_same_duration exampleRunEnv exampleNodeState exampleRequest.start_state rfl
  have hgoal : s2.getGoalState exampleRunEnv exampleRequest = some ⟨[], []⟩ := rfl
  obtain ⟨node, hnode, hlen⟩ := fillGroupJointTrajectory_returns examplePlannerEnv
    s2.toItompPlannerNode "arm" ⟨[], []⟩ exampleNoPath ⟨[]⟩
    (by rw [hrm, hdur, hdisc]; exact exampleCtor_returns)
    (fun h => absurd h (by decide))
  obtain ⟨s4, hs4, htraj, hbest, hopts, hinfo4, hcount4⟩ :=
    trajectoryOptimization_returns exampleRunEnv s2 "arm" ⟨[], []⟩ exampleNoPath ⟨[]⟩ node
      hnode
  have hbest4 : s4.best_cost_manager_.getBestCostTrajectoryIndex = 0 := by
    rw [hbest]; rfl
  have hopt4 : vectorAt s4.optimizers_ s4.best_cost_manager_.getBestCostTrajectoryIndex
      = some exampleFailedOptimizer := by
    rw [hbest4, hopts]; rfl
  have hrow4 : vectorAt s4.planning_info_ 0 = some [⟨0, 0, 0, 0⟩] := by
    rw [hinfo4, hinfo]; rfl
  obtain ⟨s5, hs5⟩ := writePlanningInfo_returns exampleRunEnv s4 0 0 _ ⟨0, 0, 0, 0⟩ _
    hrow4 rfl hopt4
  obtain ⟨-, -, -, -, -, -, -, -, -, -, hb5, ho5, hn5, -⟩ :=
    writePlanningInfo_some exampleRunEnv s4 s5 0 0 hs5
  have hlen2 : (node.trajectories_.length : ℤ) = 2 := hlen (by decide)
  have htraj5 : s5.trajectories_ = node.trajectories_ := by
    rw [hn5, htraj]; rfl
  obtain ⟨best, hbest5⟩ : ∃ best,
      vectorAt s5.trajectories_ s5.best_cost_manager_.getBestCostTrajectoryIndex
        = some best := by
    rw [hb5, hbest4, htraj5]
    unfold vectorAt
    rw [if_pos (le_refl _)]
    have h0 : (0 : ℤ).toNat < node.trajectories_.length := by
      have : (0 : ℤ) < (node.trajectories_.length : ℤ) := by rw [hlen2]; decide
      simpa using this
    exact ⟨_, List.getElem?_eq_getElem h0⟩
  obtain ⟨res2, hres2⟩ := fillInResult_returns exampleRunEnv s5 ["arm"] exampleResponse "arm"
    best rfl hbest5
  have hrun := planKinematicPath_one_trial exampleRunEnv exampleNodeState s2 s4 s5
    exampleRequest exampleResponse res2 ⟨[], []⟩ hpre (by decide) rfl hs2 hgoal hs4 hs5 hres2
  refine ⟨_, hrun, ?_⟩
  show vectorAt s5.optimizers_ s5.best_cost_manager_.getBestCostTrajectoryIndex = _
  rw [ho5, hb5]
  exact hopt4

/-- C17. Whenever `planKinematicPath` returns on a request that passes preprocessing, it
returns true and the response carries the error code `SUCCESS` together with the way points of
the candidate trajectory at the coordinator's best index, whether or not the optimizer of that
candidate succeeded: `isSucceed()` only enters the planning info. -/
theorem planKinematicPath_reports_success {σ : Type} (env : PlanningRunEnv σ)
    (self : ItompPlannerNodeState) (req : MotionPlanRequest) (res : MotionPlanResponse)
    (r : Bool × MotionPlanResponse × ItompPlannerNodeState)
    (hpre : preprocessRequest env req = some true)
    (hret : self.planKinematicPath env req res = some r) :
    r.1 = true ∧ r.2.1.error_code_ = SUCCESS ∧
    ∃ best, vectorAt r.2.2.trajectories_ r.2.2.best_cost_manager_.getBestCostTrajectoryIndex
        = some best ∧
      r.2.1.trajectory_ = (List.range best.num_points_.toNat).map (fun (i : ℕ) =>
        (List.range env.getVariableCount.toNat).map (fun (j : ℕ) => best.get (i : ℤ) (j : ℤ)))
      :=
  planKinematicPath_some env self req res r hpre hret

/-- Witness of C17: the planning call of the example, which returns. -/
theorem planKinematicPath_reports_success_witness :
    ∃ r, exampleNodeState.planKinematicPath exampleRunEnv exampleRequest exampleResponse
        = some r ∧
      r.1 = true ∧ r.2.1.error_code_ = SUCCESS := by
  obtain ⟨hpre, r, hr, -⟩ := exampleRun_returns
  have h := planKinematicPath_reports_success exampleRunEnv exampleNodeState exampleRequest
    exampleResponse r hpre hr
  exact ⟨r, hr, h.1, h.2.1⟩

/-- Counterexample to C17 as stated: in the planning call of the example the request passes
preprocessing and the optimizer at the coordinator's best index did not succeed, yet the call
returns true with the error code `SUCCESS`. -/
theorem planKinematicPath_success_after_failed_optimizer :
    preprocessRequest exampleRunEnv exampleRequest = some true ∧
    ∃ r optimizer,
      exampleNodeState.planKinematicPath exampleRunEnv exampleRequest exampleResponse
        = some r ∧
      vectorAt r.2.2.optimizers_ r.2.2.best_cost_manager_.getBestCostTrajectoryIndex
        = some optimizer ∧
      optimizer.isSucceed = false ∧ r.1 = true ∧ r.2.1.error_code_ = SUCCESS := by
  obtain ⟨hpre, r, hr, hopt⟩ := exampleRun_returns
  have h := planKinematicPath_some exampleRunEnv exampleNodeState exampleRequest
    exampleResponse r hpre hr
  exact ⟨hpre, r, exampleFailedOptimizer, hr, hopt, rfl, h.1, h.2.1⟩

/-! ## A phase stride of zero -/

/-- With stride 0 the loop of `init()` never leaves a row that passes its test: it returns for
no amount of fuel. -/
theorem initLoop_zero_stride (e : ℤ) :
    ∀ (fuel : ℕ) (i : ℤ) (pts : List ℤ), i < e + 1 → initLoop fuel i e 0 pts = none := by
  intro fuel
  induction fuel with
  | zero => intro i pts _; rfl
  | succ n ih =>
    intro i pts hi
    unfold initLoop
    rw [if_pos hi, add_zero]
    exact ih i (pts ++ [i]) hi

/-- C27. For a positive discretization and a positive contact phase duration so much smaller
than the discretization that `phase_stride_ = safeToInt(contact_phase_duration /
discretization)` is 0, and a duration of at least two steps (`num_points_ >= 3`), the phase
stride of the full constructor is 0 and the loop of `init()` never ends: the constructor
returns for no amount of fuel. -/
theorem ctor_zero_stride_never_returns (junk : Uninit) (robot_model : ItompRobotModel)
    (duration discretization num_contacts contact_phase_duration : ℚ)
    (hdisc : 0 < discretization) (hcpd : 0 < contact_phase_duration)
    (hsmall : contact_phase_duration / discretization + EPS7 < 1)
    (hn : 2 ≤ safeToInt (duration / discretization)) :
    safeToInt (contact_phase_duration / discretization) = 0 ∧
    ∀ fuel, ItompCIOTrajectory.ctor fuel junk robot_model duration discretization num_contacts
      contact_phase_duration = none := by
  have hq : 0 ≤ contact_phase_duration / discretization := le_of_lt (div_pos hcpd hdisc)
  have hs : safeToInt (contact_phase_duration / discretization) = 0 :=
    safeToInt_eq_of_bounds _ 0 hq
      (by unfold EPS7; push_cast; linarith [show (0 : ℚ) ≤ 1 / 10000000 by norm_num])
      (by push_cast; linarith)
  refine ⟨hs, ?_⟩
  intro fuel
  unfold ItompCIOTrajectory.ctor ItompCIOTrajectory.init
  simp only [hs]
  rw [initLoop_zero_stride _ fuel 1 [0] (by omega)]

/-- The failing input of C27: duration 0.4, discretization 0.1 and contact phase duration 0.05
(all positive) give the phase stride 0, and the constructor returns for no amount of fuel. -/
theorem ctor_zero_stride_never_returns_witness :
    (0 : ℚ) < 2 / 5 ∧ (0 : ℚ) < 1 / 10 ∧ (0 : ℚ) < 1 / 20 ∧
    safeToInt ((1 / 20 : ℚ) / (1 / 10)) = 0 ∧
    ∀ fuel, ItompCIOTrajectory.ctor fuel exampleJunk exampleRobot (2 / 5) (1 / 10) 1 (1 / 20)
      = none := by
  have h := ctor_zero_stride_never_returns exampleJunk exampleRobot (2 / 5) (1 / 10) 1 (1 / 20)
    (by norm_num) (by norm_num) (by unfold EPS7; norm_num)
    (by rw [safeToInt_eq_of_natCast _ 4 (by norm_num)]; decide)
  exact ⟨by norm_num, by norm_num, by norm_num, h.1, h.2⟩

/-! ## The candidates of a population -/

/-- The candidates that `fillGroupJointTrajectory` leaves in `trajectories_`: the entry `i` is
what the candidate loop body returns for `i` on the template with the goal row set. -/
theorem fillGroupJointTrajectory_entries {σ : Type} (env : PlannerEnv σ)
    (self : ItompPlannerNode) (groupName : String) (jointGoalState : JointState)
    (pc : Constraints) (tc : TrajectoryConstraints)
    (hctor : ∃ t0, ItompCIOTrajectory.ctor env.fuel env.junk self.robot_model_
      self.trajectory_.duration_ self.trajectory_.discretization_
      (env.params.numContacts : ℚ) env.params.phaseDuration = some t0)
    (hik : env.precomputation.constraints = [] → pc.position_constraints ≠ [] →
      ∀ ks pose, ∃ ks2, ikRetry env.kin groupName pose env.fuel ks = some ks2) :
    ∃ node2, self.fillGroupJointTrajectory env groupName jointGoalState pc tc = some node2 ∧
      node2.trajectory_ = self.setGoalPoint (env.getPlanningGroup groupName) jointGoalState ∧
      ∀ i, 0 ≤ i → i < env.params.numTrajectories →
        ∃ c, self.seedCandidate env node2.trajectory_ groupName pc i = some c ∧
          node2.trajectories_[i.toNat]? = some c.2 := by
  have hctor2 : ∃ t0, ItompCIOTrajectory.ctor env.fuel env.junk self.robot_model_
      (self.setGoalPoint (env.getPlanningGroup groupName) jointGoalState).duration_
      (self.setGoalPoint (env.getPlanningGroup groupName) jointGoalState).discretization_
      (env.params.numContacts : ℚ) env.params.phaseDuration = some t0 := hctor
  generalize htpl : self.setGoalPoint (env.getPlanningGroup groupName) jointGoalState
    = template at hctor2
  have hcand := fun i => seedCandidate_spec env self template groupName pc i hctor2 hik
  have main : ∃ ts, forLoop 0 env.params.numTrajectories
        (fun i (st : Option (List ItompCIOTrajectory)) =>
          match st with
          | none => none
          | some ts =>
            match self.seedCandidate env template groupName pc i with
            | none => none
            | some c => some (ts ++ [c.2])) (some []) = some ts ∧
      ∀ i, 0 ≤ i → i < env.params.numTrajectories →
        ∃ c, self.seedCandidate env template groupName pc i = some c ∧
          ts[i.toNat]? = some c.2 := by
    by_cases hN : 0 ≤ env.params.numTrajectories
    · have key := forLoop_induction
        (fun k (st : Option (List ItompCIOTrajectory)) => ∃ ts, st = some ts ∧
          (ts.length : ℤ) = k ∧
          ∀ i, 0 ≤ i → i < k →
            ∃ c, self.seedCandidate env template groupName pc i = some c ∧
              ts[i.toNat]? = some c.2)
        0 env.params.numTrajectories
        (fun i (st : Option (List ItompCIOTrajectory)) =>
          match st with
          | none => none
          | some ts =>
            match self.seedCandidate env template groupName pc i with
            | none => none
            | some c => some (ts ++ [c.2])) (some []) hN
        ⟨[], rfl, rfl, fun i h0 h1 => by omega⟩
        (by
          rintro k st hk0 hk1 ⟨ts, rfl, hlen, hall⟩
          obtain ⟨c, hc, -⟩ := hcand k
          refine ⟨ts ++ [c.2], by simp only [hc], ?_, ?_⟩
          · rw [List.length_append]
            simp only [List.length_singleton]
            push_cast
            omega
          · intro i h0 h1
            by_cases hik2 : i = k
            · subst hik2
              refine ⟨c, hc, ?_⟩
              have : i.toNat = ts.length := by omega
              rw [this]
              simp
            · obtain ⟨c2, hc2, hget⟩ := hall i h0 (by omega)
              refine ⟨c2, hc2, ?_⟩
              rw [List.getElem?_append_left (by omega)]
              exact hget)
      obtain ⟨ts, hts, -, hall⟩ := key
      exact ⟨ts, hts, hall⟩
    · rw [forLoop_of_le _ _ (by omega)]
      exact ⟨[], rfl, fun i h0 h1 => by omega⟩
  obtain ⟨ts, hts, hall⟩ := main
  unfold ItompPlannerNode.fillGroupJointTrajectory
  simp only [htpl, hts]
  exact ⟨_, rfl, rfl, hall⟩

/-- C30. Seeding does not depend on the candidate index when there are no waypoints: when the
precomputed waypoint constraint list is empty and the path constraints contain no position
constraint, `fillGroupJointTrajectory` returns (as soon as the construction of a fresh
trajectory does), and every candidate `trajectories_[i]`, `i < populationSize`, is the template
trajectory with the same free-end min-jerk fill; so the position and the contact matrices of
any two candidates are equal. -/
theorem seeding_independent_of_candidate {σ : Type} (env : PlannerEnv σ)
    (self : ItompPlannerNode) (groupName : String) (jointGoalState : JointState)
    (pc : Constraints) (tc : TrajectoryConstraints)
    (hpre : env.precomputation.constraints = []) (hpc : pc.position_constraints = [])
    (hctor : ∃ t0, ItompCIOTrajectory.ctor env.fuel env.junk self.robot_model_
      self.trajectory_.duration_ self.trajectory_.discretization_
      (env.params.numContacts : ℚ) env.params.phaseDuration = some t0) :
    ∃ node2, self.fillGroupJointTrajectory env groupName jointGoalState pc tc = some node2 ∧
      (∀ i, 0 ≤ i → i < env.params.numTrajectories →
        node2.trajectories_[i.toNat]? = some (node2.trajectory_.fillInMinJerk env.seed
          (groupJointsKDLIndices (env.getPlanningGroup groupName))
          self.start_point_velocities_ self.start_point_accelerations_)) ∧
      ∀ i j, 0 ≤ i → i < env.params.numTrajectories → 0 ≤ j →
        j < env.params.numTrajectories →
        ∃ ti tj, node2.trajectories_[i.toNat]? = some ti ∧
          node2.trajectories_[j.toNat]? = some tj ∧
          ti.trajectory_ = tj.trajectory_ ∧
          ti.contact_trajectory_ = tj.contact_trajectory_ := by
  obtain ⟨node2, hnode, -, hall⟩ := fillGroupJointTrajectory_entries env self groupName
    jointGoalState pc tc hctor (fun _ h => absurd hpc h)
  have hentry : ∀ i, 0 ≤ i → i < env.params.numTrajectories →
      node2.trajectories_[i.toNat]? = some (node2.trajectory_.fillInMinJerk env.seed
        (groupJointsKDLIndices (env.getPlanningGroup groupName))
        self.start_point_velocities_ self.start_point_accelerations_) := by
    intro i h0 h1
    obtain ⟨c, hc, hget⟩ := hall i h0 h1
    have hctor3 : ∃ t0, ItompCIOTrajectory.ctor env.fuel env.junk self.robot_model_
        node2.trajectory_.duration_ node2.trajectory_.discretization_
        (env.params.numContacts : ℚ) env.params.phaseDuration = some t0 := by
      obtain ⟨c0, hc0⟩ : ∃ c0, self.seedCandidate env node2.trajectory_ groupName pc i
          = some c0 := ⟨c, hc⟩
      unfold ItompPlannerNode.seedCandidate at hc0
      simp only [] at hc0
      split at hc0
      · cases hc0
      · rename_i t0 ht0
        exact ⟨t0, ht0⟩
    obtain ⟨c2, hc2, hsel⟩ := seedCandidate_spec env self node2.trajectory_ groupName pc i
      hctor3 (fun _ h => absurd hpc h)
    rw [hc] at hc2
    cases hc2
    rcases hsel with ⟨h, -⟩ | ⟨-, -, -, h⟩ | ⟨-, h, -⟩
    · exact absurd hpre h
    · rw [hget, h]
    · exact absurd hpc h
  refine ⟨node2, hnode, hentry, ?_⟩
  intro i j hi0 hi1 hj0 hj1
  exact ⟨_, _, hentry i hi0 hi1, hentry j hj0 hj1, rfl, rfl⟩

/-- Witness of C30: the example planner with a population of 2, no precomputed waypoint and no
path constraint. -/
theorem seeding_independent_of_candidate_witness :
    exampleFreeEnv.precomputation.constraints = [] ∧
    exampleNoPath.position_constraints = [] ∧
    ∃ node2, exampleNode.fillGroupJointTrajectory exampleFreeEnv "arm" ⟨[], []⟩ exampleNoPath
        ⟨[]⟩ = some node2 ∧
      ∃ t0 t1, node2.trajectories_[0]? = some t0 ∧ node2.trajectories_[1]? = some t1 ∧
        t0.trajectory_ = t1.trajectory_ ∧ t0.contact_trajectory_ = t1.contact_trajectory_ := by
  obtain ⟨node2, hnode, -, h⟩ := seeding_independent_of_candidate exampleFreeEnv exampleNode
    "arm" ⟨[], []⟩ exampleNoPath ⟨[]⟩ rfl rfl exampleCtor_returns
  obtain ⟨t0, t1, h0, h1, h2, h3⟩ := h 0 1 (by decide) (by decide) (by decide) (by decide)
  exact ⟨rfl, rfl, node2, hnode, t0, t1, h0, h1, h2, h3⟩

/-! ## Start velocity and acceleration in free-end seeding -/

/-- A loop that writes one entry of the column `j` per row. -/
theorem forLoop_set_col (lo hi j : ℤ) (f : ℤ → ℚ) (m : MatrixXd) (r c : ℤ) :
    (forLoop lo hi (fun i m => m.set i j (f i)) m).coeff r c =
      if lo ≤ r ∧ r < hi ∧ c = j then f r else m.coeff r c := by
  by_cases hle : lo ≤ hi
  · have key := forLoop_induction
      (fun (k : ℤ) (m2 : MatrixXd) => ∀ r c,
        m2.coeff r c = if lo ≤ r ∧ r < k ∧ c = j then f r else m.coeff r c)
      lo hi (fun i m => m.set i j (f i)) m hle
      (by
        intro r c
        rw [if_neg]
        intro h
        omega)
      (by
        intro i st hi0 hi1 hP r c
        show (st.set i j (f i)).coeff r c = _
        rw [MatrixXd.set_coeff, hP]
        by_cases h1 : r = i ∧ c = j
        · obtain ⟨rfl, rfl⟩ := h1
          rw [if_pos ⟨rfl, rfl⟩, if_pos ⟨hi0, by omega, rfl⟩]
        · rw [if_neg h1]
          by_cases h2 : lo ≤ r ∧ r < i ∧ c = j
          · rw [if_pos h2, if_pos ⟨h2.1, by omega, h2.2.2⟩]
          · rw [if_neg h2, if_neg]
            rintro ⟨h3, h4, h5⟩
            by_cases h6 : r = i
            · exact h1 ⟨h6, h5⟩
            · exact h2 ⟨h3, by omega, h5⟩)
    exact key r c
  · rw [forLoop_of_le lo hi (by omega), if_neg]
    intro h
    omega

/-- The entries after the body of the joint loop for the column `j` and the counter `g`: a
joint without a constraint in the first waypoint of the block gets the quintic from the entry
of row 0 to the entry of row `num_points_` in the rows `1 .. num_points_ - 2`; a joint with a
constraint gets the spline in the rows `0 .. num_points_ - 2`; no other column is written. -/
theorem seedWaypointJoint_coeff (ecl : EclEnv) (self : ItompCIOTrajectory)
    (pg : ItompPlanningGroup) (tc : TrajectoryConstraints) (b e j g : ℤ) (m : MatrixXd)
    (r c : ℤ) :
    (self.seedWaypointJoint ecl pg tc b e j g m).coeff r c =
      if (findJointConstraint tc b (pg.joint g).joint_name_).1 = false then
        (if 1 ≤ r ∧ r < self.num_points_ - 1 ∧ c = j then
          ecl.quinticInterpolation 0 (m.coeff 0 j) 0 0 self.duration_
            (m.coeff self.num_points_ j) 0 0 ((r : ℚ) * self.discretization_)
        else m.coeff r c)
      else
        (if 0 ≤ r ∧ r < self.num_points_ - 1 ∧ c = j then
          ecl.cubicNatural
            ((List.range (e - b).toNat).map (fun (k : ℕ) => accDist ecl tc b k))
            ((List.range (e - b).toNat).map (fun (k : ℕ) =>
              tc.position ((k : ℤ) + b) (findJointConstraint tc b (pg.joint g).joint_name_).2))
            ((r : ℚ) / ((self.num_points_ - 1 : ℤ) : ℚ) * accDist ecl tc b (e - b - 1).toNat)
        else m.coeff r c) := by
  unfold ItompCIOTrajectory.seedWaypointJoint
  simp only []
  by_cases h : (findJointConstraint tc b (pg.joint g).joint_name_).1 = false
  · rw [if_pos h, if_pos (by simp [h])]
    exact forLoop_set_col 1 (self.num_points_ - 1) j _ m r c
  · rw [if_neg h, if_neg (by simpa using h)]
    exact forLoop_set_col 0 (self.num_points_ - 1) j
      (fun i => ecl.cubicNatural
        ((List.range (e - b).toNat).map (fun (k : ℕ) => accDist ecl tc b k))
        ((List.range (e - b).toNat).map (fun (k : ℕ) =>
          tc.position ((k : ℤ) + b) (findJointConstraint tc b (pg.joint g).joint_name_).2))
        ((i : ℚ) / ((self.num_points_ - 1 : ℤ) : ℚ) * accDist ecl tc b (e - b - 1).toNat))
      m r c

/-- What the body of the joint loop leaves in its column depends on that column only. -/
theorem seedWaypointJoint_column_congr (ecl : EclEnv) (self : ItompCIOTrajectory)
    (pg : ItompPlanningGroup) (tc : TrajectoryConstraints) (b e j g : ℤ) (m m2 : MatrixXd)
    (h : ∀ r, m.coeff r j = m2.coeff r j) (r : ℤ) :
    (self.seedWaypointJoint ecl pg tc b e j g m).coeff r j
      = (self.seedWaypointJoint ecl pg tc b e j g m2).coeff r j := by
  rw [seedWaypointJoint_coeff, seedWaypointJoint_coeff, h 0, h self.num_points_, h r]

/-- The joint loop of waypoint seeding over a list of distinct columns, started with the
counter `c0` on the matrix `m`: the column `l[k]` ends as the loop body for that column and the
counter `c0 + k` leaves it on `m`, and a column outside the list is not touched. -/
theorem waypointJointLoop_coeff (ecl : EclEnv) (self : ItompCIOTrajectory)
    (pg : ItompPlanningGroup) (tc : TrajectoryConstraints) (b e : ℤ) :
    ∀ (l : List ℤ) (c0 : ℤ) (m : MatrixXd), l.Nodup →
      (∀ r c, c ∉ l →
        (l.foldl (fun (st : ℤ × MatrixXd) j =>
          (st.1 + 1, self.seedWaypointJoint ecl pg tc b e j st.1 st.2)) (c0, m)).2.coeff r c
          = m.coeff r c) ∧
      (∀ (k : ℕ) (hk : k < l.length) (r : ℤ),
        (l.foldl (fun (st : ℤ × MatrixXd) j =>
          (st.1 + 1, self.seedWaypointJoint ecl pg tc b e j st.1 st.2)) (c0, m)).2.coeff r
            (l.get ⟨k, hk⟩)
          = (self.seedWaypointJoint ecl pg tc b e (l.get ⟨k, hk⟩) (c0 + k) m).coeff r
              (l.get ⟨k, hk⟩)) := by
  intro l
  induction l with
  | nil =>
    intro c0 m _
    exact ⟨fun r c _ => rfl, fun k hk => absurd hk (by simp)⟩
  | cons a t ih =>
    intro c0 m hnd
    obtain ⟨hat, hnt⟩ := List.nodup_cons.1 hnd
    obtain ⟨ih1, ih2⟩ := ih (c0 + 1) (self.seedWaypointJoint ecl pg tc b e a c0 m) hnt
    simp only [List.foldl_cons]
    constructor
    · intro r c hc
      rw [ih1 r c (fun h => hc (List.mem_cons_of_mem a h)), seedWaypointJoint_coeff]
      have hca : c ≠ a := fun h => hc (by rw [h]; exact List.mem_cons_self a t)
      split
      · rw [if_neg (fun h => hca h.2.2)]
      · rw [if_neg (fun h => hca h.2.2)]
    · intro k hk r
      cases k with
      | zero =>
        have h0 := ih1 r a hat
        simpa using h0
      | succ k2 =>
        have hk2 : k2 < t.length := by simpa using hk
        show _ = (self.seedWaypointJoint ecl pg tc b e (t.get ⟨k2, hk2⟩)
          (c0 + ((k2 + 1 : ℕ) : ℤ)) m).coeff r (t.get ⟨k2, hk2⟩)
        have hne : t.get ⟨k2, hk2⟩ ≠ a := fun h => hat (h ▸ List.get_mem t k2 hk2)
        have hcol : ∀ r2, (self.seedWaypointJoint ecl pg tc b e a c0 m).coeff r2
            (t.get ⟨k2, hk2⟩) = m.coeff r2 (t.get ⟨k2, hk2⟩) := by
          intro r2
          rw [seedWaypointJoint_coeff]
          split
          · rw [if_neg (fun h => hne h.2.2)]
          · rw [if_neg (fun h => hne h.2.2)]
        have e1 : c0 + 1 + (k2 : ℤ) = c0 + ((k2 + 1 : ℕ) : ℤ) := by push_cast; ring
        have := ih2 k2 hk2 r
        rw [e1] at this
        rw [show (a :: t).get ⟨k2 + 1, hk⟩ = t.get ⟨k2, hk2⟩ from rfl, this]
        exact seedWaypointJoint_column_congr ecl self pg tc b e _ _ _ _ hcol r

/-- The column `l[k]` after waypoint seeding: what the body of the joint loop leaves for that
column and the counter `k`, that is for the joint name `group_joints_[k].joint_name_`. -/
theorem fillInMinJerkConstraints_get (ecl : EclEnv) (self : ItompCIOTrajectory)
    (trajectory_index : ℤ) (l : List ℤ) (pg : ItompPlanningGroup) (tc : TrajectoryConstraints)
    (vel acc : ℤ → ℚ) (hnd : l.Nodup) (k : ℕ) (hk : k < l.length) (r : ℤ) :
    (self.fillInMinJerkConstraints ecl trajectory_index l pg tc vel acc).get r (l.get ⟨k, hk⟩)
      = (self.seedWaypointJoint ecl pg tc (constraintBlock tc trajectory_index).1
          (constraintBlock tc trajectory_index).2 (l.get ⟨k, hk⟩) (k : ℤ)
          self.trajectory_).coeff r (l.get ⟨k, hk⟩) := by
  have h := (waypointJointLoop_coeff ecl self pg tc (constraintBlock tc trajectory_index).1
    (constraintBlock tc trajectory_index).2 l 0 self.trajectory_ hnd).2 k hk r
  rw [zero_add] at h
  exact h

/-- C25. In waypoint seeding, for a joint of the group that has no entry in the first
constraint set of the block (the joint of the counter `k`, whose column is `l[k]`), the
interior entries `1 .. num_points_ - 2` of its column receive the quintic fitted between the
value of row 0 and the value read at row `num_points_`; that row index is not a row of the
position matrix, whose rows are `0 .. num_points_ - 1`. -/
theorem waypoint_unconstrained_end_value (ecl : EclEnv) (self : ItompCIOTrajectory)
    (trajectory_index : ℤ) (l : List ℤ) (pg : ItompPlanningGroup) (tc : TrajectoryConstraints)
    (vel acc : ℤ → ℚ) (hnd : l.Nodup) (k : ℕ) (hk : k < l.length)
    (hno : (findJointConstraint tc (constraintBlock tc trajectory_index).1
      (pg.joint (k : ℤ)).joint_name_).1 = false)
    (hrows : self.trajectory_.rows = self.num_points_) :
    (∀ r, 1 ≤ r → r < self.num_points_ - 1 →
      (self.fillInMinJerkConstraints ecl trajectory_index l pg tc vel acc).get r
          (l.get ⟨k, hk⟩)
        = ecl.quinticInterpolation 0 (self.get 0 (l.get ⟨k, hk⟩)) 0 0 self.duration_
            (self.trajectory_.coeff self.num_points_ (l.get ⟨k, hk⟩)) 0 0
            ((r : ℚ) * self.discretization_)) ∧
    ¬ self.trajectory_.inRange self.num_points_ (l.get ⟨k, hk⟩) := by
  constructor
  · intro r hr0 hr1
    rw [fillInMinJerkConstraints_get ecl self trajectory_index l pg tc vel acc hnd k hk r,
      seedWaypointJoint_coeff, if_pos hno, if_pos ⟨hr0, hr1, rfl⟩]
    rfl
  · unfold MatrixXd.inRange
    rw [hrows]
    intro h
    omega

/-- The failing input of C25: `exampleYaw` (5 rows, the last row holds 1 in column 0), the
group `exampleGroup` and the waypoints `exampleWaypoints`, which constrain `arm_1` only. For
the joint `base_x` (counter 0, column 0) the end value is read at row 5, where the coefficient
function is 0, not in the last row 4. -/
theorem waypoint_unconstrained_end_value_witness :
    exampleYaw.get (exampleYaw.num_points_ - 1) 0 = 1 ∧
    exampleYaw.trajectory_.coeff exampleYaw.num_points_ 0 = 0 ∧
    ¬ exampleYaw.trajectory_.inRange exampleYaw.num_points_ 0 ∧
    (exampleYaw.fillInMinJerkConstraints exampleEcl 0 [0, 6] exampleGroup exampleWaypoints
        (fun _ => 0) (fun _ => 0)).get 1 0
      = exampleEcl.quinticInterpolation 0 (exampleYaw.get 0 0) 0 0 exampleYaw.duration_
          (exampleYaw.trajectory_.coeff exampleYaw.num_points_ 0) 0 0
          (((1 : ℤ) : ℚ) * exampleYaw.discretization_) := by
  have h := waypoint_unconstrained_end_value exampleEcl exampleYaw 0 [0, 6] exampleGroup
    exampleWaypoints (fun _ => 0) (fun _ => 0) (by decide) 0 (by decide) (by decide) rfl
  refine ⟨?_, ?_, h.2, h.1 1 (by decide) (by decide)⟩
  · simp [exampleYaw, ItompCIOTrajectory.get]
  · simp [exampleYaw]

/-! ## The pairing of columns and joint names in waypoint seeding -/

theorem setInsert_of_lt (x : ℤ) : ∀ (l : List ℤ), (∀ y ∈ l, y < x) → setInsert x l = l ++ [x]
  | [], _ => rfl
  | y :: t, h => by
    have hy : y < x := h y (List.mem_cons_self y t)
    unfold setInsert
    rw [if_neg (by omega), if_neg (by omega),
      setInsert_of_lt x t (fun z hz => h z (List.mem_cons_of_mem y hz))]
    rfl

/-- For a planning group whose joints are listed in strictly increasing order of their
full-body index, the set of the full-body indices is iterated in the order of the joint
list. -/
theorem groupJointsKDLIndices_sorted (pg : ItompPlanningGroup)
    (hs : (pg.group_joints_.map (fun jt => jt.kdl_joint_index_)).Pairwise (fun a b => a < b)) :
    groupJointsKDLIndices pg = pg.group_joints_.map (fun jt => jt.kdl_joint_index_) := by
  unfold groupJointsKDLIndices ItompPlanningGroup.num_joints_
  have key := forLoop_induction
    (fun (k : ℤ) (s : List ℤ) =>
      s = (pg.group_joints_.map (fun jt => jt.kdl_joint_index_)).take k.toNat)
    0 (pg.group_joints_.length : ℤ)
    (fun i s => setInsert (pg.joint i).kdl_joint_index_ s) [] (by omega)
    (by simp)
    (by
      intro i st hi0 hi1 hP
      have hlen : i.toNat < pg.group_joints_.length := by omega
      have hlen2 : i.toNat < (pg.group_joints_.map (fun jt => jt.kdl_joint_index_)).length := by
        simpa using hlen
      have hjoint : (pg.joint i).kdl_joint_index_
          = (pg.group_joints_.map (fun jt => jt.kdl_joint_index_))[i.toNat] := by
        unfold ItompPlanningGroup.joint
        rw [List.getD_eq_getElem _ _ hlen]
        simp
      have hnext : (i + 1).toNat = i.toNat + 1 := by omega
      show setInsert (pg.joint i).kdl_joint_index_ st = _
      rw [hP, hnext, List.take_succ, List.getElem?_eq_getElem hlen2, hjoint]
      apply setInsert_of_lt
      intro y hy
      obtain ⟨n, hn, rfl⟩ := List.getElem_of_mem hy
      have hn2 : n < i.toNat := by
        have := hn
        rw [List.length_take] at this
        omega
      rw [List.getElem_take]
      exact List.pairwise_iff_getElem.1 hs n i.toNat (by omega) hlen2 hn2)
  rw [key]
  simp

/-- C29. Joint pairing in waypoint seeding, for every planning group whose joint list is in
strictly increasing order of `kdl_joint_index_`: the sorted set of the full-body indices is
iterated in the order of the joint list, so at the counter `group_joint_index = k` the current
column is the full-body index of `group_joints_[k]`, and that column is filled by the loop
body run with the joint name `group_joints_[k].joint_name_` of the same joint. -/
theorem waypoint_joint_pairing (ecl : EclEnv) (self : ItompCIOTrajectory)
    (trajectory_index : ℤ) (pg : ItompPlanningGroup) (tc : TrajectoryConstraints)
    (vel acc : ℤ → ℚ)
    (hs : (pg.group_joints_.map (fun jt => jt.kdl_joint_index_)).Pairwise (fun a b => a < b)) :
    groupJointsKDLIndices pg = pg.group_joints_.map (fun jt => jt.kdl_joint_index_) ∧
    ∀ (k : ℕ), k < pg.group_joints_.length →
      (groupJointsKDLIndices pg)[k]? = some (pg.joint (k : ℤ)).kdl_joint_index_ ∧
      ∀ r, (self.fillInMinJerkConstraints ecl trajectory_index (groupJointsKDLIndices pg) pg tc
            vel acc).get r (pg.joint (k : ℤ)).kdl_joint_index_
        = (self.seedWaypointJoint ecl pg tc (constraintBlock tc trajectory_index).1
            (constraintBlock tc trajectory_index).2 (pg.joint (k : ℤ)).kdl_joint_index_ (k : ℤ)
            self.trajectory_).coeff r (pg.joint (k : ℤ)).kdl_joint_index_ := by
  have hl := groupJointsKDLIndices_sorted pg hs
  refine ⟨hl, ?_⟩
  intro k hk
  have hnd : (pg.group_joints_.map (fun jt => jt.kdl_joint_index_)).Nodup :=
    List.Pairwise.imp (fun h => ne_of_lt h) hs
  have hk2 : k < (pg.group_joints_.map (fun jt => jt.kdl_joint_index_)).length := by
    simpa using hk
  have hjoint : (pg.group_joints_.map (fun jt => jt.kdl_joint_index_)).get ⟨k, hk2⟩
      = (pg.joint (k : ℤ)).kdl_joint_index_ := by
    unfold ItompPlanningGroup.joint
    rw [Int.toNat_ofNat, List.getD_eq_getElem _ _ hk]
    simp
  rw [hl]
  constructor
  · rw [← hjoint]
    exact List.getElem?_eq_getElem hk2
  · intro r
    have h := fillInMinJerkConstraints_get ecl self trajectory_index _ pg tc vel acc hnd k hk2 r
    rw [hjoint] at h
    exact h

/-- Witness of C29: the group `exampleGroup`, whose joints are listed with the full-body
indices 0 and 6 in this order. -/
theorem waypoint_joint_pairing_witness :
    groupJointsKDLIndices exampleGroup = [0, 6] ∧
    (groupJointsKDLIndices exampleGroup)[1]? =
      some (exampleGroup.joint ((1 : ℕ) : ℤ)).kdl_joint_index_ ∧
    (exampleGroup.joint ((1 : ℕ) : ℤ)).joint_name_ = "arm_1" := by
  have h := waypoint_joint_pairing exampleEcl exampleYaw 0 exampleGroup exampleWaypoints
    (fun _ => 0) (fun _ => 0) (by decide)
  exact ⟨h.1, (h.2 1 (by decide)).1, rfl⟩

/-- Counterexample to C29 as stated: for the group `exampleSwappedGroup`, whose joint list is
arm_1 (full-body index 6), base_x (full-body index 0), the sorted set is iterated as 0, 6; at
the counter 0 the column is 0 while `group_joints_[0]` is arm_1, whose full-body index is 6,
and the column 0 of base_x receives in row 0 the first waypoint value 7 of arm_1. -/
theorem waypoint_joint_pairing_swapped :
    groupJointsKDLIndices exampleSwappedGroup = [0, 6] ∧
    (exampleSwappedGroup.joint 0).joint_name_ = "arm_1" ∧
    (exampleSwappedGroup.joint 0).kdl_joint_index_ = 6 ∧
    exampleYaw.get 0 0 = 0 ∧
    (exampleYaw.fillInMinJerkConstraints exampleEcl 0 (groupJointsKDLIndices exampleSwappedGroup)
      exampleSwappedGroup exampleWaypoints (fun _ => 0) (fun _ => 0)).get 0 0 = 7 := by
  have hl : groupJointsKDLIndices exampleSwappedGroup = [0, 6] := by decide
  refine ⟨hl, rfl, rfl, by simp [exampleYaw, ItompCIOTrajectory.get], ?_⟩
  rw [hl]
  have hb : constraintBlock exampleWaypoints 0 = (0, 2) := by decide
  have h1 : findJointConstraint exampleWaypoints 0 "arm_1" = (true, 0) := by decide
  have j0 : (exampleSwappedGroup.joint ((0 : ℕ) : ℤ)).joint_name_ = "arm_1" := rfl
  have h := fillInMinJerkConstraints_get exampleEcl exampleYaw 0 [0, 6] exampleSwappedGroup
    exampleWaypoints (fun _ => 0) (fun _ => 0) (by decide) 0 (by decide) 0
  rw [show ([0, 6] : List ℤ).get ⟨0, by decide⟩ = 0 from rfl] at h
  rw [h, seedWaypointJoint_coeff, hb, j0, h1]
  simp [exampleYaw, exampleEcl, TrajectoryConstraints.position, exampleWaypoints,
    List.range_succ]

/-! ## The arc-length parameter of waypoint seeding -/

/-- C23. The arc-length parameter on the list `exampleTwoBlocks` for candidate 1, whose block
occupies the constraint indices 2..3 (`traj_constraint_begin = 2`), with a square root that is
exact on squares: `acc_dist[0] = 0` and `acc_dist[1] = 1`, the distance between the waypoints 0
and 1 of the list (the block of candidate 0), where the distance between the waypoints 2 and 3
of the candidate's own block is 3. -/
theorem accDist_ignores_block_offset (ecl : EclEnv)
    (hsqrt : ∀ n : ℕ, ecl.sqrt ((n : ℚ) * (n : ℚ)) = (n : ℚ)) :
    constraintBlock exampleTwoBlocks 1 = (2, 4) ∧
    accDist ecl exampleTwoBlocks 2 0 = 0 ∧
    accDist ecl exampleTwoBlocks 2 1 = 1 ∧
    ecl.sqrt ((exampleTwoBlocks.position (2 + 1) 0 - exampleTwoBlocks.position (2 + 1 - 1) 0)
      * (exampleTwoBlocks.position (2 + 1) 0 - exampleTwoBlocks.position (2 + 1 - 1) 0)) = 3 ∧
    accDist ecl exampleTwoBlocks 2 1 ≠ accDist ecl exampleTwoBlocks 2 0
      + ecl.sqrt ((exampleTwoBlocks.position (2 + 1) 0
          - exampleTwoBlocks.position (2 + 1 - 1) 0)
        * (exampleTwoBlocks.position (2 + 1) 0 - exampleTwoBlocks.position (2 + 1 - 1) 0)) := by
  have hs1 : ecl.sqrt 1 = 1 := by simpa using hsqrt 1
  have hs3 : ecl.sqrt 9 = 3 := by
    have h := hsqrt 3
    norm_num at h
    exact h
  have h0 : accDist ecl exampleTwoBlocks 2 0 = 0 := rfl
  have h1 : accDist ecl exampleTwoBlocks 2 1 = 1 := by
    simp [accDist, forLoop, List.range_succ, exampleTwoBlocks, TrajectoryConstraints.position,
      hs1]
  have h3 : ecl.sqrt ((exampleTwoBlocks.position (2 + 1) 0
        - exampleTwoBlocks.position (2 + 1 - 1) 0)
      * (exampleTwoBlocks.position (2 + 1) 0 - exampleTwoBlocks.position (2 + 1 - 1) 0))
      = 3 := by
    simp [exampleTwoBlocks, TrajectoryConstraints.position]
    norm_num
    exact hs3
  refine ⟨by decide, h0, h1, h3, ?_⟩
  rw [h1, h0, h3]
  norm_num

/-- Witness of the C23 evaluation: the square root of `exampleSqrtEcl` is exact on squares. -/
theorem accDist_ignores_block_offset_witness :
    (∀ n : ℕ, exampleSqrtEcl.sqrt ((n : ℚ) * (n : ℚ)) = (n : ℚ)) ∧
    accDist exampleSqrtEcl exampleTwoBlocks 2 1 = 1 := by
  have hsqrt : ∀ n : ℕ, exampleSqrtEcl.sqrt ((n : ℚ) * (n : ℚ)) = (n : ℚ) := by
    intro n
    show ((Nat.sqrt ((n : ℚ) * (n : ℚ)).num.toNat : ℕ) : ℚ) = (n : ℚ)
    have e : ((n : ℚ) * (n : ℚ)) = ((n * n : ℕ) : ℚ) := by push_cast; ring
    rw [e, Rat.num_natCast, Int.toNat_natCast, Nat.sqrt_eq]
  exact ⟨hsqrt, (accDist_ignores_block_offset exampleSqrtEcl hsqrt).2.2.1⟩

/-! ## The bounds of the planning info -/

theorem vectorAt_none_of_length_le {α : Type} (v : List α) (i : ℤ)
    (h : (v.length : ℤ) ≤ i) : vectorAt v i = none := by
  unfold vectorAt
  split
  · exact List.getElem?_eq_none (by omega)
  · rfl

theorem vectorAt_mem {α : Type} (v : List α) (i : ℤ) (x : α) (h : vectorAt v i = some x) :
    x ∈ v := by
  obtain ⟨-, -, h3⟩ := vectorAt_some v i x h
  obtain ⟨hlt, hx⟩ := List.getElem?_eq_some_iff.1 h3
  exact List.mem_iff_getElem.2 ⟨_, hlt, hx⟩

theorem mem_vectorResize {α : Type} (v : List α) (n : ℤ) (d x : α)
    (h : x ∈ vectorResize v n d) : x ∈ v ∨ x = d := by
  unfold vectorResize at h
  rcases List.mem_append.1 h with h | h
  · exact Or.inl (List.mem_of_mem_take h)
  · exact Or.inr (List.eq_of_mem_replicate h)

theorem vectorResize_nil_length {α : Type} (n : ℕ) (d : α) :
    (vectorResize [] (n : ℤ) d).length = n := by
  simp [vectorResize]

/-- The call `writePlanningInfo(trials, component)` addresses an entry that does not exist
when no row of `planning_info_` is longer than `component`: the rows that its resize adds are
as long as `planning_info_[0]`. -/
theorem writePlanningInfo_out_of_row {σ : Type} (env : PlanningRunEnv σ)
    (self : ItompPlannerNodeState) (trials component : ℤ)
    (hrows : ∀ row ∈ self.planning_info_, (row.length : ℤ) ≤ component) :
    self.writePlanningInfo env trials component = none := by
  unfold ItompPlannerNodeState.writePlanningInfo
  simp only []
  split
  · rfl
  · rename_i planning_info hres
    have hrows2 : ∀ row ∈ planning_info, (row.length : ℤ) ≤ component := by
      split at hres
      · split at hres
        · cases hres
        · rename_i row0 hrow0
          simp only [Option.some.injEq] at hres
          subst hres
          intro row hrow
          rcases mem_vectorResize _ _ _ _ hrow with h | h
          · exact hrows row h
          · rw [h, vectorResize_nil_length]
            exact hrows row0 (vectorAt_mem _ _ _ hrow0)
      · simp only [Option.some.injEq] at hres
        subst hres
        exact hrows
    split
    · rfl
    · rename_i row hrow
      have hnone : vectorAt row component = none :=
        vectorAt_none_of_length_le row component (hrows2 row (vectorAt_mem _ _ _ hrow))
      simp only [hnone]

/-- The rows of `planning_info_` after a call of `writePlanningInfo` that returns are as long
as rows it had before. -/
theorem writePlanningInfo_row_lengths {σ : Type} (env : PlanningRunEnv σ)
    (self s2 : ItompPlannerNodeState) (trials component : ℤ) (n : ℕ)
    (h : self.writePlanningInfo env trials component = some s2)
    (hrows : ∀ row ∈ self.planning_info_, row.length = n) :
    ∀ row ∈ s2.planning_info_, row.length = n := by
  unfold ItompPlannerNodeState.writePlanningInfo at h
  simp only [] at h
  split at h
  · cases h
  · rename_i planning_info hres
    have hrows2 : ∀ row ∈ planning_info, row.length = n := by
      split at hres
      · split at hres
        · cases hres
        · rename_i row0 hrow0
          simp only [Option.some.injEq] at hres
          subst hres
          intro row hrow
          rcases mem_vectorResize _ _ _ _ hrow with h | h
          · exact hrows row h
          · rw [h, vectorResize_nil_length]
            exact hrows row0 (vectorAt_mem _ _ _ hrow0)
      · simp only [Option.some.injEq] at hres
        subst hres
        exact hrows
    split at h
    · cases h
    · rename_i row hrow
      split at h
      · simp only [Option.some.injEq] at h
        subst h
        intro row2 hrow2
        rcases List.mem_or_eq_of_mem_set hrow2 with h | h
        · exact hrows2 row2 h
        · rw [h, List.length_set]
          exact hrows2 row (vectorAt_mem _ _ _ hrow)
      · cases h

theorem forLoop_first {σ : Type} (lo hi : ℤ) (h : lo < hi) (body : ℤ → σ → σ) (s : σ) :
    forLoop lo hi body s = forLoop (lo + 1) hi body (body lo s) := by
  unfold forLoop
  have e : (hi - lo).toNat = (hi - (lo + 1)).toNat + 1 := by omega
  rw [e, List.range_succ_eq_map, List.foldl_cons, List.foldl_map]
  simp only [Nat.cast_zero, add_zero, Nat.cast_succ]
  congr 1
  funext st k
  congr 1
  ring

theorem forLoop_fixed {σ : Type} (lo hi : ℤ) (body : ℤ → σ → σ) (z : σ)
    (h : ∀ i, body i z = z) : forLoop lo hi body z = z :=
  forLoop_invariant (fun st => st = z) lo hi body z rfl
    (fun i st _ _ hst => by rw [hst]; exact h i)

theorem initTrajectory_planning_info {σ : Type} (env : PlanningRunEnv σ)
    (self s2 : ItompPlannerNodeState) (joint_state : JointState)
    (h : self.initTrajectory env joint_state = some s2) :
    s2.planning_info_ = self.planning_info_ := by
  unfold ItompPlannerNodeState.initTrajectory at h
  simp only [] at h
  split at h
  · cases h
  · simp only [Option.some.injEq] at h
    subst h
    rfl

theorem trajectoryOptimization_planning_info {σ : Type} (env : PlanningRunEnv σ)
    (self s4 : ItompPlannerNodeState) (groupName : String) (jointGoalState : JointState)
    (pc : Constraints) (tc : TrajectoryConstraints)
    (h : self.trajectoryOptimization env groupName jointGoalState pc tc = some s4) :
    s4.planning_info_ = self.planning_info_ := by
  unfold ItompPlannerNodeState.trajectoryOptimization at h
  split at h
  · cases h
  · simp only [Option.some.injEq] at h
    subst h
    rfl

theorem forLoop_option_some {σ : Type} (lo hi : ℤ) (body : ℤ → Option σ → Option σ)
    (hnone : ∀ i, body i none = none) (st : Option σ) (s : σ)
    (h : forLoop lo hi body st = some s) : ∃ s0, st = some s0 := by
  cases st with
  | none =>
    rw [forLoop_fixed lo hi body none hnone] at h
    cases h
  | some s0 => exact ⟨s0, rfl⟩

/-- C28. For a request with the group name "decomposed_body" that passes preprocessing, at
least one trial, and a planner node whose `planning_info_` has rows of length 1 (as
`resetPlanningInfo(1, 1)` in `init()` leaves it), `planKinematicPath` does not return: in the
first trial, after the component 0 has been written, the call `writePlanningInfo(c, 1)` for
the second of the four components addresses `planning_info_[c][1]`, which is not an entry of
its row. -/
theorem planKinematicPath_decomposed_body {σ : Type} (env : PlanningRunEnv σ)
    (self : ItompPlannerNodeState) (req : MotionPlanRequest) (res : MotionPlanResponse)
    (hpre : preprocessRequest env req = some true)
    (hg : req.group_name = "decomposed_body") (ht : 1 ≤ env.numTrials)
    (hrows : ∀ row ∈ self.planning_info_, row.length = 1) :
    getPlanningGroups req.group_name = ["lower_body", "torso", "left_arm", "right_arm"] ∧
    self.planKinematicPath env req res = none := by
  have hgroups : getPlanningGroups req.group_name
      = ["lower_body", "torso", "left_arm", "right_arm"] := by
    unfold getPlanningGroups
    rw [if_pos hg]
  refine ⟨hgroups, ?_⟩
  unfold ItompPlannerNodeState.planKinematicPath
  rw [hpre]
  simp only []
  rw [hgroups]
  split
  · rfl
  · rename_i s5 hloop
    exfalso
    rw [forLoop_first _ _ (by omega)] at hloop
    obtain ⟨s0, hs0⟩ := forLoop_option_some _ _ _ (fun _ => rfl) _ _ hloop
    simp only [] at hs0
    split at hs0
    · cases hs0
    · rename_i s2 h2
      split at hs0
      · cases hs0
      · rename_i gs hgs
        rw [forLoop_first 0 _ (by decide), forLoop_first (0 + 1) _ (by decide)] at hs0
        obtain ⟨s1, hs1⟩ := forLoop_option_some _ _ _ (fun _ => rfl) _ _ hs0
        simp only [] at hs1
        split at hs1
        · cases hs1
        · rename_i s3 h3
          split at h3
          · cases h3
          · rename_i s4 h4
            have hr2 := initTrajectory_planning_info env self s2 _ h2
            have hr4 := trajectoryOptimization_planning_info env s2 s4 _ gs _ _ h4
            have hr3 := writePlanningInfo_row_lengths env s4 s3 _ _ 1 h3
              (by rw [hr4, hr2]; exact hrows)
            split at hs1
            · cases hs1
            · rename_i s6 h6
              have hr6 := trajectoryOptimization_planning_info env s3 s6 _ gs _ _ h6
              rw [writePlanningInfo_out_of_row env s6 _ (0 + 1)
                (by
                  intro row hrow
                  rw [hr6] at hrow
                  have := hr3 row hrow
                  omega)] at hs1
              cases hs1

/-- One optimization of a component returns when the construction of a fresh trajectory does
and, in the Cartesian case, the IK retry loops do; it keeps the robot model, the geometry of
the template and `planning_info_`. -/
theorem trajectoryOptimization_step {σ : Type} (env : PlanningRunEnv σ)
    (self : ItompPlannerNodeState) (groupName : String) (gs : JointState)
    (pc : Constraints) (tc : TrajectoryConstraints)
    (hctor : ∃ t0, ItompCIOTrajectory.ctor env.planner.fuel env.planner.junk self.robot_model_
      self.trajectory_.duration_ self.trajectory_.discretization_
      (env.planner.params.numContacts : ℚ) env.planner.params.phaseDuration = some t0)
    (hik : env.planner.precomputation.constraints = [] → pc.position_constraints ≠ [] →
      ∀ ks pose, ∃ ks2, ikRetry env.planner.kin groupName pose env.planner.fuel ks
        = some ks2) :
    ∃ node s4,
      self.toItompPlannerNode.fillGroupJointTrajectory env.planner groupName gs pc tc
        = some node ∧
      self.trajectoryOptimization env groupName gs pc tc = some s4 ∧
      s4.robot_model_ = self.robot_model_ ∧
      s4.trajectory_.duration_ = self.trajectory_.duration_ ∧
      s4.trajectory_.discretization_ = self.trajectory_.discretization_ ∧
      s4.planning_info_ = self.planning_info_ ∧
      s4.best_cost_manager_ = (env.runOptimizers groupName node.trajectories_
        self.best_cost_manager_.reset).best_cost_manager ∧
      s4.optimizers_ = (List.range env.planner.params.numTrajectories.toNat).map
        (fun (i : ℕ) => (env.runOptimizers groupName node.trajectories_
          self.best_cost_manager_.reset).optimizers (i : ℤ)) := by
  obtain ⟨node, hnode, htpl, -⟩ := fillGroupJointTrajectory_entries env.planner
    self.toItompPlannerNode groupName gs pc tc hctor hik
  have hrm : node.robot_model_ = self.robot_model_ := by
    have h := hnode
    unfold ItompPlannerNode.fillGroupJointTrajectory at h
    simp only [] at h
    split at h
    · cases h
    · simp only [Option.some.injEq] at h
      rw [← h]
  refine ⟨node, ?_⟩
  unfold ItompPlannerNodeState.trajectoryOptimization
  rw [hnode]
  refine ⟨_, rfl, rfl, hrm, ?_, ?_, rfl, rfl, rfl⟩
  · show node.trajectory_.duration_ = _
    rw [htpl]
    rfl
  · show node.trajectory_.discretization_ = _
    rw [htpl]
    rfl

/-- Witness of C28: the planner node after `init()` and a request for "decomposed_body" with
one trial. The trial reaches the second component: the template is initialised, "lower_body"
is optimized and its planning info written, "torso" is optimized, and the call
`writePlanningInfo(0, 1)` then finds a row of length 1. -/
theorem planKinematicPath_decomposed_body_witness :
    preprocessRequest exampleRunEnv exampleBodyRequest = some true ∧
    (∀ row ∈ exampleNodeState.planning_info_, row.length = 1) ∧
    exampleNodeState.planKinematicPath exampleRunEnv exampleBodyRequest exampleResponse
      = none ∧
    ∃ s2 gs s4 s5 s6 row,
      exampleNodeState.initTrajectory exampleRunEnv exampleBodyRequest.start_state
        = some s2 ∧
      s2.getGoalState exampleRunEnv exampleBodyRequest = some gs ∧
      s2.trajectoryOptimization exampleRunEnv "lower_body" gs
        exampleBodyRequest.path_constraints exampleBodyRequest.trajectory_constraints
        = some s4 ∧
      s4.writePlanningInfo exampleRunEnv 0 0 = some s5 ∧
      s5.trajectoryOptimization exampleRunEnv "torso" gs exampleBodyRequest.path_constraints
        exampleBodyRequest.trajectory_constraints = some s6 ∧
      vectorAt s6.planning_info_ 0 = some row ∧ row.length = 1 ∧
      vectorAt row 1 = none ∧
      s6.writePlanningInfo exampleRunEnv 0 1 = none := by
  have hpre : preprocessRequest exampleRunEnv exampleBodyRequest = some true := rfl
  have hinfo0 : exampleNodeState.planning_info_ = [[⟨0, 0, 0, 0⟩]] := rfl
  have hrows : ∀ row ∈ exampleNodeState.planning_info_, row.length = 1 := by
    intro row hrow
    rw [hinfo0] at hrow
    simp at hrow
    rw [hrow]
    rfl
  have hnone := (planKinematicPath_decomposed_body exampleRunEnv exampleNodeState
    exampleBodyRequest exampleResponse hpre rfl (by decide) hrows).2
  refine ⟨hpre, hrows, hnone, ?_⟩
  obtain ⟨s2, hs2, hrm, hdur, hdisc, hinfo, -⟩ :=
    initTrajectory_same_duration exampleRunEnv exampleNodeState
      exampleBodyRequest.start_state rfl
  have hgoal : s2.getGoalState exampleRunEnv exampleBodyRequest = some ⟨[], []⟩ := rfl
  obtain ⟨node, s4, -, hs4, hrm4, hdur4, hdisc4, hinfo4, hbest4, hopts4⟩ :=
    trajectoryOptimization_step exampleRunEnv s2 "lower_body" ⟨[], []⟩ exampleNoPath ⟨[]⟩
      (by rw [hrm, hdur, hdisc]; exact exampleCtor_returns) (fun h => absurd h (by decide))
  have hopt4 : vectorAt s4.optimizers_ s4.best_cost_manager_.getBestCostTrajectoryIndex
      = some exampleFailedOptimizer := by
    rw [hbest4, hopts4]; rfl
  have hrow4 : vectorAt s4.planning_info_ 0 = some [⟨0, 0, 0, 0⟩] := by
    rw [hinfo4, hinfo]; rfl
  obtain ⟨s5, hs5⟩ := writePlanningInfo_returns exampleRunEnv s4 0 0 _ ⟨0, 0, 0, 0⟩ _
    hrow4 rfl hopt4
  obtain ⟨-, row5, -, -, hr5, -, -, -, -, -, -, -, hn5, -⟩ :=
    writePlanningInfo_some exampleRunEnv s4 s5 0 0 hs5
  have hlen5 := writePlanningInfo_row_lengths exampleRunEnv s4 s5 0 0 1 hs5
    (by rw [hinfo4, hinfo]; exact hrows)
  obtain ⟨node6, s6, -, hs6, -, -, -, hinfo6, -, -⟩ :=
    trajectoryOptimization_step exampleRunEnv s5 "torso" ⟨[], []⟩ exampleNoPath ⟨[]⟩
      (by
        rw [hn5, hrm4, hdur4, hdisc4, hrm, hdur, hdisc]
        exact exampleCtor_returns)
      (fun h => absurd h (by decide))
  have hrow6 : vectorAt s6.planning_info_ 0 = some row5 := by rw [hinfo6]; exact hr5
  have hlen6 : row5.length = 1 := hlen5 row5 (vectorAt_mem _ _ _ hr5)
  refine ⟨s2, ⟨[], []⟩, s4, s5, s6, row5, hs2, hgoal, hs4, hs5, hs6, hrow6, hlen6,
    vectorAt_none_of_length_le row5 1 (by rw [hlen6]; decide), ?_⟩
  apply writePlanningInfo_out_of_row
  intro row hrow
  rw [hinfo6] at hrow
  have := hlen5 row hrow
  omega

/-! ## Termination of Cartesian seeding -/

/-- A retry loop whose IK call fails every time returns for no amount of fuel. -/
theorem ikRetry_never {σ : Type} (kin : Kinematics σ) (g : String) (pose : Pose)
    (hfail : ∀ ks, (kin.setFromIK ks g pose).2 = false) :
    ∀ (n : ℕ) (ks : σ), ikRetry kin g pose n ks = none := by
  intro n
  induction n with
  | zero => intro ks; rfl
  | succ n ih =>
    intro ks
    unfold ikRetry
    simp only []
    rw [if_neg (by rw [hfail ks]; decide)]
    exact ih _

theorem cartesianStep_never {σ : Type} (kin : Kinematics σ) (fuel : ℕ)
    (self : ItompCIOTrajectory) (pc : Constraints) (g : String) (i : ℤ)
    (hfail : ∀ ks, (kin.setFromIK ks g (self.cartesianTarget pc i)).2 = false)
    (st : Option (σ × MatrixXd)) : self.cartesianStep kin fuel pc g i st = none := by
  unfold ItompCIOTrajectory.cartesianStep
  cases st with
  | none => rfl
  | some p =>
    simp only []
    rw [ikRetry_never kin g _ hfail fuel p.1]

/-- For an IK capability that fails on every call for the target pose of a sampled step,
Cartesian seeding returns for no amount of fuel. -/
theorem cartesian_seeding_never {σ : Type} (kin : Kinematics σ)
    (self : ItompCIOTrajectory) (l : List ℤ) (vel acc : ℤ → ℚ) (pc : Constraints)
    (g : String) (i : ℤ) (hi0 : self.start_index_ - 1 ≤ i) (hi1 : i ≤ self.end_index_ + 1)
    (hfail : ∀ ks, (kin.setFromIK ks g (self.cartesianTarget pc i)).2 = false) :
    ∀ fuel, self.fillInMinJerkCartesianTrajectory kin fuel l vel acc pc g = none := by
  intro fuel
  unfold ItompCIOTrajectory.fillInMinJerkCartesianTrajectory
  simp only []
  have key := forLoop_induction
    (fun (k : ℤ) (st : Option (σ × MatrixXd)) => i < k → st = none)
    (self.start_index_ - 1) (self.end_index_ + 1 + 1)
    (self.cartesianStep kin fuel pc g)
    (some (kin.setVariablePositions ((List.range self.num_joints_.toNat).map
      (fun (k : ℕ) => self.get (self.start_index_ - 1) (k : ℤ))), self.trajectory_))
    (by omega)
    (by intro h; omega)
    (by
      intro k st hk0 hk1 hP hik
      by_cases hki : k = i
      · subst hki
        exact cartesianStep_never kin fuel self pc g k hfail st
      · rw [hP (by omega)]
        rfl)
  rw [key (by omega)]

/-- Cartesian seeding on `exampleYaw` (rows 0..4) with the IK capability `exampleCountingKin`,
which needs two calls for each step: with one call of fuel the function does not return; with
two or more it returns, and the rows 1, 2, 3, 4 hold the counts 4, 6, 8, 10 of the calls made
up to their step, each retry loop having started from the state left by the step before. -/
theorem cartesian_seeding_counting_example :
    exampleYaw.fillInMinJerkCartesianTrajectory exampleCountingKin 1 [0, 1, 5]
      (fun _ => 0) (fun _ => 0) examplePath "arm" = none ∧
    ∀ fuel, 2 ≤ fuel →
      ∃ t, exampleYaw.fillInMinJerkCartesianTrajectory exampleCountingKin fuel [0, 1, 5]
          (fun _ => 0) (fun _ => 0) examplePath "arm" = some t ∧
        t.get 1 0 = 4 ∧ t.get 2 0 = 6 ∧ t.get 3 0 = 8 ∧ t.get 4 0 = 10 := by
  constructor
  · rfl
  · intro fuel hfuel
    obtain ⟨f, rfl⟩ : ∃ f, fuel = f + 2 := ⟨fuel - 2, by omega⟩
    have hchain : ∀ i : ℤ, exampleYaw.start_index_ - 1 ≤ i →
        i < exampleYaw.start_index_ - 1
          + ((exampleYaw.end_index_ + 1 + 1 - (exampleYaw.start_index_ - 1)).toNat : ℤ) →
        ikRetry exampleCountingKin "arm" (exampleYaw.cartesianTarget examplePath i) (f + 2)
          ((fun k : ℤ => 2 * (k + 1)) (i - 1)) = some ((fun k : ℤ => 2 * (k + 1)) i) := by
      intro i _ _
      have h1 : ¬ (2 * (i - 1 + 1)) % 2 = 1 := by omega
      have h2 : (2 * (i - 1 + 1) + 1) % 2 = 1 := by omega
      simp only [ikRetry, exampleCountingKin, h1, h2, decide_False, decide_True, if_true]
      simp
      ring
    have hfull := cartesianLoop_of_chain exampleCountingKin (f + 2) exampleYaw examplePath "arm"
      (exampleYaw.start_index_ - 1) (fun k : ℤ => 2 * (k + 1)) exampleYaw.trajectory_
      (exampleYaw.end_index_ + 1 + 1 - (exampleYaw.start_index_ - 1)).toNat hchain
    refine ⟨{ exampleYaw with
        vel_start_ := fun _ => 0
        acc_start_ := fun _ => 0
        trajectory_ := cartesianRows exampleCountingKin exampleYaw
          (exampleYaw.start_index_ - 1)
          (exampleYaw.end_index_ + 1 + 1 - (exampleYaw.start_index_ - 1)).toNat
          (fun k : ℤ => 2 * (k + 1)) exampleYaw.trajectory_ }, ?_, ?_⟩
    · unfold ItompCIOTrajectory.fillInMinJerkCartesianTrajectory
      simp only []
      rw [forLoop_eq_foldl]
      have h0 : exampleCountingKin.setVariablePositions
          ((List.range exampleYaw.num_joints_.toNat).map
            (fun (k : ℕ) => exampleYaw.get (exampleYaw.start_index_ - 1) (k : ℤ)))
          = (fun k : ℤ => 2 * (k + 1)) (exampleYaw.start_index_ - 1 - 1) := rfl
      rw [h0, hfull]
    · refine ⟨?_, ?_, ?_, ?_⟩ <;>
      · simp [ItompCIOTrajectory.get, cartesianRows, exampleYaw, exampleCountingKin]
        norm_num

/-- Cartesian seeding on `exampleYaw` with the IK capability `exampleStuckKin`, which never
finds a solution, returns for no amount of fuel. -/
theorem cartesian_seeding_stuck_example :
    ∀ fuel, exampleYaw.fillInMinJerkCartesianTrajectory exampleStuckKin fuel [0, 1, 5]
      (fun _ => 0) (fun _ => 0) examplePath "arm" = none :=
  cartesian_seeding_never exampleStuckKin exampleYaw [0, 1, 5] (fun _ => 0) (fun _ => 0)
    examplePath "arm" 0 (by decide) (by decide) (fun _ => rfl)

/-! ## The block of a candidate in the list built by the driver -/

/-! The decimal string of a natural number: it determines the number, has a digit, and has
only digits. -/

/-- The value of a decimal digit character is the digit. -/
theorem digitChar_toNat (k : ℕ) (h : k < 10) : (Nat.digitChar k).toNat - 48 = k := by
  interval_cases k <;> rfl

theorem digitChar_isDigit (k : ℕ) (h : k < 10) : (Nat.digitChar k).isDigit = true := by
  interval_cases k <;> rfl

/-- Reading the digits produced for `n` in front of `ds` as a decimal number, starting from 0,
is reading `ds` starting from `n`. -/
theorem toDigitsCore_decode : ∀ (fuel n : ℕ) (ds : List Char), n < fuel →
    (Nat.toDigitsCore 10 fuel n ds).foldl (fun a c => 10 * a + (c.toNat - 48)) 0
      = ds.foldl (fun a c => 10 * a + (c.toNat - 48)) n := by
  intro fuel
  induction fuel with
  | zero => intro n ds h; omega
  | succ fuel ih =>
    intro n ds h
    unfold Nat.toDigitsCore
    simp only []
    by_cases h0 : n / 10 = 0
    · rw [if_pos h0]
      simp only [List.foldl_cons]
      rw [digitChar_toNat _ (Nat.mod_lt _ (by decide))]
      congr 1
      omega
    · rw [if_neg h0, ih (n / 10) _ (by omega)]
      simp only [List.foldl_cons]
      rw [digitChar_toNat _ (Nat.mod_lt _ (by decide))]
      congr 1
      omega

theorem toDigitsCore_all_digits : ∀ (fuel n : ℕ) (ds : List Char),
    ds.all Char.isDigit = true → (Nat.toDigitsCore 10 fuel n ds).all Char.isDigit = true := by
  intro fuel
  induction fuel with
  | zero => intro n ds h; exact h
  | succ fuel ih =>
    intro n ds h
    unfold Nat.toDigitsCore
    simp only []
    have hd : (Nat.digitChar (n % 10) :: ds).all Char.isDigit = true := by
      rw [List.all_cons, digitChar_isDigit _ (Nat.mod_lt _ (by decide)), h]
      rfl
    by_cases h0 : n / 10 = 0
    · rw [if_pos h0]; exact hd
    · rw [if_neg h0]; exact ih _ _ hd

theorem toDigitsCore_ne_nil : ∀ (fuel n : ℕ) (ds : List Char),
    ds ≠ [] → Nat.toDigitsCore 10 fuel n ds ≠ [] := by
  intro fuel
  induction fuel with
  | zero => intro n ds h; exact h
  | succ fuel ih =>
    intro n ds h
    unfold Nat.toDigitsCore
    simp only []
    by_cases h0 : n / 10 = 0
    · rw [if_pos h0]; exact List.cons_ne_nil _ _
    · rw [if_neg h0]; exact ih _ _ (List.cons_ne_nil _ _)

theorem toString_natCast (n : ℕ) : toString ((n : ℕ) : ℤ) = ⟨Nat.toDigits 10 n⟩ := rfl

/-- The decimal strings of two natural numbers are equal only if the numbers are. -/
theorem toString_natCast_injective (a b : ℕ) (h : toString ((a : ℕ) : ℤ) = toString ((b : ℕ) : ℤ)) :
    a = b := by
  rw [toString_natCast, toString_natCast] at h
  have h1 : Nat.toDigits 10 a = Nat.toDigits 10 b := congrArg String.data h
  have ha := toDigitsCore_decode (a + 1) a [] (by omega)
  have hb := toDigitsCore_decode (b + 1) b [] (by omega)
  unfold Nat.toDigits at h1
  rw [h1, hb] at ha
  simpa using ha.symm

/-- The decimal string of a natural number is not the sentinel "end". -/
theorem toString_natCast_ne_end (n : ℕ) : toString ((n : ℕ) : ℤ) ≠ "end" := by
  rw [toString_natCast]
  intro h
  have h1 : Nat.toDigits 10 n = "end".data := congrArg String.data h
  have h2 := toDigitsCore_all_digits (n + 1) n [] rfl
  unfold Nat.toDigits at h1
  rw [h1] at h2
  revert h2
  decide

/-- The decimal string of a natural number is not the empty name. -/
theorem toString_natCast_ne_empty (n : ℕ) : toString ((n : ℕ) : ℤ) ≠ "" := by
  rw [toString_natCast]
  intro h
  have h1 : Nat.toDigits 10 n = [] := congrArg String.data h
  unfold Nat.toDigits Nat.toDigitsCore at h1
  simp only [] at h1
  split at h1
  · exact List.cons_ne_nil _ _ h1
  · exact toDigitsCore_ne_nil _ _ _ (List.cons_ne_nil _ _) h1

theorem vectorModify_length {α : Type} (v : List α) (i : ℤ) (f : α → α) :
    (vectorModify v i f).length = v.length := by
  unfold vectorModify
  split <;> simp

theorem vectorModify_getElem_opt {α : Type} (v : List α) (p : ℕ) (f : α → α) (k : ℕ) :
    (vectorModify v (p : ℤ) f)[k]? = if k = p then v[k]?.map f else v[k]? := by
  unfold vectorModify vectorAt
  simp only [Int.natCast_nonneg, if_true, Int.toNat_ofNat]
  cases hp : v[p]? with
  | none =>
    simp only []
    by_cases hk : k = p
    · subst hk; simp [hp]
    · simp [hk]
  | some x =>
    simp only []
    by_cases hk : k = p
    · subst hk
      have hlt : k < v.length := (List.getElem?_eq_some_iff.1 hp).1
      simp [hp, List.getElem?_set, hlt]
    · have hk2 : p ≠ k := fun h => hk h.symm
      simp [hk, List.getElem?_set, hk2]

theorem forLoop_natCast {σ : Type} (n : ℕ) (body : ℤ → σ → σ) (s : σ) :
    forLoop 0 (n : ℤ) body s = (List.range n).foldl (fun st (k : ℕ) => body (k : ℤ) st) s := by
  unfold forLoop
  simp

/-- What the body of the waypoint loop leaves at each index of the list. -/
theorem driverWaypoint_getElem_opt (variable_names : List String) (points : List (List ℚ))
    (c : ℤ) (L j : ℕ) (cs : List Constraints) (k : ℕ) :
    (driverWaypoint variable_names points c (L : ℤ) (j : ℤ) cs)[k]? =
      if k = j + L then
        cs[k]?.map (fun x =>
          ⟨if (j : ℤ) = (points.length : ℤ) - 1 then "end"
            else if j = 0 then toString c else x.name,
            (List.range (points.headD []).length).map (fun i =>
              ⟨variable_names.getD i "", (points.getD j []).getD i 0⟩),
            x.position_constraints, x.orientation_constraints⟩)
      else cs[k]? := by
  unfold driverWaypoint
  simp only []
  have hp : ((j : ℤ) + (L : ℤ)) = ((j + L : ℕ) : ℤ) := by push_cast; rfl
  rw [hp, vectorModify_getElem_opt]
  by_cases hk : k = j + L
  · rw [if_pos hk, if_pos hk]
    by_cases h1 : (j : ℤ) = (points.length : ℤ) - 1
    · rw [if_pos h1, vectorModify_getElem_opt, if_pos hk]
      by_cases h0 : (j : ℤ) = 0
      · rw [if_pos h0, vectorModify_getElem_opt, if_pos hk]
        cases cs[k]? with
        | none => rfl
        | some x => simp only [Option.map_some', Int.toNat_ofNat, if_pos h1]
      · rw [if_neg h0]
        cases cs[k]? with
        | none => rfl
        | some x => simp only [Option.map_some', Int.toNat_ofNat, if_pos h1]
    · rw [if_neg h1]
      by_cases h0 : (j : ℤ) = 0
      · rw [if_pos h0, vectorModify_getElem_opt, if_pos hk]
        have h0n : j = 0 := by exact_mod_cast h0
        cases cs[k]? with
        | none => rfl
        | some x => simp only [Option.map_some', Int.toNat_ofNat, if_neg h1, if_pos h0n]
      · rw [if_neg h0]
        have h0n : ¬ j = 0 := fun h => h0 (by exact_mod_cast h)
        cases cs[k]? with
        | none => rfl
        | some x => simp only [Option.map_some', Int.toNat_ofNat, if_neg h1, if_neg h0n]
  · rw [if_neg hk, if_neg hk]
    by_cases h1 : (j : ℤ) = (points.length : ℤ) - 1
    · rw [if_pos h1, vectorModify_getElem_opt, if_neg hk]
      by_cases h0 : (j : ℤ) = 0
      · rw [if_pos h0, vectorModify_getElem_opt, if_neg hk]
      · rw [if_neg h0]
    · rw [if_neg h1]
      by_cases h0 : (j : ℤ) = 0
      · rw [if_pos h0, vectorModify_getElem_opt, if_neg hk]
      · rw [if_neg h0]

theorem driverWaypoint_length (variable_names : List String) (points : List (List ℚ))
    (c b j : ℤ) (cs : List Constraints) :
    (driverWaypoint variable_names points c b j cs).length = cs.length := by
  unfold driverWaypoint
  simp only []
  rw [vectorModify_length]
  split_ifs <;> simp [vectorModify_length]

theorem driverBlock_getElem_opt (variable_names : List String) (points : List (List ℚ)) (c : ℤ)
    (j : ℕ) :
    (driverBlock variable_names points c)[j]? =
      if j < points.length then some (driverEntry variable_names points c j) else none := by
  unfold driverBlock
  rw [List.getElem?_map]
  by_cases h : j < points.length
  · rw [if_pos h, List.getElem?_range h]
    rfl
  · rw [if_neg h, List.getElem?_eq_none (by simpa using h)]
    rfl

theorem driverBlock_length (variable_names : List String) (points : List (List ℚ)) (c : ℤ) :
    (driverBlock variable_names points c).length = points.length := by
  unfold driverBlock
  simp

/-- The waypoint loop fills the entries appended by the resize with the block of the
candidate and leaves the earlier entries as they were. -/
theorem driverWaypointLoop_eq (variable_names : List String) (points : List (List ℚ)) (c : ℤ)
    (old : List Constraints) :
    forLoop 0 (points.length : ℤ)
        (driverWaypoint variable_names points c (old.length : ℤ))
        (old ++ List.replicate points.length default)
      = old ++ driverBlock variable_names points c := by
  rw [forLoop_natCast]
  have key := foldl_range_induction
    (fun (k : ℕ) (cs : List Constraints) =>
      cs.length = old.length + points.length ∧
      ∀ i : ℕ, cs[i]? =
        if i < old.length then old[i]?
        else if i < old.length + k then
          some (driverEntry variable_names points c (i - old.length))
        else if i < old.length + points.length then some default else none)
    (fun cs (k : ℕ) => driverWaypoint variable_names points c (old.length : ℤ) (k : ℤ) cs)
    (old ++ List.replicate points.length default) points.length
    (by
      refine ⟨by simp, ?_⟩
      intro i
      rw [List.getElem?_append]
      by_cases h1 : i < old.length
      · rw [if_pos h1, if_pos h1]
      · rw [if_neg h1, if_neg h1, if_neg (by omega)]
        by_cases h2 : i < old.length + points.length
        · rw [if_pos h2, List.getElem?_replicate, if_pos (by omega)]
        · rw [if_neg h2, List.getElem?_replicate, if_neg (by omega)])
    (by
      intro k cs hk hP
      refine ⟨by rw [driverWaypoint_length]; exact hP.1, ?_⟩
      intro i
      rw [driverWaypoint_getElem_opt]
      by_cases hi : i = k + old.length
      · rw [if_pos hi, hP.2 i, if_neg (by omega), if_neg (by omega), if_pos (by omega),
          if_neg (by omega), if_pos (by omega)]
        have hik : i - old.length = k := by omega
        rw [hik]
        rfl
      · rw [if_neg hi, hP.2 i]
        by_cases h1 : i < old.length
        · rw [if_pos h1, if_pos h1]
        · rw [if_neg h1, if_neg h1]
          by_cases h2 : i < old.length + k
          · rw [if_pos h2, if_pos (show i < old.length + (k + 1) by omega)]
          · rw [if_neg h2, if_neg (show ¬ i < old.length + (k + 1) by omega)])
  apply List.ext_getElem?
  intro i
  rw [key.2 i, List.getElem?_append, driverBlock_getElem_opt]
  by_cases h1 : i < old.length
  · rw [if_pos h1, if_pos h1]
  · rw [if_neg h1, if_neg h1]
    by_cases h2 : i < old.length + points.length
    · rw [if_pos h2, if_pos (show i - old.length < points.length by omega)]
    · rw [if_neg h2, if_neg h2, if_neg (show ¬ i - old.length < points.length by omega)]

/-- One pass of the candidate loop appends the block of the candidate, provided
`traj_constraint_begin` is the length of the list, and keeps it so. -/
theorem driverCandidate_eq (variable_names : List String) (response : ℤ → List (List ℚ))
    (c : ℤ) (old : List Constraints) :
    driverCandidate variable_names response c (old, (old.length : ℤ))
      = (old ++ driverBlock variable_names (response c) c,
          ((old ++ driverBlock variable_names (response c) c).length : ℤ)) := by
  unfold driverCandidate
  simp only []
  have hres : vectorResize old ((old.length : ℤ) + ((response c).length : ℤ)) default
      = old ++ List.replicate (response c).length default := by
    unfold vectorResize
    have h : ((old.length : ℤ) + ((response c).length : ℤ)).toNat
        = old.length + (response c).length := by omega
    rw [h, List.take_of_length_le (by omega)]
    congr 2
    omega
  rw [hres, driverWaypointLoop_eq]
  congr 1
  rw [List.length_append, driverBlock_length]
  push_cast
  rfl

/-- The candidate loop of the driver builds the blocks of the candidates one after the
other. -/
theorem driverConstraints_eq (variable_names : List String) (response : ℤ → List (List ℚ))
    (M : ℕ) :
    driverConstraints variable_names (M : ℤ) response
      = ⟨driverBlocks variable_names response M⟩ := by
  unfold driverConstraints
  rw [forLoop_natCast]
  have key := foldl_range_induction
    (fun (k : ℕ) (st : List Constraints × ℤ) =>
      st = (driverBlocks variable_names response k,
        ((driverBlocks variable_names response k).length : ℤ)))
    (fun st (k : ℕ) => driverCandidate variable_names response (k : ℤ) st)
    ([], 0) M rfl
    (by
      intro k st _ hP
      rw [hP]
      show driverCandidate variable_names response (k : ℤ) _ = _
      rw [driverCandidate_eq]
      rfl)
  rw [key]

theorem driverBlocks_length (variable_names : List String) (response : ℤ → List (List ℚ)) :
    ∀ m : ℕ, (driverBlocks variable_names response m).length = driverOffset response m
  | 0 => rfl
  | m + 1 => by
    unfold driverBlocks driverOffset
    rw [List.length_append, driverBlock_length, driverBlocks_length variable_names response m]

/-- The list of `M` candidates holds the blocks of the candidates below `c`, then the block of
`c`, then the later blocks. -/
theorem driverBlocks_split (variable_names : List String) (response : ℤ → List (List ℚ))
    (c : ℕ) : ∀ M : ℕ, c < M → ∃ rest, driverBlocks variable_names response M
      = driverBlocks variable_names response c
        ++ (driverBlock variable_names (response (c : ℤ)) (c : ℤ) ++ rest)
  | 0 => fun h => absurd h (Nat.not_lt_zero c)
  | M + 1 => by
    intro h
    by_cases hc : c = M
    · subst hc
      exact ⟨[], by rw [List.append_nil]; rfl⟩
    · obtain ⟨rest, hr⟩ := driverBlocks_split variable_names response c M (by omega)
      refine ⟨rest ++ driverBlock variable_names (response (M : ℤ)) (M : ℤ), ?_⟩
      show driverBlocks variable_names response M ++ _ = _
      rw [hr, List.append_assoc, List.append_assoc]

theorem driverEntry_name (variable_names : List String) (points : List (List ℚ)) (c : ℤ)
    (j : ℕ) :
    (driverEntry variable_names points c j).name =
      if (j : ℤ) = (points.length : ℤ) - 1 then "end"
      else if j = 0 then toString c else "" := rfl

/-- No waypoint of the blocks below `m` is named by the decimal string of a candidate
`c ≥ m`. -/
theorem driverBlocks_name_ne (variable_names : List String) (response : ℤ → List (List ℚ))
    (c : ℕ) : ∀ m : ℕ, m ≤ c → ∀ x ∈ driverBlocks variable_names response m,
      x.name ≠ toString ((c : ℕ) : ℤ)
  | 0 => fun _ x hx => absurd hx (List.not_mem_nil x)
  | m + 1 => by
    intro hm x hx
    unfold driverBlocks at hx
    rcases List.mem_append.1 hx with h | h
    · exact driverBlocks_name_ne variable_names response c m (by omega) x h
    · unfold driverBlock at h
      obtain ⟨j, _, hj⟩ := List.mem_map.1 h
      rw [← hj, driverEntry_name]
      split_ifs
      · exact fun e => toString_natCast_ne_end c e.symm
      · intro e
        have := toString_natCast_injective m c e
        omega
      · exact fun e => toString_natCast_ne_empty c e.symm

theorem findIdx_append_of_forall_false {α : Type} (p : α → Bool) (l : List α) :
    ∀ (a : List α), (∀ x ∈ a, p x = false) → (a ++ l).findIdx p = a.length + l.findIdx p
  | [], _ => by simp
  | y :: a, h => by
    rw [List.cons_append, List.findIdx_cons, h y (List.mem_cons_self y a),
      findIdx_append_of_forall_false p l a (fun x hx => h x (List.mem_cons_of_mem y hx))]
    simp only [cond_false, List.length_cons]
    omega

theorem findIdx_eq_of_getElem_opt {α : Type} (p : α → Bool) :
    ∀ (l : List α) (i : ℕ) (x : α), l[i]? = some x → p x = true →
      (∀ j y, j < i → l[j]? = some y → p y = false) → l.findIdx p = i
  | [], i, x, h, _, _ => by simp at h
  | y :: l, 0, x, h, hp, _ => by
    have hy : y = x := by simpa using h
    rw [List.findIdx_cons, hy, hp]
    rfl
  | y :: l, i + 1, x, h, hp, hn => by
    have hy : p y = false := hn 0 y (by omega) (by simp)
    rw [List.findIdx_cons, hy]
    simp only [cond_false]
    rw [findIdx_eq_of_getElem_opt p l i x (by simpa using h) hp
      (fun j z hj hz => hn (j + 1) z (by omega) (by simpa using hz))]

/-- The two search loops on a list made of a part `A` with no waypoint named by the candidate,
a block `B` of at least two waypoints whose first is named by the candidate, whose last is
named "end" and none of whose others is, and a remainder `R`: the loops select exactly `B`. -/
theorem constraintBlock_of_split (A B R : List Constraints) (c : ℤ)
    (h2 : 2 ≤ B.length)
    (hA : ∀ x ∈ A, x.name ≠ toString c)
    (hfirst : ∀ x, B[0]? = some x → x.name = toString c)
    (hlast : ∀ x, B[B.length - 1]? = some x → x.name = "end")
    (hmid : ∀ j x, j < B.length - 1 → B[j]? = some x → x.name ≠ "end") :
    constraintBlock ⟨A ++ (B ++ R)⟩ c = ((A.length : ℤ), (A.length : ℤ) + (B.length : ℤ)) := by
  have hget : ∀ j, j < B.length →
      (B.map (fun x => x.name) ++ R.map (fun x => x.name))[j]?
        = (B[j]?).map (fun x => x.name) := by
    intro j hj
    rw [List.getElem?_append_left (by simpa using hj), List.getElem?_map]
  have hsome : ∀ j, j < B.length → ∃ x, B[j]? = some x := by
    intro j hj
    exact ⟨B[j], List.getElem?_eq_getElem hj⟩
  have hi1 : List.findIdx (fun n => n == toString c)
      (A.map (fun x => x.name) ++ (B.map (fun x => x.name) ++ R.map (fun x => x.name)))
        = A.length := by
    obtain ⟨x, hx⟩ := hsome 0 (by omega)
    rw [findIdx_append_of_forall_false _ _ _ (by
        intro n hn
        obtain ⟨y, hy, hyn⟩ := List.mem_map.1 hn
        rw [← hyn]
        exact beq_eq_false_iff_ne.2 (hA y hy)),
      findIdx_eq_of_getElem_opt _ _ 0 x.name (by rw [hget 0 (by omega), hx]; rfl)
        (by rw [hfirst x hx]; exact beq_self_eq_true _)
        (fun j y hj _ => absurd hj (Nat.not_lt_zero j))]
    simp
  have hi2 : List.findIdx (fun n => n == "end")
      (B.map (fun x => x.name) ++ R.map (fun x => x.name)) = B.length - 1 := by
    obtain ⟨x, hx⟩ := hsome (B.length - 1) (by omega)
    refine findIdx_eq_of_getElem_opt _ _ (B.length - 1) x.name
      (by rw [hget _ (by omega), hx]; rfl)
      (by rw [hlast x hx]; rfl) ?_
    intro j y hj hy
    obtain ⟨z, hz⟩ := hsome j (by omega)
    rw [hget j (by omega), hz] at hy
    have hyz : z.name = y := by simpa using hy
    rw [← hyz]
    exact beq_eq_false_iff_ne.2 (hmid j z hj hz)
  unfold constraintBlock
  simp only [List.map_append]
  rw [hi1, List.drop_left' (by simp), hi2]
  simp only [List.length_append, List.length_map]
  rw [if_pos (by omega), if_pos (by omega)]
  congr 1
  push_cast
  omega

/-- An entry of the block of candidate `c` sits in the driver's list at the block's offset
plus its index in the block. -/
theorem driverConstraints_entry (variable_names : List String)
    (response : ℤ → List (List ℚ)) (M c : ℕ) (hc : c < M) (j : ℕ)
    (hj : j < (response (c : ℤ)).length) :
    vectorAt (driverConstraints variable_names (M : ℤ) response).constraints
        ((driverOffset response c : ℤ) + (j : ℤ))
      = some (driverEntry variable_names (response (c : ℤ)) (c : ℤ) j) := by
  rw [driverConstraints_eq]
  obtain ⟨rest, hr⟩ := driverBlocks_split variable_names response c M hc
  have hA := driverBlocks_length variable_names response c
  have hB := driverBlock_length variable_names (response (c : ℤ)) (c : ℤ)
  unfold vectorAt
  have hn : ((driverOffset response c : ℤ) + (j : ℤ)).toNat = driverOffset response c + j := by
    omega
  rw [if_pos (by omega), hn]
  simp only []
  rw [hr, List.getElem?_append_right (by omega), hA, Nat.add_sub_cancel_left,
    List.getElem?_append_left (by omega), driverBlock_getElem_opt, if_pos hj]

/-- C24. Waypoint block selection on the list the driver builds. For every list of variable
names, every family of candidate trajectories `response`, every number of candidates `M` and
every candidate `c < M` whose trajectory has at least two points (the blocks of the other
candidates may have any length), the two search loops of `fillInMinJerk` select exactly the
block of `c`: `traj_constraint_begin` is the number of waypoints of the candidates below `c`,
the index of the block's first waypoint, which is named by the decimal string of `c`;
`traj_constraint_end - 1` is the index of the block's last waypoint, which is named "end";
`num_constraint_points = traj_constraint_end - traj_constraint_begin` is the number of points
of the trajectory of `c`; and the entries between the two are the waypoints of that
trajectory, in order. -/
theorem driver_block_selection (variable_names : List String)
    (response : ℤ → List (List ℚ)) (M c : ℕ) (hc : c < M)
    (hlen : 2 ≤ (response (c : ℤ)).length) :
    constraintBlock (driverConstraints variable_names (M : ℤ) response) (c : ℤ)
      = ((driverOffset response c : ℤ),
          (driverOffset response c : ℤ) + ((response (c : ℤ)).length : ℤ)) ∧
    (constraintBlock (driverConstraints variable_names (M : ℤ) response) (c : ℤ)).2
      - (constraintBlock (driverConstraints variable_names (M : ℤ) response) (c : ℤ)).1
      = ((response (c : ℤ)).length : ℤ) ∧
    (vectorAt (driverConstraints variable_names (M : ℤ) response).constraints
        (driverOffset response c : ℤ)).map (fun x => x.name) = some (toString (c : ℤ)) ∧
    (vectorAt (driverConstraints variable_names (M : ℤ) response).constraints
        ((driverOffset response c : ℤ) + ((response (c : ℤ)).length : ℤ) - 1)).map
      (fun x => x.name) = some "end" ∧
    ∀ j : ℕ, j < (response (c : ℤ)).length →
      vectorAt (driverConstraints variable_names (M : ℤ) response).constraints
          ((driverOffset response c : ℤ) + (j : ℤ))
        = some ⟨if j + 1 = (response (c : ℤ)).length then "end"
            else if j = 0 then toString (c : ℤ) else "",
          (List.range ((response (c : ℤ)).headD []).length).map (fun k =>
            ⟨variable_names.getD k "", (((response (c : ℤ)).getD j []).getD k 0)⟩),
          [], []⟩ := by
  have hentry := driverConstraints_entry variable_names response M c hc
  have hname : ∀ j : ℕ, (driverEntry variable_names (response (c : ℤ)) (c : ℤ) j).name
      = if j + 1 = (response (c : ℤ)).length then "end"
        else if j = 0 then toString (c : ℤ) else "" := by
    intro j
    rw [driverEntry_name]
    by_cases h : j + 1 = (response (c : ℤ)).length
    · rw [if_pos h, if_pos (by omega)]
    · rw [if_neg h, if_neg (by omega)]
  have hblock : constraintBlock (driverConstraints variable_names (M : ℤ) response) (c : ℤ)
      = ((driverOffset response c : ℤ),
          (driverOffset response c : ℤ) + ((response (c : ℤ)).length : ℤ)) := by
    rw [driverConstraints_eq]
    obtain ⟨rest, hr⟩ := driverBlocks_split variable_names response c M hc
    have hB := driverBlock_length variable_names (response (c : ℤ)) (c : ℤ)
    rw [hr, constraintBlock_of_split _ _ _ _ (by omega)
      (driverBlocks_name_ne variable_names response c c (le_refl c)),
      driverBlocks_length, hB]
    · intro x hx
      rw [driverBlock_getElem_opt, if_pos (by omega)] at hx
      rw [← Option.some.inj hx, hname 0, if_neg (by omega), if_pos rfl]
    · intro x hx
      rw [hB, driverBlock_getElem_opt, if_pos (by omega)] at hx
      rw [← Option.some.inj hx, hname, if_pos (by omega)]
    · intro j x hj hx
      rw [hB] at hj
      rw [driverBlock_getElem_opt, if_pos (by omega)] at hx
      rw [← Option.some.inj hx, hname, if_neg (by omega)]
      split_ifs
      · exact toString_natCast_ne_end c
      · decide
  refine ⟨hblock, by rw [hblock]; simp, ?_, ?_, ?_⟩
  · have h := hentry 0 (by omega)
    rw [Nat.cast_zero, add_zero] at h
    rw [h, Option.map_some', hname 0, if_neg (by omega), if_pos rfl]
  · have h := hentry ((response (c : ℤ)).length - 1) (by omega)
    have hcast : (driverOffset response c : ℤ) + (((response (c : ℤ)).length - 1 : ℕ) : ℤ)
        = (driverOffset response c : ℤ) + ((response (c : ℤ)).length : ℤ) - 1 := by omega
    rw [hcast] at h
    rw [h, Option.map_some', hname, if_pos (by omega)]
  · intro j hj
    rw [hentry j hj]
    have hn := hname j
    unfold driverEntry at hn ⊢
    simp only [] at hn
    rw [hn]

/-- The theorem `driver_block_selection` on the trajectories `exampleDriverResponse` with two
candidates, for candidate 1, whose block of three waypoints follows the two of candidate 0. -/
theorem driver_block_selection_witness :
    2 ≤ (exampleDriverResponse ((1 : ℕ) : ℤ)).length ∧
    driverOffset exampleDriverResponse 1 = 2 ∧
    (constraintBlock (driverConstraints ["arm_1"] ((2 : ℕ) : ℤ) exampleDriverResponse)
        ((1 : ℕ) : ℤ)
      = ((driverOffset exampleDriverResponse 1 : ℤ),
          (driverOffset exampleDriverResponse 1 : ℤ)
            + ((exampleDriverResponse ((1 : ℕ) : ℤ)).length : ℤ))) :=
  ⟨by decide, by decide,
    (driver_block_selection ["arm_1"] exampleDriverResponse 2 1 (by decide) (by decide)).1⟩

/-- The list the driver builds from `exampleDriverResponse` for two candidates. -/
theorem driverConstraints_example :
    driverConstraints ["arm_1"] 2 exampleDriverResponse
      = ⟨[⟨"0", [⟨"arm_1", 0⟩], [], []⟩, ⟨"end", [⟨"arm_1", 1⟩], [], []⟩,
          ⟨"1", [⟨"arm_1", 0⟩], [], []⟩, ⟨"", [⟨"arm_1", 2⟩], [], []⟩,
          ⟨"end", [⟨"arm_1", 3⟩], [], []⟩]⟩ ∧
    constraintBlock (driverConstraints ["arm_1"] 2 exampleDriverResponse) 1 = (2, 5) := by
  constructor
  · rfl
  · decide

/-! ## Interleavings of the reports to the best-cost coordinator

Each `reportCost` call runs under mutual exclusion, so an interleaving of the calls of several
optimizers is an order in which the calls take the lock: a permutation of the reports. -/

theorem reportCost_of_top (i j : ℤ) (c : ℚ) :
    (⟨i, ⊤⟩ : BestCostManager).reportCost j c = ⟨j, (c : WithTop ℚ)⟩ := by
  simp [BestCostManager.reportCost]

theorem reportCost_of_coe (i j : ℤ) (b c : ℚ) :
    (⟨i, (b : WithTop ℚ)⟩ : BestCostManager).reportCost j c
      = if c < b then ⟨j, (c : WithTop ℚ)⟩ else ⟨i, (b : WithTop ℚ)⟩ := by
  simp [BestCostManager.reportCost, WithTop.coe_lt_coe]

/-- C21, as amended. For the reports with costs 5, 3, 3, 7 of the candidates 0, 1, 2, 3 and
every order `l` in which the four calls take the lock after a reset, once all have completed
`bestCost` is 3 and `bestIndex()` is 1 or 2: it is 1 exactly when the report of candidate 1
comes before the report of candidate 2. -/
theorem reportCost_interleavings (m0 : BestCostManager) (l : List (ℤ × ℚ))
    (h : l.Perm exampleCostReports) :
    (m0.reset.reportAll l).bestCost = ((3 : ℚ) : WithTop ℚ) ∧
    ((m0.reset.reportAll l).getBestCostTrajectoryIndex = 1 ∨
      (m0.reset.reportAll l).getBestCostTrajectoryIndex = 2) ∧
    ((m0.reset.reportAll l).getBestCostTrajectoryIndex = 1 ↔
      (l.map Prod.fst).indexOf 1 < (l.map Prod.fst).indexOf 2) := by
  have hm : l ∈ List.permutations' exampleCostReports := List.mem_permutations'.2 h
  simp [exampleCostReports, List.permutations', List.permutations'Aux] at hm
  have h35 : (3 : ℚ) < 5 := by norm_num
  have h37 : (3 : ℚ) < 7 := by norm_num
  have h57 : (5 : ℚ) < 7 := by norm_num
  have h33 : ¬ (3 : ℚ) < 3 := by norm_num
  have h53 : ¬ (5 : ℚ) < 3 := by norm_num
  have h73 : ¬ (7 : ℚ) < 3 := by norm_num
  have h75 : ¬ (7 : ℚ) < 5 := by norm_num
  rcases hm with rfl | rfl | rfl | rfl | rfl | rfl | rfl | rfl | rfl | rfl | rfl | rfl |
    rfl | rfl | rfl | rfl | rfl | rfl | rfl | rfl | rfl | rfl | rfl | rfl
  all_goals
    simp only [BestCostManager.reportAll, List.foldl_cons, List.foldl_nil,
      BestCostManager.reset, reportCost_of_top, reportCost_of_coe, h35, h37, h57, h33, h53,
      h73, h75, if_true, if_false, BestCostManager.getBestCostTrajectoryIndex]
    decide

/-- The theorem `reportCost_interleavings` on the order of the candidates, after the reset of
the coordinator of `exampleRaceState`: the winner is candidate 1. -/
theorem reportCost_interleavings_witness :
    exampleCostReports.Perm exampleCostReports ∧
    (exampleRaceState.best_cost_manager_.reset.reportAll exampleCostReports).bestCost
      = ((3 : ℚ) : WithTop ℚ) ∧
    ((exampleRaceState.best_cost_manager_.reset.reportAll
        exampleCostReports).getBestCostTrajectoryIndex = 1 ↔
      (exampleCostReports.map Prod.fst).indexOf 1
        < (exampleCostReports.map Prod.fst).indexOf 2) ∧
    (exampleCostReports.map Prod.fst).indexOf 1
      < (exampleCostReports.map Prod.fst).indexOf 2 :=
  ⟨List.Perm.refl _,
    (reportCost_interleavings exampleRaceState.best_cost_manager_ exampleCostReports
      (List.Perm.refl _)).1,
    (reportCost_interleavings exampleRaceState.best_cost_manager_ exampleCostReports
      (List.Perm.refl _)).2.2,
    by decide⟩

/-- C21, counterexample. The calls can take the lock in the order 0, 2, 1, 3: this is an
interleaving of the four reports, and after all have completed `bestCost` is 3 but
`bestIndex()` is 2, not 1. -/
theorem reportCost_interleaving_with_winner_2 :
    [((0 : ℤ), (5 : ℚ)), (2, 3), (1, 3), (3, 7)].Perm exampleCostReports ∧
    (exampleRaceState.best_cost_manager_.reset.reportAll
      [(0, 5), (2, 3), (1, 3), (3, 7)]).bestCost = ((3 : ℚ) : WithTop ℚ) ∧
    (exampleRaceState.best_cost_manager_.reset.reportAll
      [(0, 5), (2, 3), (1, 3), (3, 7)]).getBestCostTrajectoryIndex = 2 ∧
    (exampleRaceState.best_cost_manager_.reset.reportAll
      [(0, 5), (2, 3), (1, 3), (3, 7)]).getBestCostTrajectoryIndex ≠ 1 := by
  have h35 : (3 : ℚ) < 5 := by norm_num
  have h33 : ¬ (3 : ℚ) < 3 := by norm_num
  have h73 : ¬ (7 : ℚ) < 3 := by norm_num
  refine ⟨List.Perm.cons _ (List.Perm.swap _ _ _), ?_, ?_, ?_⟩
  all_goals
    simp only [BestCostManager.reportAll, List.foldl_cons, List.foldl_nil,
      BestCostManager.reset, reportCost_of_top, reportCost_of_coe, h35, h33, h73, if_true,
      if_false, BestCostManager.getBestCostTrajectoryIndex]
  decide

end itomp_ca_planner
